import Mathlib

/-!
# SmartCharge recommendation core (`internal/recommend`)

A shallow embedding of `service.go`, `linear.go` and `rl.go`.

Modelling conventions.
* Two layers. The scorers, the service and the bookkeeping of the Q-table are embedded
  with exact arithmetic: there a `float64` value is a rational (`ℚ`), without rounding,
  NaN or infinities. The functions whose stated properties depend on `float64` itself
  (`sortAndLimit`, `normalizeScore`, `getQValue` and `UpdateQValue`, the distance
  component) are embedded a second time, in the namespace `IEEE`, over a `float64` with
  NaN, both infinities, overflow, and rounding to nearest with ties to even.
* `int`, `int32` are `Int`; none of the modelled operations can overflow.
* A Go call either returns a value, returns an `error`, or panics: `Result`.
* `math/rand` is an explicit stream of draws (`Rand`), `time.Now()` an explicit argument.
* `calculateDistance` uses `math.Sin`, `math.Cos`, `math.Atan2`, `math.Sqrt`; the scorers
  take it as the parameter `calcDist`, and the function itself is defined over the reals.
-/

namespace Recommend

/-! ## Data model -/

/-- Outcome of a Go call: a returned value, a returned `error`, or a run-time panic. -/
inductive Result (α : Type) where
  | ok : α → Result α
  | error : String → Result α
  | panic : Result α
deriving DecidableEq, Repr

/-- The struct `ScoredStation` of `service.go`; `Components` is the map literal, as the
list of its key/value pairs. -/
structure ScoredStation where
  StationID : Int
  Score : ℚ
  Components : List (String × ℚ)
  Explanation : String
deriving DecidableEq, Repr

/-! ## `sortAndLimit` (linear.go) -/

/-- Body of the inner loop of `sortAndLimit`:
`if scored[j].Score > scored[i].Score { scored[i], scored[j] = scored[j], scored[i] }`. -/
def swapIfGreater (scored : List ScoredStation) (i j : Nat) : List ScoredStation :=
  match scored[i]?, scored[j]? with
  | some a, some b => if b.Score > a.Score then (scored.set i b).set j a else scored
  | _, _ => scored

/-- The loop `for j := ...; j < len(scored); j++` of `sortAndLimit`, entered at `j` with at
most `fuel` iterations left. -/
def innerLoop (i : Nat) : Nat → Nat → List ScoredStation → List ScoredStation
  | 0, _, scored => scored
  | fuel + 1, j, scored =>
    if j < scored.length then innerLoop i fuel (j + 1) (swapIfGreater scored i j) else scored

/-- The loop `for i := ...; i < len(scored)-1; i++` of `sortAndLimit`, entered at `i` with at
most `fuel` iterations left. The inner loop starts at `j = i + 1` and has
`len(scored) - (i + 1)` iterations. -/
def outerLoop : Nat → Nat → List ScoredStation → List ScoredStation
  | 0, _, scored => scored
  | fuel + 1, i, scored =>
    if (i : Int) < (scored.length : Int) - 1 then
      outerLoop fuel (i + 1) (innerLoop i (scored.length - (i + 1)) (i + 1) scored)
    else scored

/-- The function `sortAndLimit(scored, limit)`: exchange sort in place, clamp `limit` to
`len(scored)`, return `scored[:limit]`. A negative `limit` makes the slice expression
panic. -/
def sortAndLimit (scored : List ScoredStation) (limit : Int) : Result (List ScoredStation) :=
  let scored := outerLoop scored.length 0 scored
  let limit := if limit > (scored.length : Int) then (scored.length : Int) else limit
  if limit < 0 then Result.panic else Result.ok (scored.take limit.toNat)

/-! ### A structural reading of the two loops, used in the proofs -/

/-- One pass of the inner loop seen from the element held at position `i`: `x` is that
element, the list is `scored[i+1:]`; returns the final element at `i` and the rest. -/
def bubble (x : ScoredStation) : List ScoredStation → ScoredStation × List ScoredStation
  | [] => (x, [])
  | y :: ys =>
    if y.Score > x.Score then ((bubble y ys).1, x :: (bubble y ys).2)
    else ((bubble x ys).1, y :: (bubble x ys).2)

/-- The outer loop as a recursion on the unsorted suffix. -/
def exchangeSort : Nat → List ScoredStation → List ScoredStation
  | 0, l => l
  | _ + 1, [] => []
  | n + 1, x :: xs => (bubble x xs).1 :: exchangeSort n (bubble x xs).2

/-! ## Collaborator rows and requests -/

/-- Modelled from the spec: the row type `generated.Station` of the query collaborator
(identifier, latitude/longitude, base density on a 0-100 scale, price). -/
structure Station where
  ID : Int
  Lat : ℚ
  Lng : ℚ
  Density : Int
  Price : ℚ
deriving DecidableEq, Repr

/-- Modelled from the spec: the forecast row returned by `GetForecastsByDayHour`
(station identifier, day of week, hour, predicted load on a 0-100 scale). -/
structure Forecast where
  StationID : Int
  DayOfWeek : Int
  Hour : Int
  PredictedLoad : Int
deriving DecidableEq, Repr

/-- Modelled from the spec: the query collaborator `generated.Queries`, as the answers it
gives: `listStations(ctx)` and `getForecasts(ctx, dayOfWeek, hour)`, each a row list or an
error. -/
structure Queries where
  ListStations : Except String (List Station)
  GetForecastsByDayHour : Int → Int → Except String (List Forecast)

/-- The part of `time.Time` the scorers read: `Weekday()` and `Hour()`. -/
structure Time where
  Weekday : Int
  Hour : Int
deriving DecidableEq, Repr

/-- The struct `ScoreRequest` of `service.go`. -/
structure ScoreRequest where
  UserID : Int
  UserLat : ℚ
  UserLng : ℚ
  TimeSlot : Time
  Limit : Int
deriving DecidableEq, Repr

/-! ## Go maps -/

/-- A Go `map[κ]ν`, as the list of its entries; `GoMap.set` keeps the keys distinct. -/
def GoMap (κ ν : Type) : Type := List (κ × ν)

/-- The comma-ok read `v, ok := m[k]`. -/
def GoMap.get? {κ ν : Type} [DecidableEq κ] : GoMap κ ν → κ → Option ν
  | [], _ => none
  | (k', v) :: m, k => if k' = k then some v else GoMap.get? m k

/-- The plain read `m[k]`, with the zero value `z` for an absent key. -/
def GoMap.getD {κ ν : Type} [DecidableEq κ] (m : GoMap κ ν) (k : κ) (z : ν) : ν :=
  match m.get? k with
  | some v => v
  | none => z

/-- The assignment `m[k] = v`. -/
def GoMap.set {κ ν : Type} [DecidableEq κ] : GoMap κ ν → κ → ν → GoMap κ ν
  | [], k, v => [(k, v)]
  | (k', v') :: m, k, v => if k' = k then (k', v) :: m else (k', v') :: GoMap.set m k v

/-- The builtin `len(m)`. -/
def GoMap.len {κ ν : Type} (m : GoMap κ ν) : Nat := List.length m

/-- The empty map `make(map[κ]ν)`. -/
def GoMap.empty {κ ν : Type} : GoMap κ ν := ([] : List (κ × ν))

/-! ## `normalizeScore` (service.go) -/

/-- The function `normalizeScore(value, min, max)`. -/
def normalizeScore (value min max : ℚ) : ℚ :=
  if max = min then 50
  else
    let result := (value - min) / (max - min) * 100
    Min.min 100 (Max.max 0 result)

/-! ## `calculateDistance` (service.go), over the reals -/

/-- The function `math.Atan2(y, x)` over the reals. -/
noncomputable def atan2 (y x : ℝ) : ℝ :=
  if 0 < x then Real.arctan (y / x)
  else if x < 0 then
    (if 0 ≤ y then Real.arctan (y / x) + Real.pi else Real.arctan (y / x) - Real.pi)
  else if 0 < y then Real.pi / 2
  else if y < 0 then -(Real.pi / 2)
  else 0

/-- The function `calculateDistance(lat1, lng1, lat2, lng2)` over the reals: `math.Sin`,
`math.Cos`, `math.Sqrt` and `math.Pi` are the real sine, cosine, square root and pi. -/
noncomputable def calculateDistance (lat1 lng1 lat2 lng2 : ℝ) : ℝ :=
  let R : ℝ := 6371
  let dLat := (lat2 - lat1) * Real.pi / 180
  let dLng := (lng2 - lng1) * Real.pi / 180
  let a := Real.sin (dLat / 2) * Real.sin (dLat / 2) +
    Real.cos (lat1 * Real.pi / 180) * Real.cos (lat2 * Real.pi / 180) *
      Real.sin (dLng / 2) * Real.sin (dLng / 2)
  let c := 2 * atan2 (Real.sqrt a) (Real.sqrt (1 - a))
  R * c

/-! ## Explanations (linear.go, rl.go) -/

/-- The function `joinParts`: the parts joined with `" & "`. -/
def joinParts (parts : List String) : String :=
  parts.enum.foldl (fun result ip => (if ip.1 > 0 then result ++ " & " else result) ++ ip.2) ""

/-- The slice `parts` that `buildExplanation` hands to `joinParts`. -/
def explanationParts (load : Int) (greenHour : Bool) (dist price : ℚ) : List String :=
  let parts : List String := []
  let parts :=
    if load < 30 then parts ++ ["Düşük yoğunluk"]
    else if load > 65 then parts ++ ["Yüksek yoğunluk"]
    else parts ++ ["Orta yoğunluk"]
  let parts := if greenHour then parts ++ ["yeşil tarife"] else parts
  let parts := if dist < 5 then parts ++ ["yakın"] else parts
  let parts := if price < 7 then parts ++ ["uygun fiyat"] else parts
  parts

/-- The function `buildExplanation`. -/
def buildExplanation (load : Int) (greenHour : Bool) (dist price : ℚ) : String :=
  joinParts (explanationParts load greenHour dist price)

/-- The slice `parts` that `buildRLExplanation` hands to `joinParts`. -/
def rlExplanationParts (load : Int) (greenHour : Bool) (dist price qValue : ℚ)
    (exploration : String) : List String :=
  let parts := explanationParts load greenHour dist price
  let parts := if qValue > 10 then parts ++ ["geçmiş deneyim"] else parts
  let parts := if exploration ≠ "" then parts ++ ["keşif"] else parts
  parts

/-- The function `buildRLExplanation`. -/
def buildRLExplanation (load : Int) (greenHour : Bool) (dist price qValue : ℚ)
    (exploration : String) : String :=
  joinParts (rlExplanationParts load greenHour dist price qValue exploration)

/-! ## The heuristic scorer (linear.go) -/

/-- The struct `LinearRegressionScorer`. -/
structure LinearRegressionScorer where
  queries : Queries

/-- The function `NewLinearRegressionScorer`. -/
def NewLinearRegressionScorer (queries : Queries) : LinearRegressionScorer := ⟨queries⟩

/-- The method `LinearRegressionScorer.Name`. -/
def LinearRegressionScorer.Name (_s : LinearRegressionScorer) : String := "linear_regression"

/-- The loop `for _, f := range forecasts { forecastMap[f.StationID] = int(f.PredictedLoad) }`
over an initially empty map. -/
def buildForecastMap (forecasts : List Forecast) : GoMap Int Int :=
  forecasts.foldl (fun m f => m.set f.StationID f.PredictedLoad) GoMap.empty

/-- The forecasts a scorer works with: `forecasts = nil` when the fetch failed. -/
def forecastsOrNil (r : Except String (List Forecast)) : List Forecast :=
  match r with
  | .ok fs => fs
  | .error _ => []

/-- The variables the first loop of `LinearRegressionScorer.Score` writes. -/
structure Bounds where
  minLoad : ℚ
  maxLoad : ℚ
  minDist : ℚ
  maxDist : ℚ
  dists : GoMap Int ℚ

/-- One iteration of the first loop of `LinearRegressionScorer.Score`. -/
def boundsStep (calcDist : ℚ → ℚ → ℚ → ℚ → ℚ) (req : ScoreRequest)
    (forecastMap : GoMap Int Int) (b : Bounds) (st : Station) : Bounds :=
  let load := forecastMap.getD st.ID 0
  let load := if load = 0 then st.Density else load
  let minLoad := if (load : ℚ) < b.minLoad then (load : ℚ) else b.minLoad
  let maxLoad := if (load : ℚ) > b.maxLoad then (load : ℚ) else b.maxLoad
  let dist := calcDist req.UserLat req.UserLng st.Lat st.Lng
  let dists := b.dists.set st.ID dist
  let minDist := if dist < b.minDist then dist else b.minDist
  let maxDist := if dist > b.maxDist then dist else b.maxDist
  ⟨minLoad, maxLoad, minDist, maxDist, dists⟩

/-- The first loop of `LinearRegressionScorer.Score`, from
`minLoad, maxLoad = 100, 0`, `minDist, maxDist = 100, 0` and an empty `dists`. -/
def computeBounds (calcDist : ℚ → ℚ → ℚ → ℚ → ℚ) (req : ScoreRequest)
    (forecastMap : GoMap Int Int) (stations : List Station) : Bounds :=
  stations.foldl (boundsStep calcDist req forecastMap) ⟨100, 0, 100, 0, GoMap.empty⟩

/-- One iteration of the second loop of `LinearRegressionScorer.Score`: the
`ScoredStation` appended for `st`. -/
def linearScoreStation (forecastMap : GoMap Int Int) (dists : GoMap Int ℚ) (hour : Int)
    (st : Station) : ScoredStation :=
  let load := forecastMap.getD st.ID 0
  let load := if load = 0 then st.Density else load
  let loadScore := normalizeScore (100 - (load : ℚ)) 0 100
  let dist := dists.getD st.ID 0
  let distanceScore := normalizeScore (Max.max 0 (20 - dist)) 0 20 * 2.5
  let greenHour : Bool := decide (hour ≥ 23) || decide (hour ≤ 6)
  let greenScore : ℚ := if greenHour then 25 else 0.0
  let priceScore := normalizeScore (15 - st.Price) 0 15 * 1.5
  let totalScore := loadScore * 0.4 + distanceScore * 0.2 + greenScore * 0.25 + priceScore * 0.15
  let components : List (String × ℚ) :=
    [("load", loadScore), ("distance", distanceScore), ("green", greenScore),
     ("price", priceScore)]
  let explanation := buildExplanation load greenHour dist st.Price
  { StationID := st.ID, Score := totalScore, Components := components,
    Explanation := explanation }

/-- The slice `scored` of `LinearRegressionScorer.Score` just before `sortAndLimit`. -/
def linearScored (calcDist : ℚ → ℚ → ℚ → ℚ → ℚ) (req : ScoreRequest)
    (forecasts : List Forecast) (stations : List Station) : List ScoredStation :=
  let hour := req.TimeSlot.Hour
  let forecastMap := buildForecastMap forecasts
  let b := computeBounds calcDist req forecastMap stations
  stations.map (linearScoreStation forecastMap b.dists hour)

/-- The method `LinearRegressionScorer.Score`. -/
def LinearRegressionScorer.Score (s : LinearRegressionScorer)
    (calcDist : ℚ → ℚ → ℚ → ℚ → ℚ) (req : ScoreRequest) : Result (List ScoredStation) :=
  match s.queries.ListStations with
  | .error err => Result.error err
  | .ok stations =>
    let dayOfWeek := req.TimeSlot.Weekday
    let hour := req.TimeSlot.Hour
    let forecasts := forecastsOrNil (s.queries.GetForecastsByDayHour dayOfWeek hour)
    sortAndLimit (linearScored calcDist req forecasts stations) req.Limit

/-! ## The personalized scorer (rl.go) -/

/-- The source `math/rand`: the stream of values `rand.Float64()` returns and the number of
draws made so far. -/
structure Rand where
  draws : Nat → ℚ
  pos : Nat

/-- The call `rand.Float64()`: the next draw and the advanced source. -/
def Rand.Float64 (rng : Rand) : ℚ × Rand := (rng.draws rng.pos, { rng with pos := rng.pos + 1 })

/-- The struct `QEntry`; `lastUpdated` is a clock reading. -/
structure QEntry where
  stationID : Int
  hour : Int
  dayOfWeek : Int
  qValue : ℚ
  visitCount : Int
  lastUpdated : Nat
deriving DecidableEq, Repr

/-- The struct `RLScorer` (without its mutex). -/
structure RLScorer where
  queries : Queries
  qTable : GoMap Int (GoMap Int (GoMap Int QEntry))
  alpha : ℚ
  gamma : ℚ
  epsilon : ℚ
  decayRate : ℚ
  minEpsilon : ℚ

/-- The function `NewRLScorer`. -/
def NewRLScorer (queries : Queries) : RLScorer :=
  { queries := queries
    qTable := GoMap.empty
    alpha := 0.1
    gamma := 0.9
    epsilon := 0.3
    decayRate := 0.995
    minEpsilon := 0.05 }

/-- The method `RLScorer.Name`. -/
def RLScorer.Name (_s : RLScorer) : String := "reinforcement_learning"

/-- The method `RLScorer.getQValue`. -/
def RLScorer.getQValue (s : RLScorer) (userID stationID : Int) (hour _dayOfWeek : Int) : ℚ :=
  match s.qTable.get? userID with
  | some userQ =>
    match userQ.get? stationID with
    | some hourQ =>
      match hourQ.get? hour with
      | some entry => entry.qValue
      | none => 0
    | none => 0
  | none => 0

/-- The method `RLScorer.UpdateQValue`; `now` is what `time.Now()` returns. -/
def RLScorer.UpdateQValue (s : RLScorer) (userID stationID : Int) (hour dayOfWeek : Int)
    (reward : ℚ) (now : Nat) : RLScorer :=
  let userQ : GoMap Int (GoMap Int QEntry) :=
    match s.qTable.get? userID with
    | some m => m
    | none => GoMap.empty
  let stationQ : GoMap Int QEntry :=
    match userQ.get? stationID with
    | some m => m
    | none => GoMap.empty
  let entry : QEntry :=
    match stationQ.get? hour with
    | some e => e
    | none =>
      { stationID := stationID, hour := hour, dayOfWeek := dayOfWeek, qValue := 0,
        visitCount := 0, lastUpdated := now }
  let oldQ := entry.qValue
  let newQ := oldQ + s.alpha * (reward + s.gamma * 0 - oldQ)
  let entry := { entry with qValue := newQ, visitCount := entry.visitCount + 1,
                            lastUpdated := now }
  { s with qTable := s.qTable.set userID (userQ.set stationID (stationQ.set hour entry)) }

/-- The method `RLScorer.shouldExplore`: one draw, compared with epsilon. -/
def RLScorer.shouldExplore (s : RLScorer) (_userID : Int) (rng : Rand) : Bool × Rand :=
  let r := rng.Float64
  (decide (r.1 < s.epsilon), r.2)

/-- The method `RLScorer.decayEpsilon`. -/
def RLScorer.decayEpsilon (s : RLScorer) : RLScorer :=
  if s.epsilon > s.minEpsilon then { s with epsilon := s.epsilon * s.decayRate } else s

/-- The method `RLScorer.GetEpsilon`. -/
def RLScorer.GetEpsilon (s : RLScorer) : ℚ := s.epsilon

/-- The method `RLScorer.CalculateReward`. -/
def RLScorer.CalculateReward (_s : RLScorer) (coins : Int) (co2Saved : ℚ) (isGreen : Bool)
    (load : Int) : ℚ :=
  let reward : ℚ := (coins : ℚ)
  let reward := reward + co2Saved * 10
  let reward := if isGreen then reward + 20 else reward
  let reward := if load < 30 then reward + 15 else if load > 65 then reward - 10 else reward
  reward

/-- The method `RLScorer.GetQTableSize`. -/
def RLScorer.GetQTableSize (s : RLScorer) : Nat :=
  s.qTable.foldl
    (fun count userQ => userQ.2.foldl (fun count stationQ => count + stationQ.2.len) count) 0

/-- One iteration of the loop of `RLScorer.Score`: the `ScoredStation` appended for `st`
and the random source after the iteration. -/
def rlScoreStation (s : RLScorer) (calcDist : ℚ → ℚ → ℚ → ℚ → ℚ) (req : ScoreRequest)
    (forecastMap : GoMap Int Int) (hour dayOfWeek : Int) (st : Station) (rng : Rand) :
    ScoredStation × Rand :=
  let load := forecastMap.getD st.ID 0
  let load := if load = 0 then st.Density else load
  let qValue := s.getQValue req.UserID st.ID hour dayOfWeek
  let loadScore := normalizeScore (100 - (load : ℚ)) 0 100
  let dist := calcDist req.UserLat req.UserLng st.Lat st.Lng
  let distanceScore := normalizeScore (Max.max 0 (20 - dist)) 0 20 * 2.5
  let greenHour : Bool := decide (hour ≥ 23) || decide (hour ≤ 6)
  let greenScore : ℚ := if greenHour then 25 else 0.0
  let priceScore := normalizeScore (15 - st.Price) 0 15 * 1.5
  let baseScore := loadScore * 0.35 + distanceScore * 0.2 + greenScore * 0.25 + priceScore * 0.15
  let rlBonus := qValue * 0.05
  let totalScore := baseScore + rlBonus
  let explore := s.shouldExplore req.UserID rng
  let bonus := explore.2.Float64
  let totalScore := if explore.1 then totalScore + bonus.1 * 10 else totalScore
  let exploration := if explore.1 then " (keşif)" else ""
  let rng := if explore.1 then bonus.2 else explore.2
  let components : List (String × ℚ) :=
    [("load", loadScore), ("distance", distanceScore), ("green", greenScore),
     ("price", priceScore), ("rl_bonus", rlBonus), ("q_value", qValue)]
  let explanation := buildRLExplanation load greenHour dist st.Price qValue exploration
  ({ StationID := st.ID, Score := totalScore, Components := components,
     Explanation := explanation }, rng)

/-- The loop `for _, st := range stations` of `RLScorer.Score`: the slice `scored` it builds
and the random source after it. -/
def rlScoreLoop (s : RLScorer) (calcDist : ℚ → ℚ → ℚ → ℚ → ℚ) (req : ScoreRequest)
    (forecastMap : GoMap Int Int) (hour dayOfWeek : Int) :
    List Station → Rand → List ScoredStation × Rand
  | [], rng => ([], rng)
  | st :: rest, rng =>
    let r := rlScoreStation s calcDist req forecastMap hour dayOfWeek st rng
    let t := rlScoreLoop s calcDist req forecastMap hour dayOfWeek rest r.2
    (r.1 :: t.1, t.2)

/-- The method `RLScorer.Score`: the result, the scorer afterwards and the random source
afterwards. -/
def RLScorer.Score (s : RLScorer) (calcDist : ℚ → ℚ → ℚ → ℚ → ℚ) (rng : Rand)
    (req : ScoreRequest) : Result (List ScoredStation) × RLScorer × Rand :=
  match s.queries.ListStations with
  | .error err => (Result.error err, s, rng)
  | .ok stations =>
    let dayOfWeek := req.TimeSlot.Weekday
    let hour := req.TimeSlot.Hour
    let forecasts := forecastsOrNil (s.queries.GetForecastsByDayHour dayOfWeek hour)
    let forecastMap := buildForecastMap forecasts
    let r := rlScoreLoop s calcDist req forecastMap hour dayOfWeek stations rng
    (sortAndLimit r.1 req.Limit, s.decayEpsilon, r.2)

/-- The scorer and the random source after the calls `s.Score(ctx, req)` for the requests
of `reqs`, made one after the other. -/
def RLScorer.afterScores (calcDist : ℚ → ℚ → ℚ → ℚ → ℚ) :
    List ScoreRequest → RLScorer → Rand → RLScorer × Rand
  | [], s, rng => (s, rng)
  | req :: reqs, s, rng =>
    let out := s.Score calcDist rng req
    RLScorer.afterScores calcDist reqs out.2.1 out.2.2

/-- The arguments of one call of `UpdateQValue`, with the clock reading of the call. -/
structure UpdateCall where
  userID : Int
  stationID : Int
  hour : Int
  dayOfWeek : Int
  reward : ℚ
  now : Nat
deriving DecidableEq, Repr

/-- The scorer after the calls of `UpdateQValue` listed in `calls`, in order. -/
def RLScorer.applyUpdates : List UpdateCall → RLScorer → RLScorer
  | [], s => s
  | c :: calls, s =>
    RLScorer.applyUpdates calls
      (s.UpdateQValue c.userID c.stationID c.hour c.dayOfWeek c.reward c.now)

/-! ## The service (service.go) -/

/-- The interface `Scorer`, with its two implementations. -/
inductive Scorer where
  | linear : LinearRegressionScorer → Scorer
  | rl : RLScorer → Scorer

/-- The interface method `Scorer.Score`: the result, the scorer afterwards and the random
source afterwards. -/
def Scorer.Score (sc : Scorer) (calcDist : ℚ → ℚ → ℚ → ℚ → ℚ) (rng : Rand)
    (req : ScoreRequest) : Result (List ScoredStation) × Scorer × Rand :=
  match sc with
  | .linear l => (l.Score calcDist req, .linear l, rng)
  | .rl r =>
    let out := r.Score calcDist rng req
    (out.1, .rl out.2.1, out.2.2)

/-- The interface method `Scorer.Name`. -/
def Scorer.Name (sc : Scorer) : String :=
  match sc with
  | .linear l => l.Name
  | .rl r => r.Name

/-- The query collaborator a scorer fetches from (its field `queries`). -/
def Scorer.queries (sc : Scorer) : Queries :=
  match sc with
  | .linear l => l.queries
  | .rl r => r.queries

/-- The struct `Service`. -/
structure Service where
  queries : Queries
  scorer : Scorer

/-- The function `NewService`. -/
def NewService (queries : Queries) (scorer : Scorer) : Service := ⟨queries, scorer⟩

/-- The method `Service.Recommend`: the result, the service afterwards and the random
source afterwards. -/
def Service.Recommend (s : Service) (calcDist : ℚ → ℚ → ℚ → ℚ → ℚ) (rng : Rand)
    (req : ScoreRequest) : Result (List ScoredStation) × Service × Rand :=
  let req := if req.Limit ≤ 0 then { req with Limit := 10 } else req
  let out := s.scorer.Score calcDist rng req
  (out.1, { s with scorer := out.2.1 }, out.2.2)

/-- The method `Service.SetScorer`. -/
def Service.SetScorer (s : Service) (scorer : Scorer) : Service := { s with scorer := scorer }

/-- The method `Service.GetScorerName`. -/
def Service.GetScorerName (s : Service) : String := s.scorer.Name

/-! ## Properties used in the statements -/

/-- The entry of the Q-table under `(userID, stationID, hour)`, if there is one: the
chain of comma-ok reads of `getQValue`. -/
def RLScorer.entry? (s : RLScorer) (userID stationID hour : Int) : Option QEntry :=
  match s.qTable.get? userID with
  | some userQ =>
    match userQ.get? stationID with
    | some hourQ => hourQ.get? hour
    | none => none
  | none => none

/-- Whether an explanation carries the exploration marker: `buildRLExplanation` appends
the part `"keşif"` last, so this is whether the explanation ends in it. -/
def hasMarker (ss : ScoredStation) : Bool :=
  List.isSuffixOf "keşif".data ss.Explanation.data

/-- The score the personalized scorer gives without exploration, read from the
components: `0.35*load + 0.2*distance + 0.25*green + 0.15*price + rl_bonus`. -/
def rlBaseScore (ss : ScoredStation) : ℚ :=
  GoMap.getD (κ := String) ss.Components "load" 0 * 0.35 +
  GoMap.getD (κ := String) ss.Components "distance" 0 * 0.2 +
  GoMap.getD (κ := String) ss.Components "green" 0 * 0.25 +
  GoMap.getD (κ := String) ss.Components "price" 0 * 0.15 +
  GoMap.getD (κ := String) ss.Components "rl_bonus" 0

/-- The exploration bonus in a score of the personalized scorer. -/
def explorationBonus (ss : ScoredStation) : ℚ := ss.Score - rlBaseScore ss

/-- The load a scorer uses for `st`: the statements
`load := forecastMap[st.ID]; if load == 0 { load = int(st.Density) }` of both scorers. -/
def effectiveLoad (forecastMap : GoMap Int Int) (st : Station) : Int :=
  let load := forecastMap.getD st.ID 0
  if load = 0 then st.Density else load

/-- The forecast map a scorer builds for the request `req` from the collaborator `q`. -/
def requestForecastMap (q : Queries) (req : ScoreRequest) : GoMap Int Int :=
  buildForecastMap (forecastsOrNil (q.GetForecastsByDayHour req.TimeSlot.Weekday req.TimeSlot.Hour))

/-- The collaborator `q` with the answer of its forecast fetch replaced by `r`. -/
def Queries.withForecasts (q : Queries) (r : Except String (List Forecast)) : Queries :=
  { q with GetForecastsByDayHour := fun _ _ => r }

/-- The key `(userID, stationID, hour)` under which a call of `UpdateQValue` stores its
entry. -/
def UpdateCall.key (c : UpdateCall) : Int × Int × Int := (c.userID, c.stationID, c.hour)

/-- The number of entries under one user: what the inner loop of `GetQTableSize` adds. -/
def userEntries (userQ : GoMap Int (GoMap Int QEntry)) : Nat :=
  (List.map (fun p : Int × GoMap Int QEntry => GoMap.len p.2) userQ).sum

/-- The number of entries of a Q-table, user by user. -/
def tableEntries (qTable : GoMap Int (GoMap Int (GoMap Int QEntry))) : Nat :=
  (List.map (fun p : Int × GoMap Int (GoMap Int QEntry) => userEntries p.2) qTable).sum

/-! ## Sample inputs -/

/-- Two stations tied at score 1 followed by a station of score 2. -/
def tieA : ScoredStation := ⟨1, 1, [], ""⟩

/-- The second station tied at score 1. -/
def tieB : ScoredStation := ⟨2, 1, [], ""⟩

/-- The station of score 2. -/
def tieC : ScoredStation := ⟨3, 2, [], ""⟩

/-- A stand-in for `calculateDistance`: 111 km per degree along each axis. -/
def sampleDist (lat1 lng1 lat2 lng2 : ℚ) : ℚ := 111 * (|lat2 - lat1| + |lng2 - lng1|)

/-- Three stations around (41, 29). -/
def sampleStations : List Station :=
  [⟨1, 41, 29, 40, 6⟩, ⟨2, 41.01, 29.02, 80, 9⟩, ⟨3, 41.3, 29, 20, 12⟩]

/-- A collaborator that returns `sampleStations` and one forecast for station 2. -/
def sampleQueries : Queries :=
  { ListStations := .ok sampleStations
    GetForecastsByDayHour := fun d h => .ok [⟨2, d, h, 55⟩] }

/-- A request at (41, 29) on weekday 3 at hour 2, without a limit. -/
def sampleRequest : ScoreRequest := ⟨7, 41, 29, ⟨3, 2⟩, 0⟩

/-- The sample request with limit 5. -/
def sampleRequest5 : ScoreRequest := { sampleRequest with Limit := 5 }

/-- The first station the heuristic scorer returns for `sampleRequest5`. -/
def sampleLinearFirst : ScoredStation :=
  ⟨1, 375 / 4, [("load", 60), ("distance", 250), ("green", 25), ("price", 90)],
    "Orta yoğunluk & yeşil tarife & yakın & uygun fiyat"⟩

/-- What the heuristic scorer returns for `sampleRequest5`. -/
def sampleLinearOut : List ScoredStation :=
  [sampleLinearFirst,
   ⟨2, 2997 / 40, [("load", 45), ("distance", 1667 / 8), ("green", 25), ("price", 60)],
      "Orta yoğunluk & yeşil tarife & yakın"⟩,
   ⟨3, 171 / 4, [("load", 80), ("distance", 0), ("green", 25), ("price", 30)],
      "Düşük yoğunluk & yeşil tarife"⟩]

/-- A station of density 40. -/
def station40 : Station := ⟨5, 41, 29, 40, 6⟩

/-- A forecast of exactly 0 for `station40`. -/
def zeroForecast : Forecast := ⟨5, 3, 2, 0⟩

/-- What the personalized scorer returns for `sampleRequest5` after `sampleCalls`, with
the draws of `sampleRand`. -/
def sampleRLOut : List ScoredStation :=
  [⟨1, 1921 / 20,
      [("load", 60), ("distance", 250), ("green", 25), ("price", 90), ("rl_bonus", 3 / 10),
       ("q_value", 6)],
      "Orta yoğunluk & yeşil tarife & yakın & uygun fiyat & keşif"⟩,
   ⟨2, 2907 / 40,
      [("load", 45), ("distance", 1667 / 8), ("green", 25), ("price", 60), ("rl_bonus", 0),
       ("q_value", 0)],
      "Orta yoğunluk & yeşil tarife & yakın"⟩,
   ⟨3, 155 / 4,
      [("load", 80), ("distance", 0), ("green", 25), ("price", 30), ("rl_bonus", 0),
       ("q_value", 0)],
      "Düşük yoğunluk & yeşil tarife"⟩]

/-- What a fresh personalized scorer returns for `sampleRequest5` with the draws of
`sampleRand`: station 1 explored (draw 1/10, bonus draw 1/2), stations 2 and 3 not
(draw 9/10). -/
def sampleFreshOut : List ScoredStation :=
  [⟨1, 383 / 4,
      [("load", 60), ("distance", 250), ("green", 25), ("price", 90), ("rl_bonus", 0),
       ("q_value", 0)],
      "Orta yoğunluk & yeşil tarife & yakın & uygun fiyat & keşif"⟩,
   ⟨2, 2907 / 40,
      [("load", 45), ("distance", 1667 / 8), ("green", 25), ("price", 60), ("rl_bonus", 0),
       ("q_value", 0)],
      "Orta yoğunluk & yeşil tarife & yakın"⟩,
   ⟨3, 155 / 4,
      [("load", 80), ("distance", 0), ("green", 25), ("price", 30), ("rl_bonus", 0),
       ("q_value", 0)],
      "Düşük yoğunluk & yeşil tarife"⟩]

/-- One update for user 7, station 1, hour 2 with reward 60. -/
def sampleCalls : List UpdateCall := [⟨7, 1, 2, 3, 60, 100⟩]

/-- A random source whose draws are 1/10, 1/2, 9/10, 9/10, ... -/
def sampleRand : Rand := ⟨fun n => if n = 0 then 1 / 10 else if n = 1 then 1 / 2 else 9 / 10, 0⟩

/-- A service over the heuristic scorer. -/
def sampleService : Service := NewService sampleQueries (.linear (NewLinearRegressionScorer sampleQueries))

/-- A service over the personalized scorer. -/
def sampleRLService : Service := NewService sampleQueries (.rl (NewRLScorer sampleQueries))

/-- The sample request with limit -1. -/
def sampleRequestNeg : ScoreRequest := { sampleRequest with Limit := -1 }

/-- A collaborator whose station fetch fails. -/
def failingQueries : Queries :=
  { ListStations := .error "stations unavailable"
    GetForecastsByDayHour := fun _ _ => .ok [] }

/-- A collaborator that returns `sampleStations` and whose forecast fetch fails. -/
def noForecastQueries : Queries :=
  { ListStations := .ok sampleStations
    GetForecastsByDayHour := fun _ _ => .error "forecasts unavailable" }

/-- The third station the heuristic scorer returns for `sampleRequest5`: station 3, which
is 33.3 km away under `sampleDist`. -/
def sampleLinearThird : ScoredStation :=
  ⟨3, 171 / 4, [("load", 80), ("distance", 0), ("green", 25), ("price", 30)],
    "Düşük yoğunluk & yeşil tarife"⟩

/-- The third station a fresh personalized scorer returns for `sampleRequest5`. -/
def sampleFreshThird : ScoredStation :=
  ⟨3, 155 / 4,
    [("load", 80), ("distance", 0), ("green", 25), ("price", 30), ("rl_bonus", 0),
     ("q_value", 0)],
    "Düşük yoğunluk & yeşil tarife"⟩

/-- The third of `sampleStations`. -/
def sampleStation3 : Station := ⟨3, 41.3, 29, 20, 12⟩

/-- A station 33.3 km from the sample request under `sampleDist`, with identifier 1. -/
def dupFar : Station := ⟨1, 41.3, 29, 20, 12⟩

/-- A station at the place of the sample request, with identifier 1 as well. -/
def dupNear : Station := ⟨1, 41, 29, 40, 6⟩

/-- A station list in which the identifier 1 occurs twice. -/
def dupStations : List Station := [dupFar, dupNear]

/-- A collaborator that returns `dupStations` and no forecasts. -/
def dupQueries : Queries :=
  { ListStations := .ok dupStations
    GetForecastsByDayHour := fun _ _ => .ok [] }

/-- What the heuristic scorer returns for `dupFar` with `dupQueries` and `sampleRequest5`. -/
def dupLinearFar : ScoredStation :=
  ⟨1, 371 / 4, [("load", 80), ("distance", 250), ("green", 25), ("price", 30)],
    "Düşük yoğunluk & yeşil tarife & yakın"⟩

/-- What the heuristic scorer returns with `dupQueries` for `sampleRequest5`. -/
def dupLinearOut : List ScoredStation :=
  [⟨1, 375 / 4, [("load", 60), ("distance", 250), ("green", 25), ("price", 90)],
      "Orta yoğunluk & yeşil tarife & yakın & uygun fiyat"⟩,
   dupLinearFar]

/-- What a fresh personalized scorer returns for `dupFar` with `dupQueries`,
`sampleRequest5` and the draws of `sampleRand`. -/
def dupRLFar : ScoredStation :=
  ⟨1, 175 / 4,
    [("load", 80), ("distance", 0), ("green", 25), ("price", 30), ("rl_bonus", 0),
     ("q_value", 0)],
    "Düşük yoğunluk & yeşil tarife & keşif"⟩

/-- What a fresh personalized scorer returns with `dupQueries` for `sampleRequest5` with
the draws of `sampleRand`. -/
def dupRLOut : List ScoredStation :=
  [⟨1, 363 / 4,
      [("load", 60), ("distance", 250), ("green", 25), ("price", 90), ("rl_bonus", 0),
       ("q_value", 0)],
      "Orta yoğunluk & yeşil tarife & yakın & uygun fiyat"⟩,
   dupRLFar]

/-! ## The IEEE-754 layer

The definitions of the namespace `IEEE` embed the functions whose behaviour depends on
`float64` itself (`sortAndLimit`, `normalizeScore`, `getQValue` and `UpdateQValue`, the
distance component) with a `float64` that has NaN, both infinities, overflow and
round-to-nearest-even with 53 significant bits and subnormals. Signed zeros are one zero. -/

namespace IEEE

/-- A `float64`: NaN, minus infinity, plus infinity, or a number. -/
inductive F64 where
  | nan : F64
  | ninf : F64
  | pinf : F64
  | fin : ℚ → F64
deriving DecidableEq, Repr

/-- Rounding of a rational to the nearest integer, ties to the even one. -/
def roundHalfEven (x : ℚ) : ℤ :=
  if x - ⌊x⌋ < 1 / 2 then ⌊x⌋
  else if x - ⌊x⌋ > 1 / 2 then ⌊x⌋ + 1
  else if ⌊x⌋ % 2 = 0 then ⌊x⌋ else ⌊x⌋ + 1

/-- Binary search for the greatest `e` in `[lo, lo + 2^k)` with `2^e ≤ a`. -/
def searchExp (a : ℚ) : Nat → ℤ → ℤ
  | 0, lo => lo
  | k + 1, lo =>
    if (2 : ℚ) ^ (lo + 2 ^ k) ≤ a then searchExp a k (lo + 2 ^ k) else searchExp a k lo

/-- The binary exponent of `a`: the `e ≥ -1022` with `2^e ≤ a < 2^(e+1)`, and -1022 for
a subnormal `a`. -/
def expOf (a : ℚ) : ℤ :=
  if a < (2 : ℚ) ^ (-1022 : ℤ) then -1022 else searchExp a 11 (-1022)

/-- The unit in the last place of the binade of `a`: 53 significant bits. -/
def ulp (a : ℚ) : ℚ := (2 : ℚ) ^ (expOf a - 52)

/-- The multiple of `ulp a` nearest to `a ≥ 0`, ties to even. -/
def roundMag (a : ℚ) : ℚ := roundHalfEven (a / ulp a) * ulp a

/-- Rounding of an exact result to `float64`: to nearest, ties to even, overflow to an
infinity. -/
def round64 (q : ℚ) : F64 :=
  if |q| ≥ (2 : ℚ) ^ (1024 : ℤ) then (if q < 0 then F64.ninf else F64.pinf)
  else if roundMag |q| ≥ (2 : ℚ) ^ (1024 : ℤ) then (if q < 0 then F64.ninf else F64.pinf)
  else F64.fin (if q < 0 then -roundMag |q| else roundMag |q|)

/-- The unary minus. -/
def F64.neg : F64 → F64
  | .nan => .nan
  | .ninf => .pinf
  | .pinf => .ninf
  | .fin a => .fin (-a)

/-- The operator `+` of `float64`. -/
def F64.add : F64 → F64 → F64
  | .nan, _ => .nan
  | _, .nan => .nan
  | .pinf, .ninf => .nan
  | .ninf, .pinf => .nan
  | .pinf, _ => .pinf
  | _, .pinf => .pinf
  | .ninf, _ => .ninf
  | _, .ninf => .ninf
  | .fin a, .fin b => round64 (a + b)

/-- The operator `-` of `float64`. -/
def F64.sub (a b : F64) : F64 := F64.add a (F64.neg b)

/-- The infinity of the given sign. -/
def F64.inf (negative : Bool) : F64 := if negative then .ninf else .pinf

/-- The operator `*` of `float64`. -/
def F64.mul : F64 → F64 → F64
  | .nan, _ => .nan
  | _, .nan => .nan
  | .pinf, .pinf => .pinf
  | .pinf, .ninf => .ninf
  | .ninf, .pinf => .ninf
  | .ninf, .ninf => .pinf
  | .pinf, .fin b => if b = 0 then .nan else F64.inf (decide (b < 0))
  | .ninf, .fin b => if b = 0 then .nan else F64.inf (decide (0 < b))
  | .fin a, .pinf => if a = 0 then .nan else F64.inf (decide (a < 0))
  | .fin a, .ninf => if a = 0 then .nan else F64.inf (decide (0 < a))
  | .fin a, .fin b => round64 (a * b)

/-- The operator `/` of `float64`; a zero divisor counts as `+0`. -/
def F64.div : F64 → F64 → F64
  | .nan, _ => .nan
  | _, .nan => .nan
  | .pinf, .pinf => .nan
  | .pinf, .ninf => .nan
  | .ninf, .pinf => .nan
  | .ninf, .ninf => .nan
  | .pinf, .fin b => F64.inf (decide (b < 0))
  | .ninf, .fin b => F64.inf (decide (0 ≤ b))
  | .fin _, .pinf => .fin 0
  | .fin _, .ninf => .fin 0
  | .fin a, .fin b =>
    if b = 0 then (if a = 0 then .nan else F64.inf (decide (a < 0))) else round64 (a / b)

/-- The operator `<=` of `float64`: false when an operand is NaN. -/
def F64.le : F64 → F64 → Bool
  | .nan, _ => false
  | _, .nan => false
  | .ninf, _ => true
  | _, .pinf => true
  | .pinf, _ => false
  | _, .ninf => false
  | .fin a, .fin b => decide (a ≤ b)

/-- The operator `<` of `float64`: false when an operand is NaN. -/
def F64.lt : F64 → F64 → Bool
  | .nan, _ => false
  | _, .nan => false
  | .pinf, _ => false
  | _, .ninf => false
  | .ninf, _ => true
  | _, .pinf => true
  | .fin a, .fin b => decide (a < b)

/-- The operator `>` of `float64`. -/
def F64.gt (a b : F64) : Bool := F64.lt b a

/-- The operator `>=` of `float64`. -/
def F64.ge (a b : F64) : Bool := F64.le b a

/-- The operator `==` of `float64`: false when an operand is NaN. -/
def F64.eq : F64 → F64 → Bool
  | .ninf, .ninf => true
  | .pinf, .pinf => true
  | .fin a, .fin b => decide (a = b)
  | _, _ => false

/-- The function `math.IsNaN`. -/
def F64.isNaN : F64 → Bool
  | .nan => true
  | _ => false

/-- The function `math.Max`: `+Inf` if an argument is `+Inf`, else NaN if an argument is
NaN, else the greater argument. -/
def F64.Max (x y : F64) : F64 :=
  if x = .pinf ∨ y = .pinf then .pinf
  else if x = .nan ∨ y = .nan then .nan
  else if F64.gt x y then x else y

/-- The function `math.Min`: `-Inf` if an argument is `-Inf`, else NaN if an argument is
NaN, else the lesser argument. -/
def F64.Min (x y : F64) : F64 :=
  if x = .ninf ∨ y = .ninf then .ninf
  else if x = .nan ∨ y = .nan then .nan
  else if F64.lt x y then x else y

/-- The function `normalizeScore(value, min, max)` of service.go. -/
def normalizeScore (value min max : F64) : F64 :=
  if F64.eq max min then .fin 50
  else
    let result := F64.mul (F64.div (F64.sub value min) (F64.sub max min)) (.fin 100)
    F64.Min (.fin 100) (F64.Max (.fin 0) result)

/-- The struct `ScoredStation` of service.go, with `float64` fields. -/
structure ScoredStation where
  StationID : Int
  Score : F64
  Components : List (String × F64)
  Explanation : String
deriving DecidableEq, Repr

/-- Body of the inner loop of `sortAndLimit`:
`if scored[j].Score > scored[i].Score { scored[i], scored[j] = scored[j], scored[i] }`. -/
def swapIfGreater (scored : List ScoredStation) (i j : Nat) : List ScoredStation :=
  match scored[i]?, scored[j]? with
  | some a, some b => if F64.gt b.Score a.Score then (scored.set i b).set j a else scored
  | _, _ => scored

/-- The loop `for j := ...; j < len(scored); j++` of `sortAndLimit`, entered at `j` with at
most `fuel` iterations left. -/
def innerLoop (i : Nat) : Nat → Nat → List ScoredStation → List ScoredStation
  | 0, _, scored => scored
  | fuel + 1, j, scored =>
    if j < scored.length then innerLoop i fuel (j + 1) (swapIfGreater scored i j) else scored

/-- The loop `for i := ...; i < len(scored)-1; i++` of `sortAndLimit`, entered at `i` with at
most `fuel` iterations left. -/
def outerLoop : Nat → Nat → List ScoredStation → List ScoredStation
  | 0, _, scored => scored
  | fuel + 1, i, scored =>
    if (i : Int) < (scored.length : Int) - 1 then
      outerLoop fuel (i + 1) (innerLoop i (scored.length - (i + 1)) (i + 1) scored)
    else scored

/-- The function `sortAndLimit(scored, limit)` of linear.go. A negative `limit` makes the
slice expression panic. -/
def sortAndLimit (scored : List ScoredStation) (limit : Int) : Result (List ScoredStation) :=
  let scored := outerLoop scored.length 0 scored
  let limit := if limit > (scored.length : Int) then (scored.length : Int) else limit
  if limit < 0 then Result.panic else Result.ok (scored.take limit.toNat)

/-- One pass of the inner loop seen from the element held at position `i`. -/
def bubble (x : ScoredStation) : List ScoredStation → ScoredStation × List ScoredStation
  | [] => (x, [])
  | y :: ys =>
    if F64.gt y.Score x.Score then ((bubble y ys).1, x :: (bubble y ys).2)
    else ((bubble x ys).1, y :: (bubble x ys).2)

/-- The outer loop as a recursion on the unsorted suffix. -/
def exchangeSort : Nat → List ScoredStation → List ScoredStation
  | 0, l => l
  | _ + 1, [] => []
  | n + 1, x :: xs => (bubble x xs).1 :: exchangeSort n (bubble x xs).2

/-- The struct `QEntry`, its `qValue` a `float64`; `lastUpdated` is a clock reading. -/
structure QEntry where
  stationID : Int
  hour : Int
  dayOfWeek : Int
  qValue : F64
  visitCount : Int
  lastUpdated : Nat
deriving DecidableEq, Repr

/-- The struct `RLScorer` (without its mutex), its parameters `float64` values. -/
structure RLScorer where
  queries : Queries
  qTable : GoMap Int (GoMap Int (GoMap Int QEntry))
  alpha : F64
  gamma : F64
  epsilon : F64
  decayRate : F64
  minEpsilon : F64

/-- The function `NewRLScorer`: each constant is the `float64` nearest to the decimal
literal of the source. -/
def NewRLScorer (queries : Queries) : RLScorer :=
  { queries := queries
    qTable := GoMap.empty
    alpha := round64 (1 / 10)
    gamma := round64 (9 / 10)
    epsilon := round64 (3 / 10)
    decayRate := round64 (995 / 1000)
    minEpsilon := round64 (5 / 100) }

/-- The method `RLScorer.getQValue`. -/
def RLScorer.getQValue (s : RLScorer) (userID stationID : Int) (hour _dayOfWeek : Int) : F64 :=
  match s.qTable.get? userID with
  | some userQ =>
    match userQ.get? stationID with
    | some hourQ =>
      match hourQ.get? hour with
      | some entry => entry.qValue
      | none => .fin 0
    | none => .fin 0
  | none => .fin 0

/-- The method `RLScorer.UpdateQValue`; `now` is what `time.Now()` returns. -/
def RLScorer.UpdateQValue (s : RLScorer) (userID stationID : Int) (hour dayOfWeek : Int)
    (reward : F64) (now : Nat) : RLScorer :=
  let userQ : GoMap Int (GoMap Int QEntry) :=
    match s.qTable.get? userID with
    | some m => m
    | none => GoMap.empty
  let stationQ : GoMap Int QEntry :=
    match userQ.get? stationID with
    | some m => m
    | none => GoMap.empty
  let entry : QEntry :=
    match stationQ.get? hour with
    | some e => e
    | none =>
      { stationID := stationID, hour := hour, dayOfWeek := dayOfWeek, qValue := .fin 0,
        visitCount := 0, lastUpdated := now }
  let oldQ := entry.qValue
  let newQ :=
    F64.add oldQ (F64.mul s.alpha (F64.sub (F64.add reward (F64.mul s.gamma (.fin 0))) oldQ))
  let entry := { entry with qValue := newQ, visitCount := entry.visitCount + 1,
                            lastUpdated := now }
  { s with qTable := s.qTable.set userID (userQ.set stationID (stationQ.set hour entry)) }

/-- The scorer after the calls `s.UpdateQValue(userID, stationID, hour, dayOfWeek, reward)`
for one key and one reward, one call for each element of `calls`, which gives the
`dayOfWeek` argument and the clock reading of the call. -/
def RLScorer.afterUpdates (userID stationID hour : Int) (reward : F64) :
    List (Int × Nat) → RLScorer → RLScorer
  | [], s => s
  | c :: calls, s =>
    RLScorer.afterUpdates userID stationID hour reward calls
      (s.UpdateQValue userID stationID hour c.1 reward c.2)

/-- The entry of the Q-table under `(userID, stationID, hour)`, if there is one: the
chain of comma-ok reads of `getQValue`. -/
def RLScorer.entry? (s : RLScorer) (userID stationID hour : Int) : Option QEntry :=
  match s.qTable.get? userID with
  | some userQ =>
    match userQ.get? stationID with
    | some hourQ => hourQ.get? hour
    | none => none
  | none => none

/-- The expression `normalizeScore(math.Max(0, 20-dist), 0, 20) * 2.5` of both scorers:
the `distance` component for a station at distance `dist`. -/
def distanceScore (dist : F64) : F64 :=
  F64.mul (normalizeScore (F64.Max (.fin 0) (F64.sub (.fin 20) dist)) (.fin 0) (.fin 20))
    (round64 (5 / 2))

/-! ### Sample inputs of the IEEE-754 layer -/

/-- The stations of `l` whose score equals `v` (as `==` compares), in the order they have
in `l`. -/
def withScore (v : F64) (l : List ScoredStation) : List ScoredStation :=
  l.filter (fun s => F64.eq s.Score v)

/-- A station of score 1. -/
def one1 : ScoredStation := ⟨1, .fin 1, [], ""⟩

/-- A second station of score 1. -/
def one2 : ScoredStation := ⟨2, .fin 1, [], ""⟩

/-- A station of score 2. -/
def two3 : ScoredStation := ⟨3, .fin 2, [], ""⟩

/-- A station whose score is NaN. -/
def nan4 : ScoredStation := ⟨4, .nan, [], ""⟩

/-- A scorer whose table holds the value 2111062325329919/35184372088832 (about
59.99999999999996) for user 7, station 1 and hour 2. -/
def stalledScorer : RLScorer :=
  { NewRLScorer sampleQueries with
    qTable := GoMap.set GoMap.empty 7 (GoMap.set GoMap.empty 1 (GoMap.set GoMap.empty 2
      ⟨1, 2, 3, .fin (2111062325329919 / 35184372088832), 333, 100⟩)) }

end IEEE

/-! ## Lemmas: the loops of `sortAndLimit` -/
theorem getElem?_mid (pre : List ScoredStation) (x : ScoredStation) (post : List ScoredStation) :
    (pre ++ x :: post)[pre.length]? = some x := by
  induction pre with
  | nil => simp
  | cons p pre ih => simpa using ih

theorem set_mid (pre : List ScoredStation) (x y : ScoredStation) (post : List ScoredStation) :
    (pre ++ x :: post).set pre.length y = pre ++ y :: post := by
  induction pre with
  | nil => rfl
  | cons p pre ih => simp [ih]

theorem swapIfGreater_split (pre done ys : List ScoredStation) (x y : ScoredStation) :
    swapIfGreater (pre ++ x :: (done ++ y :: ys)) pre.length (pre.length + 1 + done.length) =
      if y.Score > x.Score then pre ++ y :: (done ++ x :: ys)
      else pre ++ x :: (done ++ y :: ys) := by
  have hlen : pre.length + 1 + done.length = (pre ++ x :: done).length := by simp; omega
  have hlen2 : pre.length + 1 + done.length = (pre ++ y :: done).length := by simp; omega
  have hi : (pre ++ x :: (done ++ y :: ys))[pre.length]? = some x := getElem?_mid _ _ _
  have hj : (pre ++ x :: (done ++ y :: ys))[pre.length + 1 + done.length]? = some y := by
    have := getElem?_mid (pre ++ x :: done) y ys
    rw [hlen]
    simpa only [List.append_assoc, List.cons_append] using this
  unfold swapIfGreater
  rw [hi, hj]
  simp only
  split
  · rw [set_mid, hlen2]
    have := set_mid (pre ++ y :: done) y x ys
    simpa only [List.append_assoc, List.cons_append] using this
  · rfl

theorem innerLoop_split (ys : List ScoredStation) :
    ∀ (pre done : List ScoredStation) (x : ScoredStation) (fuel : Nat), ys.length ≤ fuel →
      innerLoop pre.length fuel (pre.length + 1 + done.length) (pre ++ x :: (done ++ ys)) =
        pre ++ (bubble x ys).1 :: (done ++ (bubble x ys).2) := by
  induction ys with
  | nil =>
    intro pre done x fuel _
    cases fuel with
    | zero => simp [innerLoop, bubble]
    | succ fuel =>
      have : ¬ (pre.length + 1 + done.length < (pre ++ x :: (done ++ [])).length) := by
        simp; omega
      simp only [innerLoop, this, if_false, bubble]
  | cons y ys ih =>
    intro pre done x fuel hfuel
    cases fuel with
    | zero => simp at hfuel
    | succ fuel =>
      have hlt : pre.length + 1 + done.length < (pre ++ x :: (done ++ y :: ys)).length := by
        simp; omega
      have hfuel2 : ys.length ≤ fuel := by simpa using hfuel
      simp only [innerLoop, hlt, if_true, swapIfGreater_split]
      have hidx : pre.length + 1 + done.length + 1 = pre.length + 1 + (done ++ [x]).length := by
        simp; omega
      have hidy : pre.length + 1 + done.length + 1 = pre.length + 1 + (done ++ [y]).length := by
        simp; omega
      by_cases h : y.Score > x.Score
      · have := ih pre (done ++ [x]) y fuel hfuel2
        simp only [h, if_true, bubble]
        rw [hidx]
        simpa only [List.append_assoc, List.singleton_append] using this
      · have := ih pre (done ++ [y]) x fuel hfuel2
        simp only [h, if_false, bubble]
        rw [hidy]
        simpa only [List.append_assoc, List.singleton_append] using this

theorem bubble_length (ys : List ScoredStation) : ∀ x, (bubble x ys).2.length = ys.length := by
  induction ys with
  | nil => intro x; rfl
  | cons y ys ih =>
    intro x
    by_cases h : y.Score > x.Score <;> simp [bubble, h, ih]

theorem outerLoop_split (fuel : Nat) :
    ∀ (pre rest : List ScoredStation), rest.length ≤ fuel →
      outerLoop fuel pre.length (pre ++ rest) = pre ++ exchangeSort fuel rest := by
  induction fuel with
  | zero =>
    intro pre rest h
    simp [outerLoop, exchangeSort]
  | succ fuel ih =>
    intro pre rest h
    cases rest with
    | nil =>
      have : ¬ ((pre.length : Int) < ((pre ++ []).length : Int) - 1) := by simp
      simp only [outerLoop, this, if_false, exchangeSort]
    | cons x xs =>
      have hx : xs.length ≤ fuel := by simpa using h
      cases xs with
      | nil =>
        have : ¬ ((pre.length : Int) < ((pre ++ [x]).length : Int) - 1) := by simp
        simp only [outerLoop, this, if_false, exchangeSort, bubble]
        cases fuel <;> simp [exchangeSort]
      | cons y ys =>
        have hc : (pre.length : Int) < ((pre ++ x :: y :: ys).length : Int) - 1 := by
          simp; omega
        have hf : (pre ++ x :: y :: ys).length - (pre.length + 1) = (y :: ys).length := by
          simp only [List.length_append, List.length_cons]; omega
        simp only [outerLoop, hc, if_true, hf]
        have hin := innerLoop_split (y :: ys) pre [] x (y :: ys).length (le_refl _)
        simp only [List.length_nil, Nat.add_zero, List.nil_append] at hin
        rw [hin]
        have := ih (pre ++ [(bubble x (y :: ys)).1]) (bubble x (y :: ys)).2
          (by rw [bubble_length]; exact hx)
        simp only [List.length_append, List.length_singleton, List.append_assoc,
          List.singleton_append] at this
        rw [this, exchangeSort]

theorem outerLoop_eq (l : List ScoredStation) :
    outerLoop l.length 0 l = exchangeSort l.length l := by
  simpa using outerLoop_split l.length [] l (le_refl _)

theorem bubble_perm (ys : List ScoredStation) :
    ∀ x, List.Perm ((bubble x ys).1 :: (bubble x ys).2) (x :: ys) := by
  induction ys with
  | nil => intro x; exact List.Perm.refl _
  | cons y ys ih =>
    intro x
    by_cases h : y.Score > x.Score
    · simp only [bubble, h, if_true]
      exact (List.Perm.swap _ _ _).trans ((ih y).cons x)
    · simp only [bubble, h, if_false]
      exact ((List.Perm.swap _ _ _).trans ((ih x).cons y)).trans (List.Perm.swap _ _ _)

theorem exchangeSort_perm (n : Nat) :
    ∀ l : List ScoredStation, List.Perm (exchangeSort n l) l := by
  induction n with
  | zero => intro l; exact List.Perm.refl _
  | succ n ih =>
    intro l
    cases l with
    | nil => exact List.Perm.refl _
    | cons x xs =>
      simp only [exchangeSort]
      exact ((ih _).cons _).trans (bubble_perm xs x)

theorem sortAndLimit_of_nonneg (l : List ScoredStation) (limit : Int) (h : 0 ≤ limit) :
    sortAndLimit l limit = Result.ok ((exchangeSort l.length l).take limit.toNat) := by
  have hlen : (exchangeSort l.length l).length = l.length := (exchangeSort_perm _ l).length_eq
  unfold sortAndLimit
  simp only [outerLoop_eq, hlen]
  by_cases hc : limit > (l.length : Int)
  · have h1 : ¬ ((l.length : Int) < 0) := by omega
    simp only [hc, if_true, h1, if_false, Int.toNat_ofNat]
    congr 1
    rw [List.take_of_length_le (by omega), List.take_of_length_le (by omega)]
  · have h1 : ¬ (limit < 0) := by omega
    simp only [hc, if_false, h1]

theorem sortAndLimit_of_neg (l : List ScoredStation) (limit : Int) (h : limit < 0) :
    sortAndLimit l limit = Result.panic := by
  unfold sortAndLimit
  have hc : ¬ limit > ((outerLoop l.length 0 l).length : Int) := by omega
  simp only [hc, if_false, h, if_true]

theorem linearScored_length (calcDist : ℚ → ℚ → ℚ → ℚ → ℚ) (req : ScoreRequest)
    (forecasts : List Forecast) (stations : List Station) :
    (linearScored calcDist req forecasts stations).length = stations.length := by
  simp [linearScored]

theorem rlScoreLoop_length (s : RLScorer) (calcDist : ℚ → ℚ → ℚ → ℚ → ℚ) (req : ScoreRequest)
    (forecastMap : GoMap Int Int) (hour dayOfWeek : Int) (stations : List Station) :
    ∀ rng, (rlScoreLoop s calcDist req forecastMap hour dayOfWeek stations rng).1.length =
      stations.length := by
  induction stations with
  | nil => intro rng; rfl
  | cons st rest ih => intro rng; simp [rlScoreLoop, ih]

theorem sortAndLimit_length (l : List ScoredStation) (limit : Int) (h : 0 ≤ limit) :
    ∃ out, sortAndLimit l limit = Result.ok out ∧
      (out.length : Int) = min limit (l.length : Int) := by
  refine ⟨_, sortAndLimit_of_nonneg l limit h, ?_⟩
  rw [List.length_take, (exchangeSort_perm _ l).length_eq]
  omega

/-! ## Lemmas: Go maps and the scorers -/

theorem GoMap.get?_set_self {κ ν : Type} [DecidableEq κ] (m : GoMap κ ν) (k : κ) (v : ν) :
    (m.set k v).get? k = some v := by
  induction m with
  | nil => simp [GoMap.set, GoMap.get?]
  | cons p m ih =>
    obtain ⟨k', v'⟩ := p
    by_cases h : k' = k
    · simp [GoMap.set, GoMap.get?, h]
    · simp [GoMap.set, GoMap.get?, h, ih]

theorem GoMap.get?_set_other {κ ν : Type} [DecidableEq κ] (m : GoMap κ ν) (k k' : κ) (v : ν)
    (hk : k ≠ k') : (m.set k v).get? k' = m.get? k' := by
  induction m with
  | nil => simp [GoMap.set, GoMap.get?, hk]
  | cons p m ih =>
    obtain ⟨k₀, v₀⟩ := p
    by_cases h : k₀ = k
    · subst h
      simp [GoMap.set, GoMap.get?, hk]
    · by_cases h' : k₀ = k'
      · subst h'
        simp [GoMap.set, GoMap.get?, h]
      · simp [GoMap.set, GoMap.get?, h, h', ih]

theorem foldl_set_get?_of_not_mem {α ν : Type} (key : α → Int) (val : α → ν) (k : Int)
    (l : List α) : ∀ m : GoMap Int ν, (∀ a ∈ l, key a ≠ k) →
      (l.foldl (fun m a => m.set (key a) (val a)) m).get? k = m.get? k := by
  induction l with
  | nil => intro m _; rfl
  | cons a l ih =>
    intro m h
    rw [List.foldl_cons, ih _ (fun b hb => h b (List.mem_cons_of_mem _ hb))]
    exact GoMap.get?_set_other m _ _ _ (h a (List.mem_cons_self _ _))

theorem foldl_set_get?_last {α ν : Type} (key : α → Int) (val : α → ν)
    (pre post : List α) (a : α) (m : GoMap Int ν) (h : ∀ b ∈ post, key b ≠ key a) :
    ((pre ++ a :: post).foldl (fun m a => m.set (key a) (val a)) m).get? (key a) =
      some (val a) := by
  rw [List.foldl_append, List.foldl_cons, foldl_set_get?_of_not_mem key val (key a) post _ h]
  exact GoMap.get?_set_self _ _ _

theorem computeBounds_dists (calcDist : ℚ → ℚ → ℚ → ℚ → ℚ) (req : ScoreRequest)
    (forecastMap : GoMap Int Int) (stations : List Station) :
    ∀ b : Bounds, (stations.foldl (boundsStep calcDist req forecastMap) b).dists =
      stations.foldl
        (fun m st => m.set st.ID (calcDist req.UserLat req.UserLng st.Lat st.Lng)) b.dists := by
  induction stations with
  | nil => intro b; rfl
  | cons st rest ih => intro b; rw [List.foldl_cons, ih, List.foldl_cons]; rfl

theorem dists_of_nodup (calcDist : ℚ → ℚ → ℚ → ℚ → ℚ) (req : ScoreRequest)
    (forecastMap : GoMap Int Int) (stations : List Station)
    (hid : (stations.map Station.ID).Nodup) (st : Station) (hst : st ∈ stations) :
    (computeBounds calcDist req forecastMap stations).dists.getD st.ID 0 =
      calcDist req.UserLat req.UserLng st.Lat st.Lng := by
  obtain ⟨pre, post, rfl⟩ := List.append_of_mem hst
  have hpost : ∀ b ∈ post, b.ID ≠ st.ID := by
    intro b hb hEq
    rw [List.map_append, List.map_cons] at hid
    have h2 := (List.nodup_append.1 hid).2.1
    exact (List.nodup_cons.1 h2).1 (hEq ▸ List.mem_map_of_mem Station.ID hb)
  unfold computeBounds
  rw [computeBounds_dists]
  have := foldl_set_get?_last Station.ID
    (fun st => calcDist req.UserLat req.UserLng st.Lat st.Lng) pre post st GoMap.empty hpost
  simp only [GoMap.getD, this]

theorem normalizeScore_clamp (v : ℚ) : normalizeScore v 0 100 = Min.min 100 (Max.max 0 v) := by
  have h : ¬ ((100 : ℚ) = 0) := by norm_num
  simp only [normalizeScore, h, if_false, sub_zero]
  rw [div_mul_cancel₀ v h]

theorem sortAndLimit_mem (l out : List ScoredStation) (limit : Int)
    (h : sortAndLimit l limit = Result.ok out) : ∀ ss ∈ out, ss ∈ l := by
  by_cases hl : 0 ≤ limit
  · rw [sortAndLimit_of_nonneg l limit hl] at h
    cases h
    intro ss hss
    exact (exchangeSort_perm _ l).subset (List.mem_of_mem_take hss)
  · rw [sortAndLimit_of_neg l limit (by omega)] at h
    cases h

theorem scorer_score_length (sc : Scorer) (calcDist : ℚ → ℚ → ℚ → ℚ → ℚ) (rng : Rand)
    (stations : List Station) (hfetch : sc.queries.ListStations = Except.ok stations)
    (r : ScoreRequest) (hr : 0 ≤ r.Limit) :
    ∃ out, (sc.Score calcDist rng r).1 = Result.ok out ∧
      (out.length : Int) = min r.Limit (stations.length : Int) := by
  cases sc with
  | linear l =>
    have hf : l.queries.ListStations = Except.ok stations := hfetch
    obtain ⟨out, ho, hl⟩ := sortAndLimit_length
      (linearScored calcDist r
        (forecastsOrNil (l.queries.GetForecastsByDayHour r.TimeSlot.Weekday r.TimeSlot.Hour))
        stations) r.Limit hr
    refine ⟨out, ?_, ?_⟩
    · simp only [Scorer.Score, LinearRegressionScorer.Score, hf]
      exact ho
    · rw [hl, linearScored_length]
  | rl s =>
    have hf : s.queries.ListStations = Except.ok stations := hfetch
    obtain ⟨out, ho, hl⟩ := sortAndLimit_length
      (rlScoreLoop s calcDist r
        (buildForecastMap
          (forecastsOrNil (s.queries.GetForecastsByDayHour r.TimeSlot.Weekday r.TimeSlot.Hour)))
        r.TimeSlot.Hour r.TimeSlot.Weekday stations rng).1 r.Limit hr
    refine ⟨out, ?_, ?_⟩
    · simp only [Scorer.Score, RLScorer.Score, hf]
      exact ho
    · rw [hl, rlScoreLoop_length]

theorem recommend_default_length (svc : Service) (calcDist : ℚ → ℚ → ℚ → ℚ → ℚ) (rng : Rand)
    (req : ScoreRequest) (stations : List Station)
    (hfetch : svc.scorer.queries.ListStations = Except.ok stations) :
    ∃ out, (svc.Recommend calcDist rng req).1 = Result.ok out ∧
      (out.length : Int) =
        min (if req.Limit > 0 then req.Limit else 10) (stations.length : Int) := by
  by_cases hlim : req.Limit ≤ 0
  · obtain ⟨out, ho, hl⟩ := scorer_score_length svc.scorer calcDist rng stations hfetch
      { req with Limit := 10 } (by simp)
    have hneg : ¬ req.Limit > 0 := by omega
    refine ⟨out, ?_, ?_⟩
    · simp only [Service.Recommend, hlim, if_true]
      exact ho
    · simpa only [hneg, if_false] using hl
  · obtain ⟨out, ho, hl⟩ := scorer_score_length svc.scorer calcDist rng stations hfetch
      req (by omega)
    have hpos : req.Limit > 0 := by omega
    refine ⟨out, ?_, ?_⟩
    · simp only [Service.Recommend, hlim, if_false]
      exact ho
    · simpa only [hpos, if_true] using hl

/-! ## Claims -/

/-- C1: when the station fetch succeeds, `Service.Recommend` (with either scorer) returns
exactly `min(effectiveLimit, numberOfStations)` scored stations, where `effectiveLimit` is
the request's `Limit` when it is positive and 10 otherwise; an empty station list gives an
empty result and no error. -/
theorem recommend_length (svc : Service) (calcDist : ℚ → ℚ → ℚ → ℚ → ℚ) (rng : Rand)
    (req : ScoreRequest) (stations : List Station)
    (hfetch : svc.scorer.queries.ListStations = Except.ok stations) :
    ∃ out, (svc.Recommend calcDist rng req).1 = Result.ok out ∧
      (out.length : Int) =
        min (if req.Limit > 0 then req.Limit else 10) (stations.length : Int) ∧
      (stations = [] → out = []) := by
  obtain ⟨out, ho, hl⟩ := recommend_default_length svc calcDist rng req stations hfetch
  refine ⟨out, ho, hl, ?_⟩
  intro hs
  subst hs
  apply List.length_eq_zero.1
  have : (0 : Int) < (if req.Limit > 0 then req.Limit else 10) := by split <;> omega
  simp only [List.length_nil, Nat.cast_zero] at hl
  omega

/-- Witness of C1 on the sample service (three stations, no limit in the request). -/
theorem recommend_length_witness :
    ∃ out, (sampleService.Recommend sampleDist sampleRand sampleRequest).1 = Result.ok out ∧
      (out.length : Int) =
        min (if sampleRequest.Limit > 0 then sampleRequest.Limit else 10)
          (sampleStations.length : Int) ∧
      (sampleStations = [] → out = []) :=
  recommend_length sampleService sampleDist sampleRand sampleRequest sampleStations rfl

theorem green_eq (hour : Int) :
    (if (decide (hour ≥ 23) || decide (hour ≤ 6)) = true then (25 : ℚ) else 0.0) =
      if hour ≥ 23 ∨ hour ≤ 6 then 25 else 0 := by
  by_cases h : hour ≥ 23 ∨ hour ≤ 6
  · simp [h]
  · simp [h]
    norm_num

/-- C4, as stated, fails when two fetched stations carry the same identifier: the
heuristic scorer reads the distance back from a map keyed by station ID, so the station
33.3 km away is scored with the distance of the other station of that ID (0 km) and gets
the `distance` component 250 where the formula of the claim gives 0; no fetched station
satisfies the formulas of the claim for the components it is returned with. -/
theorem linear_distance_of_last_id :
    (NewLinearRegressionScorer dupQueries).Score sampleDist sampleRequest5
      = Result.ok dupLinearOut ∧
    dupLinearFar ∈ dupLinearOut ∧
    sampleDist sampleRequest5.UserLat sampleRequest5.UserLng dupFar.Lat dupFar.Lng
      = 333 / 10 ∧
    2.5 * normalizeScore
        (Max.max 0 (20 - sampleDist sampleRequest5.UserLat sampleRequest5.UserLng
          dupFar.Lat dupFar.Lng)) 0 20 = 0 ∧
    GoMap.get? (κ := String) dupLinearFar.Components "distance" = some 250 ∧
    ¬ (∃ st ∈ dupStations, ∃ load distance green price : ℚ,
      dupLinearFar.StationID = st.ID ∧
      dupLinearFar.Components =
        [("load", load), ("distance", distance), ("green", green), ("price", price)] ∧
      load = Min.min 100
        (Max.max 0 (100 - (effectiveLoad (requestForecastMap dupQueries sampleRequest5) st : ℚ))) ∧
      distance = 2.5 * normalizeScore
        (Max.max 0 (20 - sampleDist sampleRequest5.UserLat sampleRequest5.UserLng st.Lat st.Lng))
          0 20) := by
  have hfar : (2.5 : ℚ) * normalizeScore
      (Max.max 0 (20 - sampleDist sampleRequest5.UserLat sampleRequest5.UserLng
        dupFar.Lat dupFar.Lng)) 0 20 = 0 := by decide!
  have hnear : Min.min (100 : ℚ)
      (Max.max 0 (100 - (effectiveLoad (requestForecastMap dupQueries sampleRequest5)
        dupNear : ℚ))) = 60 := by decide!
  refine ⟨by decide!, by decide!, by decide!, hfar, by decide!, ?_⟩
  rintro ⟨st, hst, load, distance, green, price, -, hcomp, hload, hdist⟩
  have hl : load = 80 := by
    simp only [dupLinearFar, List.cons.injEq, Prod.mk.injEq, true_and] at hcomp
    exact hcomp.1.symm
  have hd : distance = 250 := by
    simp only [dupLinearFar, List.cons.injEq, Prod.mk.injEq, true_and] at hcomp
    exact hcomp.2.1.symm
  simp only [dupStations, List.mem_cons, List.mem_singleton, List.not_mem_nil, or_false] at hst
  rcases hst with rfl | rfl
  · rw [hfar] at hdist
    rw [hd] at hdist
    norm_num at hdist
  · rw [hnear] at hload
    rw [hl] at hload
    norm_num at hload

/-- C4, amended: when the fetched stations have pairwise distinct identifiers, every
station the heuristic scorer returns carries the components `load`, `distance`, `green`,
`price` with `load = clamp(100 - effectiveLoad, 0, 100)`,
`distance = 2.5 * normalize(max(0, 20 - distKm), 0, 20)`, `green = 25` when
`hour >= 23 || hour <= 6` and 0 otherwise (25 at hour 2, 0 at hour 12),
`price = 1.5 * normalize(15 - price, 0, 15)`, and its `Score` is
`0.4*load + 0.2*distance + 0.25*green + 0.15*price`; `distKm` is what `calculateDistance`
returns for the station itself. The equalities are those of exact arithmetic. -/
theorem linear_score_formula (s : LinearRegressionScorer) (calcDist : ℚ → ℚ → ℚ → ℚ → ℚ)
    (req : ScoreRequest) (stations : List Station) (out : List ScoredStation)
    (hfetch : s.queries.ListStations = Except.ok stations)
    (hid : (stations.map Station.ID).Nodup)
    (hout : s.Score calcDist req = Result.ok out) :
    ∀ ss ∈ out, ∃ st ∈ stations, ∃ load distance green price : ℚ,
      ss.StationID = st.ID ∧
      ss.Components =
        [("load", load), ("distance", distance), ("green", green), ("price", price)] ∧
      load = Min.min 100
        (Max.max 0 (100 - (effectiveLoad (requestForecastMap s.queries req) st : ℚ))) ∧
      distance = 2.5 * normalizeScore
        (Max.max 0 (20 - calcDist req.UserLat req.UserLng st.Lat st.Lng)) 0 20 ∧
      green = (if req.TimeSlot.Hour ≥ 23 ∨ req.TimeSlot.Hour ≤ 6 then 25 else 0) ∧
      price = 1.5 * normalizeScore (15 - st.Price) 0 15 ∧
      ss.Score = 0.4 * load + 0.2 * distance + 0.25 * green + 0.15 * price ∧
      (req.TimeSlot.Hour = 2 → green = 25) ∧ (req.TimeSlot.Hour = 12 → green = 0) := by
  intro ss hss
  simp only [LinearRegressionScorer.Score, hfetch] at hout
  have hmem := sortAndLimit_mem _ _ _ hout ss hss
  simp only [linearScored, List.mem_map] at hmem
  obtain ⟨st, hst, rfl⟩ := hmem
  have hd := dists_of_nodup calcDist req
    (buildForecastMap
      (forecastsOrNil (s.queries.GetForecastsByDayHour req.TimeSlot.Weekday req.TimeSlot.Hour)))
    stations hid st hst
  refine ⟨st, hst, _, _, _, _, rfl, rfl, ?_, ?_, ?_, ?_, ?_, ?_, ?_⟩
  · rw [normalizeScore_clamp]
    rfl
  · rw [hd, mul_comm]
  · exact green_eq _
  · rw [mul_comm]
  · simp only [linearScoreStation]
    ring
  · intro h2
    rw [h2]
    norm_num
  · intro h12
    rw [h12]
    norm_num

/-- Witness of the amended C4 on the sample collaborator, hour 2, limit 5, at the first returned
station. -/
theorem linear_score_formula_witness :
    ∃ st ∈ sampleStations, ∃ load distance green price : ℚ,
      sampleLinearFirst.StationID = st.ID ∧
      sampleLinearFirst.Components =
        [("load", load), ("distance", distance), ("green", green), ("price", price)] ∧
      load = Min.min 100
        (Max.max 0 (100 - (effectiveLoad (requestForecastMap sampleQueries sampleRequest5) st : ℚ))) ∧
      distance = 2.5 * normalizeScore
        (Max.max 0 (20 - sampleDist sampleRequest5.UserLat sampleRequest5.UserLng st.Lat st.Lng))
          0 20 ∧
      green =
        (if sampleRequest5.TimeSlot.Hour ≥ 23 ∨ sampleRequest5.TimeSlot.Hour ≤ 6 then 25 else 0) ∧
      price = 1.5 * normalizeScore (15 - st.Price) 0 15 ∧
      sampleLinearFirst.Score = 0.4 * load + 0.2 * distance + 0.25 * green + 0.15 * price ∧
      (sampleRequest5.TimeSlot.Hour = 2 → green = 25) ∧
      (sampleRequest5.TimeSlot.Hour = 12 → green = 0) :=
  linear_score_formula (NewLinearRegressionScorer sampleQueries) sampleDist sampleRequest5
    sampleStations sampleLinearOut rfl (by decide) (by decide!) sampleLinearFirst
    (List.mem_cons_self _ _)

theorem buildForecastMap_absent (forecasts : List Forecast) (k : Int)
    (h : ∀ f ∈ forecasts, f.StationID ≠ k) : (buildForecastMap forecasts).get? k = none := by
  unfold buildForecastMap
  rw [foldl_set_get?_of_not_mem Forecast.StationID Forecast.PredictedLoad k forecasts _ h]
  rfl

theorem buildForecastMap_last (pre post : List Forecast) (f : Forecast)
    (h : ∀ g ∈ post, g.StationID ≠ f.StationID) :
    (buildForecastMap (pre ++ f :: post)).get? f.StationID = some f.PredictedLoad := by
  unfold buildForecastMap
  exact foldl_set_get?_last Forecast.StationID Forecast.PredictedLoad pre post f _ h

/-- C5: in both scorers the load behind the `load` component of a station is the
station's density when the forecast list of the slot has no entry for the station, and
otherwise the predicted load of the entry for the station (the last one, should the list
hold several) when that is non-zero and the density when it is zero; a forecast of exactly
0 for a station of density 40 gives load 40 and load component 60. -/
theorem load_forecast_or_density (forecasts : List Forecast) (st : Station) (s : RLScorer)
    (calcDist : ℚ → ℚ → ℚ → ℚ → ℚ) (req : ScoreRequest) (dists : GoMap Int ℚ)
    (hour dayOfWeek : Int) (rng : Rand) :
    (linearScoreStation (buildForecastMap forecasts) dists hour st).Components.head? =
      some ("load",
        normalizeScore (100 - (effectiveLoad (buildForecastMap forecasts) st : ℚ)) 0 100) ∧
    (rlScoreStation s calcDist req (buildForecastMap forecasts) hour dayOfWeek st
        rng).1.Components.head? =
      some ("load",
        normalizeScore (100 - (effectiveLoad (buildForecastMap forecasts) st : ℚ)) 0 100) ∧
    ((∀ f ∈ forecasts, f.StationID ≠ st.ID) →
      effectiveLoad (buildForecastMap forecasts) st = st.Density) ∧
    (∀ pre f post, forecasts = pre ++ f :: post → f.StationID = st.ID →
      (∀ g ∈ post, g.StationID ≠ st.ID) →
        effectiveLoad (buildForecastMap forecasts) st =
          (if f.PredictedLoad ≠ 0 then f.PredictedLoad else st.Density) ∧
        (f.PredictedLoad = 0 → st.Density = 40 →
          effectiveLoad (buildForecastMap forecasts) st = 40 ∧
          normalizeScore (100 - (effectiveLoad (buildForecastMap forecasts) st : ℚ)) 0 100
            = 60)) := by
  refine ⟨rfl, rfl, ?_, ?_⟩
  · intro h
    simp [effectiveLoad, GoMap.getD, buildForecastMap_absent forecasts st.ID h]
  · intro pre f post hf hid hpost
    subst hf
    have hlast := buildForecastMap_last pre post f (by rw [hid]; exact hpost)
    rw [hid] at hlast
    have hL : effectiveLoad (buildForecastMap (pre ++ f :: post)) st =
        (if f.PredictedLoad ≠ 0 then f.PredictedLoad else st.Density) := by
      simp only [effectiveLoad, GoMap.getD, hlast]
      by_cases h0 : f.PredictedLoad = 0 <;> simp [h0]
    refine ⟨hL, ?_⟩
    intro h0 h40
    have hL40 : effectiveLoad (buildForecastMap (pre ++ f :: post)) st = 40 := by
      rw [hL, h40]; simp [h0]
    refine ⟨hL40, ?_⟩
    rw [hL40, normalizeScore_clamp]
    norm_num

/-- Witness of C5: a forecast of exactly 0 for a station of density 40 gives the load
component 60 in both scorers. -/
theorem load_forecast_or_density_witness :
    (linearScoreStation (buildForecastMap [zeroForecast]) GoMap.empty 2 station40).Components.head?
      = some ("load", 60) ∧
    (rlScoreStation (NewRLScorer sampleQueries) sampleDist sampleRequest
        (buildForecastMap [zeroForecast]) 2 3 station40 sampleRand).1.Components.head?
      = some ("load", 60) ∧
    effectiveLoad (buildForecastMap [zeroForecast]) station40 = 40 := by
  have h := load_forecast_or_density [zeroForecast] station40 (NewRLScorer sampleQueries)
    sampleDist sampleRequest GoMap.empty 2 3 sampleRand
  have h4 := h.2.2.2 [] zeroForecast [] rfl rfl (by simp) |>.2 rfl rfl
  refine ⟨?_, ?_, h4.1⟩
  · rw [h.1, h4.2]
  · rw [h.2.1, h4.2]


/-- C6 fails on the code: after 358 `Score` calls on a scorer made by `NewRLScorer`,
`GetEpsilon` returns `0.3 * 0.995^358`, which is below the floor 0.05. After 357 calls
epsilon is still above 0.05, so the 358th call multiplies once more. -/
theorem epsilon_below_floor :
    (RLScorer.afterScores sampleDist (List.replicate 357 sampleRequest5)
        (NewRLScorer sampleQueries) sampleRand).1.GetEpsilon > 0.05 ∧
    (RLScorer.afterScores sampleDist (List.replicate 358 sampleRequest5)
        (NewRLScorer sampleQueries) sampleRand).1.GetEpsilon = 0.3 * 0.995 ^ 358 ∧
    (RLScorer.afterScores sampleDist (List.replicate 358 sampleRequest5)
        (NewRLScorer sampleQueries) sampleRand).1.GetEpsilon < 0.05 := by
  decide!

theorem getQValue_eq_entry (s : RLScorer) (u st h d : Int) :
    s.getQValue u st h d = match s.entry? u st h with
      | some e => e.qValue
      | none => 0 := by
  unfold RLScorer.getQValue RLScorer.entry?
  cases s.qTable.get? u with
  | none => rfl
  | some userQ =>
    simp only
    cases userQ.get? st with
    | none => rfl
    | some hourQ => simp only

theorem entry?_update_self (s : RLScorer) (u st h d : Int) (r : ℚ) (t : Nat) :
    ∃ e, (s.UpdateQValue u st h d r t).entry? u st h = some e ∧
      e.qValue = s.getQValue u st h d + s.alpha * (r + s.gamma * 0 - s.getQValue u st h d) := by
  unfold RLScorer.UpdateQValue RLScorer.entry?
  simp only [GoMap.get?_set_self]
  refine ⟨_, rfl, ?_⟩
  unfold RLScorer.getQValue
  cases s.qTable.get? u with
  | none => simp [GoMap.empty, GoMap.get?]
  | some userQ =>
    simp only
    cases userQ.get? st with
    | none => simp [GoMap.empty, GoMap.get?]
    | some hourQ =>
      simp only
      cases hourQ.get? h <;> simp

theorem getQValue_update_self (s : RLScorer) (u st h d d' : Int) (r : ℚ) (t : Nat) :
    (s.UpdateQValue u st h d r t).getQValue u st h d' =
      s.getQValue u st h d + s.alpha * (r + s.gamma * 0 - s.getQValue u st h d) := by
  obtain ⟨e, he, hq⟩ := entry?_update_self s u st h d r t
  rw [getQValue_eq_entry, he]
  exact hq

theorem entry?_update_other (s : RLScorer) (u st h d : Int) (r : ℚ) (t : Nat)
    (u' st' h' : Int) (hne : ¬ (u = u' ∧ st = st' ∧ h = h')) :
    (s.UpdateQValue u st h d r t).entry? u' st' h' = s.entry? u' st' h' := by
  unfold RLScorer.UpdateQValue RLScorer.entry?
  by_cases hu : u = u'
  · subst hu
    simp only [GoMap.get?_set_self]
    by_cases hs : st = st'
    · subst hs
      have hh : h ≠ h' := fun e => hne ⟨rfl, rfl, e⟩
      simp only [GoMap.get?_set_self, GoMap.get?_set_other _ _ _ _ hh]
      cases s.qTable.get? u with
      | none => simp [GoMap.empty, GoMap.get?]
      | some userQ =>
        simp only
        cases userQ.get? st with
        | none => simp [GoMap.empty, GoMap.get?]
        | some hourQ => simp only
    · simp only [GoMap.get?_set_other _ _ _ _ hs]
      cases s.qTable.get? u with
      | none => simp [GoMap.empty, GoMap.get?]
      | some userQ => simp only
  · simp only [GoMap.get?_set_other _ _ _ _ hu]

theorem entry?_applyUpdates (calls : List UpdateCall) (u st h : Int) :
    ∀ s : RLScorer,
      (∀ c ∈ calls, ¬ (c.userID = u ∧ c.stationID = st ∧ c.hour = h)) →
      (RLScorer.applyUpdates calls s).entry? u st h = s.entry? u st h := by
  induction calls with
  | nil => intro s _; rfl
  | cons c calls ih =>
    intro s hc
    rw [RLScorer.applyUpdates, ih _ (fun c' hc' => hc c' (List.mem_cons_of_mem _ hc'))]
    exact entry?_update_other s _ _ _ _ _ _ u st h (hc c (List.mem_cons_self _ _))

theorem rlScoreLoop_mem (s : RLScorer) (calcDist : ℚ → ℚ → ℚ → ℚ → ℚ) (req : ScoreRequest)
    (forecastMap : GoMap Int Int) (hour dayOfWeek : Int) (stations : List Station) :
    ∀ (rng : Rand) (ss : ScoredStation),
      ss ∈ (rlScoreLoop s calcDist req forecastMap hour dayOfWeek stations rng).1 →
      ∃ st ∈ stations, ∃ rng',
        ss = (rlScoreStation s calcDist req forecastMap hour dayOfWeek st rng').1 := by
  induction stations with
  | nil => intro rng ss h; simp [rlScoreLoop] at h
  | cons st rest ih =>
    intro rng ss h
    simp only [rlScoreLoop, List.mem_cons] at h
    rcases h with h | h
    · exact ⟨st, List.mem_cons_self _ _, rng, h⟩
    · obtain ⟨st', hst', rng', h'⟩ := ih _ ss h
      exact ⟨st', List.mem_cons_of_mem _ hst', rng', h'⟩

theorem score_qTable (s : RLScorer) (calcDist : ℚ → ℚ → ℚ → ℚ → ℚ) (rng : Rand)
    (req : ScoreRequest) : (s.Score calcDist rng req).2.1.qTable = s.qTable := by
  unfold RLScorer.Score
  cases s.queries.ListStations with
  | error e => rfl
  | ok stations =>
    simp only [RLScorer.decayEpsilon]
    split <;> rfl

/-- C8: for a scorer made by `NewRLScorer` and then updated by any sequence of
`UpdateQValue` calls, `Score` leaves the Q-table as it is (so `GetQTableSize` is
unchanged), and every returned station for whose `(request user, station, request hour)`
no update was ever made carries `rl_bonus = 0` and `q_value = 0`. -/
theorem rl_bonus_zero_without_update (q : Queries) (calls : List UpdateCall)
    (calcDist : ℚ → ℚ → ℚ → ℚ → ℚ) (rng : Rand) (req : ScoreRequest) :
    (((RLScorer.applyUpdates calls (NewRLScorer q)).Score calcDist rng req).2.1.qTable =
        (RLScorer.applyUpdates calls (NewRLScorer q)).qTable) ∧
    (((RLScorer.applyUpdates calls (NewRLScorer q)).Score calcDist rng req).2.1.GetQTableSize =
        (RLScorer.applyUpdates calls (NewRLScorer q)).GetQTableSize) ∧
    (∀ out, ((RLScorer.applyUpdates calls (NewRLScorer q)).Score calcDist rng req).1 =
        Result.ok out →
      ∀ ss ∈ out,
        (∀ c ∈ calls, ¬ (c.userID = req.UserID ∧ c.stationID = ss.StationID ∧
          c.hour = req.TimeSlot.Hour)) →
        ∃ load distance green price : ℚ,
          ss.Components =
            [("load", load), ("distance", distance), ("green", green), ("price", price),
             ("rl_bonus", 0), ("q_value", 0)]) := by
  have hq := score_qTable (RLScorer.applyUpdates calls (NewRLScorer q)) calcDist rng req
  refine ⟨hq, ?_, ?_⟩
  · unfold RLScorer.GetQTableSize
    rw [hq]
  · intro out hout ss hss hnever
    unfold RLScorer.Score at hout
    cases hfetch : (RLScorer.applyUpdates calls (NewRLScorer q)).queries.ListStations with
    | error e =>
      rw [hfetch] at hout
      cases hout
    | ok stations =>
      rw [hfetch] at hout
      have hmem := sortAndLimit_mem _ _ _ hout ss hss
      obtain ⟨st, _, rng', rfl⟩ := rlScoreLoop_mem _ _ _ _ _ _ _ _ _ hmem
      have hentry := entry?_applyUpdates calls req.UserID st.ID req.TimeSlot.Hour
        (NewRLScorer q) hnever
      have hnone : (NewRLScorer q).entry? req.UserID st.ID req.TimeSlot.Hour = none := rfl
      have hzero : (RLScorer.applyUpdates calls (NewRLScorer q)).getQValue req.UserID st.ID
          req.TimeSlot.Hour req.TimeSlot.Weekday = 0 := by
        rw [getQValue_eq_entry, hentry, hnone]
      simp only [rlScoreStation, hzero, zero_mul]
      exact ⟨_, _, _, _, rfl⟩

/-- Witness of C8: after one update for station 1, the returned station 2 has
`rl_bonus = 0` and `q_value = 0`. -/
theorem rl_bonus_zero_without_update_witness :
    ∃ load distance green price : ℚ,
      (⟨2, 2907 / 40,
        [("load", 45), ("distance", 1667 / 8), ("green", 25), ("price", 60), ("rl_bonus", 0),
         ("q_value", 0)],
        "Orta yoğunluk & yeşil tarife & yakın"⟩ : ScoredStation).Components =
        [("load", load), ("distance", distance), ("green", green), ("price", price),
         ("rl_bonus", 0), ("q_value", 0)] :=
  (rl_bonus_zero_without_update sampleQueries sampleCalls sampleDist sampleRand
    sampleRequest5).2.2 sampleRLOut (by decide!) _ (by decide!) (by decide)

theorem marker_of_exploration (load : Int) (greenHour : Bool) (dist price qValue : ℚ)
    (b : Bool) :
    List.isSuffixOf "keşif".data
      (buildRLExplanation load greenHour dist price qValue
        (if b = true then " (keşif)" else "")).data = b := by
  have e1 : (" (keşif)" ≠ "") = True := by decide
  have e2 : (("" : String) ≠ "") = False := by decide
  unfold buildRLExplanation rlExplanationParts explanationParts
  by_cases h1 : load < 30 <;> by_cases h2 : load > 65 <;> by_cases h3 : dist < 5 <;>
    by_cases h4 : price < 7 <;> by_cases h5 : qValue > 10 <;> cases greenHour <;> cases b <;>
    simp only [h1, h2, h3, h4, h5, e1, e2, if_true, if_false, List.nil_append,
      List.cons_append, Bool.false_eq_true] <;>
    decide

/-- C9, as stated, fails: in one `Score` call of a fresh scorer on three stations, with
draws 1/10, 1/2, 9/10, 9/10, station 1 gets the exploration marker and a bonus of 5 while
stations 2 and 3 get neither. -/
theorem exploration_not_batch_level :
    ((NewRLScorer sampleQueries).Score sampleDist sampleRand sampleRequest5).1 =
        Result.ok sampleFreshOut ∧
    sampleFreshOut.map hasMarker = [true, false, false] ∧
    sampleFreshOut.map explorationBonus = [5, 0, 0] ∧
    ¬ ((∀ ss ∈ sampleFreshOut, hasMarker ss = true) ∨
       (∀ ss ∈ sampleFreshOut, hasMarker ss = false)) := by
  decide!

/-- C9, amended: exploration is decided station by station. For each station the loop
makes a fresh draw and compares it with the scorer's epsilon (the same for all stations of
the call); when the draw is below epsilon the station gets the marker and a bonus of 10
times a further draw, otherwise neither; and the next station is scored with the random
source the previous one left. -/
theorem exploration_per_station (s : RLScorer) (calcDist : ℚ → ℚ → ℚ → ℚ → ℚ)
    (req : ScoreRequest) (forecastMap : GoMap Int Int) (hour dayOfWeek : Int) (st : Station)
    (rest : List Station) (rng : Rand) :
    hasMarker (rlScoreStation s calcDist req forecastMap hour dayOfWeek st rng).1 =
      decide (rng.draws rng.pos < s.epsilon) ∧
    explorationBonus (rlScoreStation s calcDist req forecastMap hour dayOfWeek st rng).1 =
      (if rng.draws rng.pos < s.epsilon then rng.draws (rng.pos + 1) * 10 else 0) ∧
    (rlScoreStation s calcDist req forecastMap hour dayOfWeek st rng).2.draws = rng.draws ∧
    (rlScoreStation s calcDist req forecastMap hour dayOfWeek st rng).2.pos =
      rng.pos + (if rng.draws rng.pos < s.epsilon then 2 else 1) ∧
    (rlScoreLoop s calcDist req forecastMap hour dayOfWeek (st :: rest) rng).1 =
      (rlScoreStation s calcDist req forecastMap hour dayOfWeek st rng).1 ::
        (rlScoreLoop s calcDist req forecastMap hour dayOfWeek rest
          (rlScoreStation s calcDist req forecastMap hour dayOfWeek st rng).2).1 := by
  refine ⟨?_, ?_, ?_, ?_, rfl⟩
  · unfold hasMarker rlScoreStation
    simp only [RLScorer.shouldExplore, Rand.Float64]
    exact marker_of_exploration _ _ _ _ _ _
  · by_cases h : rng.draws rng.pos < s.epsilon
    · simp [explorationBonus, rlBaseScore, rlScoreStation, RLScorer.shouldExplore,
        Rand.Float64, GoMap.getD, GoMap.get?, h]
    · simp [explorationBonus, rlBaseScore, rlScoreStation, RLScorer.shouldExplore,
        Rand.Float64, GoMap.getD, GoMap.get?, h]
  · by_cases h : rng.draws rng.pos < s.epsilon <;>
      simp [rlScoreStation, RLScorer.shouldExplore, Rand.Float64, h]
  · by_cases h : rng.draws rng.pos < s.epsilon <;>
      simp [rlScoreStation, RLScorer.shouldExplore, Rand.Float64, h]

/-- C10, as stated, fails: the heuristic scorer's `Score`, called directly with
`Limit = 0` on three stations, returns no station rather than `min(10, 3) = 3`; so does
the personalized scorer's. -/
theorem score_no_default_limit :
    (NewLinearRegressionScorer sampleQueries).Score sampleDist sampleRequest = Result.ok [] ∧
    ((NewRLScorer sampleQueries).Score sampleDist sampleRand sampleRequest).1 = Result.ok [] ∧
    sampleRequest.Limit ≤ 0 ∧ sampleQueries.ListStations = Except.ok sampleStations ∧
    ¬ (∀ (s : LinearRegressionScorer) (calcDist : ℚ → ℚ → ℚ → ℚ → ℚ) (req : ScoreRequest)
        (stations : List Station), s.queries.ListStations = Except.ok stations →
        req.Limit ≤ 0 →
        ∃ out, s.Score calcDist req = Result.ok out ∧
          (out.length : Int) = min 10 (stations.length : Int)) := by
  have h1 : (NewLinearRegressionScorer sampleQueries).Score sampleDist sampleRequest =
      Result.ok [] := by decide!
  refine ⟨h1, by decide!, by decide, rfl, ?_⟩
  intro h
  obtain ⟨out, ho, hl⟩ := h (NewLinearRegressionScorer sampleQueries) sampleDist sampleRequest
    sampleStations rfl (by decide)
  rw [h1] at ho
  cases ho
  exact absurd hl (by decide)

/-- C10, amended: the default limit of 10 is applied by `Service.Recommend`, not by the
scorers. For a request with `Limit <= 0` and a successful station fetch, `Recommend`
returns `min(10, numberOfStations)` stations with either scorer, while `Score` of either
scorer, called directly with `Limit = 0`, returns the empty list. -/
theorem default_limit_in_service (svc : Service) (calcDist : ℚ → ℚ → ℚ → ℚ → ℚ) (rng : Rand)
    (req : ScoreRequest) (stations : List Station)
    (hfetch : svc.scorer.queries.ListStations = Except.ok stations)
    (hlim : req.Limit ≤ 0) :
    (∃ out, (svc.Recommend calcDist rng req).1 = Result.ok out ∧
      (out.length : Int) = min 10 (stations.length : Int)) ∧
    (req.Limit = 0 → (svc.scorer.Score calcDist rng req).1 = Result.ok []) := by
  constructor
  · obtain ⟨out, ho, hl⟩ := recommend_default_length svc calcDist rng req stations hfetch
    have hneg : ¬ req.Limit > 0 := by omega
    exact ⟨out, ho, by simpa only [hneg, if_false] using hl⟩
  · intro h0
    obtain ⟨out, ho, hl⟩ := scorer_score_length svc.scorer calcDist rng stations hfetch req
      (by omega)
    have : out = [] := by
      apply List.length_eq_zero.1
      rw [h0] at hl
      omega
    rw [ho, this]

/-- Witness of the amended C10 on the sample service over the personalized scorer, with
a request without limit. -/
theorem default_limit_in_service_witness :
    (∃ out, (sampleRLService.Recommend sampleDist sampleRand sampleRequest).1 = Result.ok out ∧
      (out.length : Int) = min 10 (sampleStations.length : Int)) ∧
    (sampleRequest.Limit = 0 →
      (sampleRLService.scorer.Score sampleDist sampleRand sampleRequest).1 = Result.ok []) :=
  default_limit_in_service sampleRLService sampleDist sampleRand sampleRequest sampleStations
    rfl (by decide)

/-- C11 fails on the code: with the limit -1, `sortAndLimit` panics on the slice
expression `scored[:limit]`, and so does `Score` of either scorer when it is called with a
request whose `Limit` is -1. -/
theorem negative_limit_panics :
    sortAndLimit [tieA, tieB, tieC] (-1) = Result.panic ∧
    (NewLinearRegressionScorer sampleQueries).Score sampleDist sampleRequestNeg =
      Result.panic ∧
    ((NewRLScorer sampleQueries).Score sampleDist sampleRand sampleRequestNeg).1 =
      Result.panic := by
  refine ⟨sortAndLimit_of_neg _ _ (by decide), ?_, ?_⟩
  · simp only [LinearRegressionScorer.Score, NewLinearRegressionScorer, sampleQueries]
    exact sortAndLimit_of_neg _ _ (by decide)
  · simp only [RLScorer.Score, NewRLScorer, sampleQueries]
    exact sortAndLimit_of_neg _ _ (by decide)

theorem effectiveLoad_empty (st : Station) :
    effectiveLoad (buildForecastMap []) st = st.Density := by
  simp [effectiveLoad, buildForecastMap, GoMap.getD, GoMap.get?, GoMap.empty]

theorem sortAndLimit_ne_error (l : List ScoredStation) (limit : Int) (e : String) :
    sortAndLimit l limit ≠ Result.error e := by
  by_cases h : 0 ≤ limit
  · rw [sortAndLimit_of_nonneg l limit h]
    exact fun hc => Result.noConfusion hc
  · rw [sortAndLimit_of_neg l limit (by omega)]
    exact fun hc => Result.noConfusion hc

theorem rlScoreLoop_queries (rs : RLScorer) (q : Queries) (calcDist : ℚ → ℚ → ℚ → ℚ → ℚ)
    (req : ScoreRequest) (forecastMap : GoMap Int Int) (hour dayOfWeek : Int)
    (stations : List Station) :
    ∀ rng, rlScoreLoop { rs with queries := q } calcDist req forecastMap hour dayOfWeek
        stations rng =
      rlScoreLoop rs calcDist req forecastMap hour dayOfWeek stations rng := by
  induction stations with
  | nil => intro rng; rfl
  | cons st rest ih =>
    intro rng
    simp only [rlScoreLoop, ih]
    rfl

/-- C12: for both scorers, a failed station fetch makes `Score` return the error of the
fetch and no stations (and leaves the personalized scorer as it was); when the station
fetch succeeds and the forecast fetch fails, `Score` returns what it returns when the
forecast fetch succeeds with an empty list, that is never an error, a result when the
limit is not negative, and every station is scored with its density as load. -/
theorem fetch_error_handling (ls : LinearRegressionScorer) (rs : RLScorer)
    (calcDist : ℚ → ℚ → ℚ → ℚ → ℚ) (rng : Rand) (req : ScoreRequest) :
    (∀ err, ls.queries.ListStations = Except.error err →
      ls.Score calcDist req = Result.error err) ∧
    (∀ err, rs.queries.ListStations = Except.error err →
      (rs.Score calcDist rng req).1 = Result.error err ∧
      (rs.Score calcDist rng req).2.1.epsilon = rs.epsilon ∧
      (rs.Score calcDist rng req).2.1.qTable = rs.qTable) ∧
    (∀ stations e, ls.queries.ListStations = Except.ok stations →
      ls.queries.GetForecastsByDayHour req.TimeSlot.Weekday req.TimeSlot.Hour =
        Except.error e →
      ls.Score calcDist req =
        (LinearRegressionScorer.mk (ls.queries.withForecasts (Except.ok []))).Score
          calcDist req ∧
      (∀ e', ls.Score calcDist req ≠ Result.error e') ∧
      (0 ≤ req.Limit → ∃ out, ls.Score calcDist req = Result.ok out ∧
        (out.length : Int) = min req.Limit (stations.length : Int)) ∧
      (∀ st, effectiveLoad (requestForecastMap ls.queries req) st = st.Density)) ∧
    (∀ stations e, rs.queries.ListStations = Except.ok stations →
      rs.queries.GetForecastsByDayHour req.TimeSlot.Weekday req.TimeSlot.Hour =
        Except.error e →
      (rs.Score calcDist rng req).1 =
        (RLScorer.Score { rs with queries := rs.queries.withForecasts (Except.ok []) }
          calcDist rng req).1 ∧
      (∀ e', (rs.Score calcDist rng req).1 ≠ Result.error e') ∧
      (0 ≤ req.Limit → ∃ out, (rs.Score calcDist rng req).1 = Result.ok out ∧
        (out.length : Int) = min req.Limit (stations.length : Int)) ∧
      (∀ st, effectiveLoad (requestForecastMap rs.queries req) st = st.Density)) := by
  refine ⟨?_, ?_, ?_, ?_⟩
  · intro err h
    simp only [LinearRegressionScorer.Score, h]
  · intro err h
    simp only [RLScorer.Score, h, and_self]
  · intro stations e hst hf
    refine ⟨?_, ?_, ?_, ?_⟩
    · simp only [LinearRegressionScorer.Score, Queries.withForecasts, hst, hf, forecastsOrNil]
    · intro e'
      simp only [LinearRegressionScorer.Score, hst]
      exact sortAndLimit_ne_error _ _ _
    · intro hl
      exact scorer_score_length (.linear ls) calcDist rng stations hst req hl
    · intro st
      simp only [requestForecastMap, hf, forecastsOrNil]
      exact effectiveLoad_empty st
  · intro stations e hst hf
    refine ⟨?_, ?_, ?_, ?_⟩
    · simp only [RLScorer.Score, Queries.withForecasts, hst, hf, forecastsOrNil,
        rlScoreLoop_queries]
    · intro e'
      simp only [RLScorer.Score, hst]
      exact sortAndLimit_ne_error _ _ _
    · intro hl
      exact scorer_score_length (.rl rs) calcDist rng stations hst req hl
    · intro st
      simp only [requestForecastMap, hf, forecastsOrNil]
      exact effectiveLoad_empty st

/-- Witness of C12: the error of a failed station fetch is returned as it is, and with a
failed forecast fetch the sample request with limit 5 gets a result for all three
stations. -/
theorem fetch_error_handling_witness :
    (NewLinearRegressionScorer failingQueries).Score sampleDist sampleRequest5 =
      Result.error "stations unavailable" ∧
    ((NewRLScorer failingQueries).Score sampleDist sampleRand sampleRequest5).1 =
      Result.error "stations unavailable" ∧
    (∃ out, (NewLinearRegressionScorer noForecastQueries).Score sampleDist sampleRequest5 =
        Result.ok out ∧
      (out.length : Int) = min sampleRequest5.Limit (sampleStations.length : Int)) ∧
    (∃ out, ((NewRLScorer noForecastQueries).Score sampleDist sampleRand sampleRequest5).1 =
        Result.ok out ∧
      (out.length : Int) = min sampleRequest5.Limit (sampleStations.length : Int)) :=
  ⟨(fetch_error_handling (NewLinearRegressionScorer failingQueries) (NewRLScorer failingQueries)
      sampleDist sampleRand sampleRequest5).1 _ rfl,
   ((fetch_error_handling (NewLinearRegressionScorer failingQueries)
      (NewRLScorer failingQueries) sampleDist sampleRand sampleRequest5).2.1 _ rfl).1,
   ((fetch_error_handling (NewLinearRegressionScorer noForecastQueries)
      (NewRLScorer noForecastQueries) sampleDist sampleRand sampleRequest5).2.2.1
        sampleStations "forecasts unavailable" rfl rfl).2.2.1 (by decide),
   ((fetch_error_handling (NewLinearRegressionScorer noForecastQueries)
      (NewRLScorer noForecastQueries) sampleDist sampleRand sampleRequest5).2.2.2
        sampleStations "forecasts unavailable" rfl rfl).2.2.1 (by decide)⟩

theorem station_of_id (stations : List Station) (hid : (stations.map Station.ID).Nodup)
    (st st' : Station) (h : st ∈ stations) (h' : st' ∈ stations) (he : st.ID = st'.ID) :
    st = st' :=
  List.inj_on_of_nodup_map hid h h' he

theorem linear_out_station (ls : LinearRegressionScorer) (calcDist : ℚ → ℚ → ℚ → ℚ → ℚ)
    (req : ScoreRequest) (stations : List Station) (out : List ScoredStation)
    (hfetch : ls.queries.ListStations = Except.ok stations)
    (hid : (stations.map Station.ID).Nodup)
    (hout : ls.Score calcDist req = Result.ok out) :
    ∀ b ∈ out, ∃ st ∈ stations, ∃ dists : GoMap Int ℚ,
      b = linearScoreStation (requestForecastMap ls.queries req) dists req.TimeSlot.Hour st ∧
      dists.getD st.ID 0 = calcDist req.UserLat req.UserLng st.Lat st.Lng := by
  intro b hb
  simp only [LinearRegressionScorer.Score, hfetch] at hout
  have hmem := sortAndLimit_mem _ _ _ hout b hb
  simp only [linearScored, List.mem_map] at hmem
  obtain ⟨st, hst, rfl⟩ := hmem
  exact ⟨st, hst, _, rfl, dists_of_nodup calcDist req _ stations hid st hst⟩

theorem rl_out_station (rs : RLScorer) (calcDist : ℚ → ℚ → ℚ → ℚ → ℚ) (rng : Rand)
    (req : ScoreRequest) (stations : List Station) (out : List ScoredStation)
    (hfetch : rs.queries.ListStations = Except.ok stations)
    (hout : (rs.Score calcDist rng req).1 = Result.ok out) :
    ∀ a ∈ out, ∃ st ∈ stations, ∃ rng' : Rand,
      a = (rlScoreStation rs calcDist req (requestForecastMap rs.queries req)
        req.TimeSlot.Hour req.TimeSlot.Weekday st rng').1 := by
  intro a ha
  simp only [RLScorer.Score, hfetch] at hout
  have hmem := sortAndLimit_mem _ _ _ hout a ha
  exact rlScoreLoop_mem _ _ _ _ _ _ _ _ _ hmem

/-- C15, as stated, fails when two fetched stations carry the same identifier: for the
station 33.3 km away the personalized scorer computes the distance in place and reports
the `distance` component 0, while the heuristic scorer reads the distance of the other
station of that ID from its map and reports 250. -/
theorem rl_distance_differs_on_repeated_id :
    (NewLinearRegressionScorer dupQueries).Score sampleDist sampleRequest5
      = Result.ok dupLinearOut ∧
    ((NewRLScorer dupQueries).Score sampleDist sampleRand sampleRequest5).1
      = Result.ok dupRLOut ∧
    dupRLFar ∈ dupRLOut ∧ dupLinearFar ∈ dupLinearOut ∧
    dupRLFar.StationID = dupLinearFar.StationID ∧
    GoMap.get? (κ := String) dupRLFar.Components "load" = some 80 ∧
    GoMap.get? (κ := String) dupLinearFar.Components "load" = some 80 ∧
    GoMap.get? (κ := String) dupRLFar.Components "price" = some 30 ∧
    GoMap.get? (κ := String) dupLinearFar.Components "price" = some 30 ∧
    GoMap.get? (κ := String) dupRLFar.Components "distance" = some 0 ∧
    GoMap.get? (κ := String) dupLinearFar.Components "distance" = some 250 ∧
    ¬ (∃ load distance green price rlBonus qValue : ℚ,
      dupLinearFar.Components =
        [("load", load), ("distance", distance), ("green", green), ("price", price)] ∧
      dupRLFar.Components =
        [("load", load), ("distance", distance), ("green", green), ("price", price),
         ("rl_bonus", rlBonus), ("q_value", qValue)]) := by
  refine ⟨by decide!, by decide!, by decide!, by decide!, rfl, by decide!, by decide!,
    by decide!, by decide!, by decide!, by decide!, ?_⟩
  rintro ⟨load, distance, green, price, rlBonus, qValue, hb, ha⟩
  simp only [dupLinearFar, List.cons.injEq, Prod.mk.injEq, true_and] at hb
  simp only [dupRLFar, List.cons.injEq, Prod.mk.injEq, true_and] at ha
  have h1 := hb.2.1
  have h2 := ha.2.1
  rw [← h1] at h2
  norm_num at h2

/-- C15, amended: when the fetched stations have pairwise distinct identifiers, then for
the same request, station list and forecast data a station returned by the personalized
scorer carries the same `load`, `distance`, `green` and `price` components as the station
with that identifier returned by the heuristic scorer; the heuristic score is
`0.4*load + 0.2*distance + 0.25*green + 0.15*price`, the personalized one
`0.35*load + 0.2*distance + 0.25*green + 0.15*price + rl_bonus` plus the exploration bonus,
which is 0 for a station without the exploration marker. -/
theorem rl_components_match (ls : LinearRegressionScorer) (rs : RLScorer)
    (calcDist : ℚ → ℚ → ℚ → ℚ → ℚ) (rng : Rand) (req : ScoreRequest)
    (stations : List Station) (outL outR : List ScoredStation)
    (hfetchL : ls.queries.ListStations = Except.ok stations)
    (hfetchR : rs.queries.ListStations = Except.ok stations)
    (hforecast : rs.queries.GetForecastsByDayHour req.TimeSlot.Weekday req.TimeSlot.Hour =
      ls.queries.GetForecastsByDayHour req.TimeSlot.Weekday req.TimeSlot.Hour)
    (hid : (stations.map Station.ID).Nodup)
    (hL : ls.Score calcDist req = Result.ok outL)
    (hR : (rs.Score calcDist rng req).1 = Result.ok outR)
    (a b : ScoredStation) (ha : a ∈ outR) (hb : b ∈ outL)
    (hsame : a.StationID = b.StationID) :
    ∃ load distance green price rlBonus qValue bonus : ℚ,
      b.Components =
        [("load", load), ("distance", distance), ("green", green), ("price", price)] ∧
      a.Components =
        [("load", load), ("distance", distance), ("green", green), ("price", price),
         ("rl_bonus", rlBonus), ("q_value", qValue)] ∧
      b.Score = 0.4 * load + 0.2 * distance + 0.25 * green + 0.15 * price ∧
      a.Score = 0.35 * load + 0.2 * distance + 0.25 * green + 0.15 * price + rlBonus + bonus ∧
      (hasMarker a = false → bonus = 0) := by
  obtain ⟨st', hst', dists, rfl, hd⟩ := linear_out_station ls calcDist req stations outL
    hfetchL hid hL b hb
  obtain ⟨st, hst, rng', rfl⟩ := rl_out_station rs calcDist rng req stations outR hfetchR hR a ha
  have hst_eq : st = st' := station_of_id stations hid st st' hst hst' hsame
  subst hst_eq
  have hfm : requestForecastMap rs.queries req = requestForecastMap ls.queries req := by
    simp only [requestForecastMap, hforecast]
  have hmark := marker_of_exploration
    (effectiveLoad (requestForecastMap ls.queries req) st)
    (decide (req.TimeSlot.Hour ≥ 23) || decide (req.TimeSlot.Hour ≤ 6))
    (calcDist req.UserLat req.UserLng st.Lat st.Lng) st.Price
    (rs.getQValue req.UserID st.ID req.TimeSlot.Hour req.TimeSlot.Weekday)
    (rs.shouldExplore req.UserID rng').1
  rw [hfm]
  simp only [hasMarker, rlScoreStation, linearScoreStation, hd]
  refine ⟨_, _, _, _, _, _,
    (if (rs.shouldExplore req.UserID rng').1 = true then
      (rs.shouldExplore req.UserID rng').2.Float64.1 * 10 else 0), rfl, rfl, ?_, ?_, ?_⟩
  · ring
  · split <;> ring
  · intro hm
    have hm2 : (rs.shouldExplore req.UserID rng').1 = false := by
      rw [← hmark]
      exact hm
    simp [hm2]

/-- Witness of the amended C15 on the sample collaborator: station 3 as returned by the two scorers. -/
theorem rl_components_match_witness :
    ∃ load distance green price rlBonus qValue bonus : ℚ,
      sampleLinearThird.Components =
        [("load", load), ("distance", distance), ("green", green), ("price", price)] ∧
      sampleFreshThird.Components =
        [("load", load), ("distance", distance), ("green", green), ("price", price),
         ("rl_bonus", rlBonus), ("q_value", qValue)] ∧
      sampleLinearThird.Score = 0.4 * load + 0.2 * distance + 0.25 * green + 0.15 * price ∧
      sampleFreshThird.Score =
        0.35 * load + 0.2 * distance + 0.25 * green + 0.15 * price + rlBonus + bonus ∧
      (hasMarker sampleFreshThird = false → bonus = 0) :=
  rl_components_match (NewLinearRegressionScorer sampleQueries) (NewRLScorer sampleQueries)
    sampleDist sampleRand sampleRequest5 sampleStations sampleLinearOut sampleFreshOut
    rfl rfl rfl (by decide) (by decide!) (by decide!) sampleFreshThird sampleLinearThird
    (by decide!) (by decide!) rfl

theorem normalizeScore_far (d : ℚ) (h : d ≥ 20) :
    normalizeScore (Max.max 0 (20 - d)) 0 20 * 2.5 = 0 := by
  have hm : Max.max 0 (20 - d) = 0 := max_eq_left (by linarith)
  rw [hm]
  simp [normalizeScore]

/-- C17: `CalculateReward(coins, co2Saved, isGreen, load)` is
`coins + 10*co2Saved + (20 if isGreen) + (15 if load < 30, -10 if load > 65)`;
`CalculateReward(5, 2.0, true, 20) = 60`. -/
theorem calculateReward_formula (s : RLScorer) (coins : Int) (co2Saved : ℚ) (isGreen : Bool)
    (load : Int) :
    s.CalculateReward coins co2Saved isGreen load =
      (coins : ℚ) + 10 * co2Saved + (if isGreen = true then 20 else 0) +
        (if load < 30 then 15 else if load > 65 then -10 else 0) ∧
    s.CalculateReward 5 2.0 true 20 = 60 := by
  constructor
  · unfold RLScorer.CalculateReward
    cases isGreen <;> by_cases h1 : load < 30 <;> by_cases h2 : load > 65 <;>
      simp [h1, h2] <;> ring
  · simp [RLScorer.CalculateReward]
    norm_num

theorem atan2_nonneg (y x : ℝ) (hy : 0 ≤ y) : 0 ≤ atan2 y x := by
  have hpi : 0 < Real.pi := Real.pi_pos
  have hlow := Real.neg_pi_div_two_lt_arctan (y / x)
  unfold atan2
  by_cases h1 : 0 < x
  · rw [if_pos h1]
    have h0 : (0 : ℝ) ≤ y / x := div_nonneg hy (le_of_lt h1)
    have := Real.arctan_strictMono.monotone h0
    rwa [Real.arctan_zero] at this
  · rw [if_neg h1]
    by_cases h2 : x < 0
    · rw [if_pos h2, if_pos hy]
      linarith
    · rw [if_neg h2]
      by_cases h3 : 0 < y
      · rw [if_pos h3]
        linarith
      · rw [if_neg h3, if_neg (not_lt.2 hy)]

theorem atan2_sin_cos (θ : ℝ) (h1 : -(Real.pi / 2) < θ) (h2 : θ < Real.pi / 2) :
    atan2 (Real.sin θ) (Real.cos θ) = θ := by
  have hcos : 0 < Real.cos θ := Real.cos_pos_of_mem_Ioo ⟨h1, h2⟩
  unfold atan2
  rw [if_pos hcos, ← Real.tan_eq_sin_div_cos, Real.arctan_tan h1 h2]

theorem calculateDistance_one_degree (lat lng : ℝ) :
    calculateDistance lat lng (lat + 1) lng = 6371 * (Real.pi / 180) := by
  have hpi : 0 < Real.pi := Real.pi_pos
  have hθ1 : -(Real.pi / 2) < Real.pi / 360 := by linarith
  have hθ2 : Real.pi / 360 < Real.pi / 2 := by linarith
  have hsin : 0 ≤ Real.sin (Real.pi / 360) :=
    le_of_lt (Real.sin_pos_of_pos_of_lt_pi (by linarith) (by linarith))
  have hcos : 0 ≤ Real.cos (Real.pi / 360) :=
    le_of_lt (Real.cos_pos_of_mem_Ioo ⟨hθ1, hθ2⟩)
  have hdLat : (lat + 1 - lat) * Real.pi / 180 / 2 = Real.pi / 360 := by ring
  have hdLng : (lng - lng) * Real.pi / 180 / 2 = 0 := by ring
  have ha : Real.sin (Real.pi / 360) * Real.sin (Real.pi / 360) +
      Real.cos (lat * Real.pi / 180) * Real.cos ((lat + 1) * Real.pi / 180) *
        Real.sin 0 * Real.sin 0 =
      Real.sin (Real.pi / 360) * Real.sin (Real.pi / 360) := by
    rw [Real.sin_zero]
    ring
  have h1a : 1 - Real.sin (Real.pi / 360) * Real.sin (Real.pi / 360) =
      Real.cos (Real.pi / 360) * Real.cos (Real.pi / 360) := by
    have := Real.sin_sq_add_cos_sq (Real.pi / 360)
    nlinarith
  unfold calculateDistance
  simp only [hdLat, hdLng, ha, h1a, Real.sqrt_mul_self hsin, Real.sqrt_mul_self hcos,
    atan2_sin_cos _ hθ1 hθ2]
  ring

theorem calculateDistance_symm (lat1 lng1 lat2 lng2 : ℝ) :
    calculateDistance lat1 lng1 lat2 lng2 = calculateDistance lat2 lng2 lat1 lng1 := by
  have h1 : (lat1 - lat2) * Real.pi / 180 / 2 = -((lat2 - lat1) * Real.pi / 180 / 2) := by ring
  have h2 : (lng1 - lng2) * Real.pi / 180 / 2 = -((lng2 - lng1) * Real.pi / 180 / 2) := by ring
  have ha : Real.sin ((lat2 - lat1) * Real.pi / 180 / 2) *
        Real.sin ((lat2 - lat1) * Real.pi / 180 / 2) +
      Real.cos (lat1 * Real.pi / 180) * Real.cos (lat2 * Real.pi / 180) *
        Real.sin ((lng2 - lng1) * Real.pi / 180 / 2) *
        Real.sin ((lng2 - lng1) * Real.pi / 180 / 2) =
      Real.sin ((lat1 - lat2) * Real.pi / 180 / 2) *
        Real.sin ((lat1 - lat2) * Real.pi / 180 / 2) +
      Real.cos (lat2 * Real.pi / 180) * Real.cos (lat1 * Real.pi / 180) *
        Real.sin ((lng1 - lng2) * Real.pi / 180 / 2) *
        Real.sin ((lng1 - lng2) * Real.pi / 180 / 2) := by
    rw [h1, h2, Real.sin_neg, Real.sin_neg]
    ring
  unfold calculateDistance
  simp only [ha]

/-- C18: over the reals, `calculateDistance` (haversine with Earth radius 6371 km) is 0
for identical points, symmetric in its two points and non-negative, and for two points on
one meridian 1 degree of latitude apart it is `6371 * pi / 180`, within 1 km of 111. -/
theorem calculateDistance_properties (lat1 lng1 lat2 lng2 : ℝ) :
    calculateDistance lat1 lng1 lat1 lng1 = 0 ∧
    calculateDistance lat1 lng1 lat2 lng2 = calculateDistance lat2 lng2 lat1 lng1 ∧
    0 ≤ calculateDistance lat1 lng1 lat2 lng2 ∧
    calculateDistance lat1 lng1 (lat1 + 1) lng1 = 6371 * (Real.pi / 180) ∧
    |calculateDistance lat1 lng1 (lat1 + 1) lng1 - 111| ≤ 1 ∧
    |calculateDistance (lat1 + 1) lng1 lat1 lng1 - 111| ≤ 1 := by
  have hone := calculateDistance_one_degree lat1 lng1
  have hnear : |calculateDistance lat1 lng1 (lat1 + 1) lng1 - 111| ≤ 1 := by
    rw [hone, abs_le]
    have hlo := Real.pi_gt_d2
    have hhi := Real.pi_lt_d2
    constructor <;> norm_num at hlo hhi ⊢ <;> linarith
  refine ⟨?_, calculateDistance_symm _ _ _ _, ?_, hone, hnear, ?_⟩
  · unfold calculateDistance atan2
    simp
  · unfold calculateDistance
    have := atan2_nonneg
      (Real.sqrt (Real.sin ((lat2 - lat1) * Real.pi / 180 / 2) *
          Real.sin ((lat2 - lat1) * Real.pi / 180 / 2) +
        Real.cos (lat1 * Real.pi / 180) * Real.cos (lat2 * Real.pi / 180) *
          Real.sin ((lng2 - lng1) * Real.pi / 180 / 2) *
          Real.sin ((lng2 - lng1) * Real.pi / 180 / 2)))
      (Real.sqrt (1 - (Real.sin ((lat2 - lat1) * Real.pi / 180 / 2) *
          Real.sin ((lat2 - lat1) * Real.pi / 180 / 2) +
        Real.cos (lat1 * Real.pi / 180) * Real.cos (lat2 * Real.pi / 180) *
          Real.sin ((lng2 - lng1) * Real.pi / 180 / 2) *
          Real.sin ((lng2 - lng1) * Real.pi / 180 / 2))))
      (Real.sqrt_nonneg _)
    simp only
    linarith
  · rw [calculateDistance_symm]
    exact hnear

theorem foldl_add_len {ν : Type} (g : ν → Nat) (l : List (Int × ν)) :
    ∀ c : Nat, l.foldl (fun count p => count + g p.2) c = c + (l.map (fun p => g p.2)).sum := by
  induction l with
  | nil => intro c; simp
  | cons p l ih =>
    intro c
    simp only [List.foldl_cons, ih, List.map_cons, List.sum_cons]
    omega

theorem GoMap.sum_set {ν : Type} (g : ν → Nat) (m : GoMap Int ν) (k : Int) (v : ν) :
    (List.map (fun p : Int × ν => g p.2) (GoMap.set m k v)).sum +
        (GoMap.get? m k).elim 0 g =
      (List.map (fun p : Int × ν => g p.2) m).sum + g v := by
  induction m with
  | nil => simp [GoMap.set, GoMap.get?]
  | cons p m ih =>
    obtain ⟨k', v'⟩ := p
    by_cases hk : k' = k
    · simp only [GoMap.set, GoMap.get?, hk, if_true, List.map_cons, List.sum_cons,
        Option.elim]
      omega
    · simp only [GoMap.set, GoMap.get?, hk, if_false, List.map_cons, List.sum_cons]
      omega

theorem GoMap.len_set {ν : Type} (m : GoMap Int ν) (k : Int) (v : ν) :
    GoMap.len (GoMap.set m k v) =
      GoMap.len m + (GoMap.get? m k).elim 1 (fun _ => 0) := by
  induction m with
  | nil => simp [GoMap.set, GoMap.get?, GoMap.len]
  | cons p m ih =>
    obtain ⟨k', v'⟩ := p
    by_cases hk : k' = k
    · simp [GoMap.set, GoMap.get?, GoMap.len, hk]
    · simp only [GoMap.set, GoMap.get?, hk, if_false]
      simp only [GoMap.len, List.length_cons] at ih ⊢
      omega

theorem getQTableSize_eq (s : RLScorer) : s.GetQTableSize = tableEntries s.qTable := by
  unfold RLScorer.GetQTableSize tableEntries
  have inner : ∀ (count : Nat) (userQ : Int × GoMap Int (GoMap Int QEntry)),
      List.foldl (fun count (stationQ : Int × GoMap Int QEntry) => count + GoMap.len stationQ.2)
          count userQ.2 = count + userEntries userQ.2 :=
    fun count userQ => foldl_add_len (fun m : GoMap Int QEntry => GoMap.len m) userQ.2 count
  simp only [inner]
  have := foldl_add_len userEntries s.qTable 0
  simpa using this

theorem tableEntries_nested (T : GoMap Int (GoMap Int (GoMap Int QEntry))) (u st h : Int)
    (userQ : GoMap Int (GoMap Int QEntry)) (stationQ : GoMap Int QEntry) (e : QEntry)
    (hu : userQ = match GoMap.get? T u with
      | some m => m
      | none => GoMap.empty)
    (hs : stationQ = match GoMap.get? userQ st with
      | some m => m
      | none => GoMap.empty) :
    tableEntries (GoMap.set T u (GoMap.set userQ st (GoMap.set stationQ h e))) =
      tableEntries T + (GoMap.get? stationQ h).elim 1 (fun _ => 0) := by
  have e1 := GoMap.sum_set userEntries T u (GoMap.set userQ st (GoMap.set stationQ h e))
  have e2 := GoMap.sum_set (fun m : GoMap Int QEntry => GoMap.len m) userQ st
    (GoMap.set stationQ h e)
  have e3 := GoMap.len_set stationQ h e
  have o1 : (GoMap.get? T u).elim 0 userEntries = userEntries userQ := by
    rw [hu]
    cases GoMap.get? T u with
    | none => rfl
    | some o => rfl
  have o2 : (GoMap.get? userQ st).elim 0 (fun m : GoMap Int QEntry => GoMap.len m) =
      GoMap.len stationQ := by
    rw [hs]
    cases GoMap.get? userQ st with
    | none => rfl
    | some o => rfl
  rw [o1] at e1
  rw [o2] at e2
  have e2' : userEntries (GoMap.set userQ st (GoMap.set stationQ h e)) + GoMap.len stationQ =
      userEntries userQ + GoMap.len (GoMap.set stationQ h e) := e2
  have e1' : tableEntries (GoMap.set T u (GoMap.set userQ st (GoMap.set stationQ h e))) +
      userEntries userQ =
      tableEntries T + userEntries (GoMap.set userQ st (GoMap.set stationQ h e)) := e1
  omega

theorem getQTableSize_update (s : RLScorer) (u st h d : Int) (r : ℚ) (t : Nat) :
    (s.UpdateQValue u st h d r t).GetQTableSize =
      s.GetQTableSize + (s.entry? u st h).elim 1 (fun _ => 0) := by
  rw [getQTableSize_eq, getQTableSize_eq]
  have hent : s.entry? u st h =
      GoMap.get? (match GoMap.get? (match GoMap.get? s.qTable u with
          | some m => m
          | none => GoMap.empty) st with
        | some m => m
        | none => GoMap.empty) h := by
    unfold RLScorer.entry?
    cases GoMap.get? s.qTable u with
    | none => rfl
    | some userQ =>
      simp only
      cases GoMap.get? userQ st with
      | none => rfl
      | some stationQ => rfl
  rw [hent]
  unfold RLScorer.UpdateQValue
  exact tableEntries_nested s.qTable u st h _ _ _ rfl rfl

theorem getQTableSize_applyUpdates (calls : List UpdateCall) :
    ∀ (s : RLScorer) (F : Finset (Int × Int × Int)),
      (∀ k : Int × Int × Int, s.entry? k.1 k.2.1 k.2.2 ≠ none ↔ k ∈ F) →
      s.GetQTableSize = F.card →
      (RLScorer.applyUpdates calls s).GetQTableSize =
        (F ∪ (calls.map UpdateCall.key).toFinset).card := by
  induction calls with
  | nil => intro s F _ hsize; simpa using hsize
  | cons c calls ih =>
    intro s F hinv hsize
    have hinv' : ∀ k : Int × Int × Int,
        (s.UpdateQValue c.userID c.stationID c.hour c.dayOfWeek c.reward c.now).entry?
            k.1 k.2.1 k.2.2 ≠ none ↔ k ∈ insert c.key F := by
      intro k
      by_cases hk : c.userID = k.1 ∧ c.stationID = k.2.1 ∧ c.hour = k.2.2
      · obtain ⟨h1, h2, h3⟩ := hk
        have hkey : k = c.key := by
          obtain ⟨k1, k2, k3⟩ := k
          simp only [UpdateCall.key] at *
          subst h1 h2 h3
          rfl
        obtain ⟨e, he, _⟩ := entry?_update_self s c.userID c.stationID c.hour c.dayOfWeek
          c.reward c.now
        rw [← h1, ← h2, ← h3, he, hkey]
        simp
      · rw [entry?_update_other s _ _ _ _ _ _ k.1 k.2.1 k.2.2 hk, hinv k]
        have hne : k ≠ c.key := by
          intro hEq
          apply hk
          rw [hEq]
          exact ⟨rfl, rfl, rfl⟩
        simp [hne]
    have hsize' :
        (s.UpdateQValue c.userID c.stationID c.hour c.dayOfWeek c.reward c.now).GetQTableSize =
          (insert c.key F).card := by
      rw [getQTableSize_update, hsize]
      have hc := hinv c.key
      by_cases hmem : c.key ∈ F
      · have hsome : s.entry? c.userID c.stationID c.hour ≠ none := hc.2 hmem
        rw [Finset.insert_eq_of_mem hmem]
        cases hentry : s.entry? c.userID c.stationID c.hour with
        | none => exact absurd hentry hsome
        | some e => rfl
      · have hnone : s.entry? c.userID c.stationID c.hour = none := by
          by_contra hcon
          exact hmem (hc.1 hcon)
        rw [Finset.card_insert_of_not_mem hmem, hnone]
        rfl
    rw [RLScorer.applyUpdates, ih _ _ hinv' hsize']
    simp only [List.map_cons, List.toFinset_cons, Finset.insert_union, Finset.union_insert]

/-- C20: a call of `UpdateQValue` on a scorer with `alpha = 0.1` makes the value read for
its key `oldQ + 0.1*(reward - oldQ)` (`oldQ` being 0 for an absent key), whatever
`dayOfWeek` is; it leaves the value read for every other key and epsilon as they were;
`GetQTableSize` grows by 1 when the key was absent and is unchanged otherwise; so after any
sequence of updates of a new scorer `GetQTableSize` is the number of distinct keys
updated. -/
theorem updateQValue_frame (s : RLScorer) (u st h d : Int) (reward : ℚ) (now : Nat)
    (halpha : s.alpha = 0.1) :
    (∀ d' : Int, (s.UpdateQValue u st h d reward now).getQValue u st h d' =
      s.getQValue u st h d' + 0.1 * (reward - s.getQValue u st h d')) ∧
    (s.entry? u st h = none → ∀ d' : Int,
      s.getQValue u st h d' = 0 ∧
      (s.UpdateQValue u st h d reward now).getQValue u st h d' = 0.1 * reward) ∧
    (∀ (d₂ : Int) (now₂ : Nat) (d' : Int),
      (s.UpdateQValue u st h d₂ reward now₂).getQValue u st h d' =
        (s.UpdateQValue u st h d reward now).getQValue u st h d') ∧
    (∀ u' st' h' d' : Int, ¬ (u = u' ∧ st = st' ∧ h = h') →
      (s.UpdateQValue u st h d reward now).getQValue u' st' h' d' =
        s.getQValue u' st' h' d') ∧
    (s.UpdateQValue u st h d reward now).GetEpsilon = s.GetEpsilon ∧
    (s.UpdateQValue u st h d reward now).GetQTableSize =
      s.GetQTableSize + (if s.entry? u st h = none then 1 else 0) ∧
    (∀ (q : Queries) (calls : List UpdateCall),
      (RLScorer.applyUpdates calls (NewRLScorer q)).GetQTableSize =
        (calls.map UpdateCall.key).toFinset.card) := by
  have hval : ∀ (d₁ : Int) (t : Nat) (d' : Int),
      (s.UpdateQValue u st h d₁ reward t).getQValue u st h d' =
        s.getQValue u st h d' + 0.1 * (reward - s.getQValue u st h d') := by
    intro d₁ t d'
    rw [getQValue_update_self s u st h d₁ d' reward t, halpha]
    have : s.getQValue u st h d₁ = s.getQValue u st h d' := rfl
    rw [this]
    ring
  refine ⟨hval d now, ?_, ?_, ?_, rfl, ?_, ?_⟩
  · intro habsent d'
    have h0 : s.getQValue u st h d' = 0 := by rw [getQValue_eq_entry, habsent]
    refine ⟨h0, ?_⟩
    rw [hval d now d', h0]
    ring
  · intro d₂ now₂ d'
    rw [hval d₂ now₂ d', hval d now d']
  · intro u' st' h' d' hne
    rw [getQValue_eq_entry, getQValue_eq_entry, entry?_update_other s u st h d reward now
      u' st' h' hne]
  · rw [getQTableSize_update]
    cases s.entry? u st h <;> simp
  · intro q calls
    have := getQTableSize_applyUpdates calls (NewRLScorer q) ∅
      (by intro k; simp [RLScorer.entry?, NewRLScorer, GoMap.empty, GoMap.get?]) rfl
    simpa using this

/-- Witness of C20: a first update of a new scorer for user 7, station 1, hour 2 with
reward 60 stores 6 and makes the table size 1; a second one stores 11.4 and leaves the
size at 1. -/
theorem updateQValue_frame_witness :
    ((NewRLScorer sampleQueries).UpdateQValue 7 1 2 3 60 100).getQValue 7 1 2 3 = 6 ∧
    ((NewRLScorer sampleQueries).UpdateQValue 7 1 2 3 60 100).GetQTableSize = 1 ∧
    (((NewRLScorer sampleQueries).UpdateQValue 7 1 2 3 60 100).UpdateQValue 7 1 2 4 60
      200).getQValue 7 1 2 3 = 11.4 ∧
    (((NewRLScorer sampleQueries).UpdateQValue 7 1 2 3 60 100).UpdateQValue 7 1 2 4 60
      200).GetQTableSize = 1 := by
  have h1 := updateQValue_frame (NewRLScorer sampleQueries) 7 1 2 3 60 100 rfl
  have h2 := updateQValue_frame ((NewRLScorer sampleQueries).UpdateQValue 7 1 2 3 60 100)
    7 1 2 4 60 200 rfl
  have v1 : ((NewRLScorer sampleQueries).UpdateQValue 7 1 2 3 60 100).getQValue 7 1 2 3 = 6 := by
    rw [((h1.2.1 rfl) 3).2]
    norm_num
  refine ⟨v1, ?_, ?_, ?_⟩
  · rw [h1.2.2.2.2.2.1]
    rfl
  · rw [h2.1 3, v1]
    norm_num
  · rw [h2.2.2.2.2.2.1, h1.2.2.2.2.2.1]
    rfl

/-! ## The IEEE-754 layer: lemmas and claims -/

namespace IEEE

/-! ### The loops of `sortAndLimit` -/

theorem getElem?_mid64 (pre : List ScoredStation) (x : ScoredStation) (post : List ScoredStation) :
    (pre ++ x :: post)[pre.length]? = some x := by
  induction pre with
  | nil => simp
  | cons p pre ih => simpa using ih

theorem set_mid64 (pre : List ScoredStation) (x y : ScoredStation) (post : List ScoredStation) :
    (pre ++ x :: post).set pre.length y = pre ++ y :: post := by
  induction pre with
  | nil => rfl
  | cons p pre ih => simp [ih]

theorem swapIfGreater_split64 (pre done ys : List ScoredStation) (x y : ScoredStation) :
    swapIfGreater (pre ++ x :: (done ++ y :: ys)) pre.length (pre.length + 1 + done.length) =
      if F64.gt y.Score x.Score = true then pre ++ y :: (done ++ x :: ys)
      else pre ++ x :: (done ++ y :: ys) := by
  have hlen : pre.length + 1 + done.length = (pre ++ x :: done).length := by simp; omega
  have hlen2 : pre.length + 1 + done.length = (pre ++ y :: done).length := by simp; omega
  have hi : (pre ++ x :: (done ++ y :: ys))[pre.length]? = some x := getElem?_mid64 _ _ _
  have hj : (pre ++ x :: (done ++ y :: ys))[pre.length + 1 + done.length]? = some y := by
    have := getElem?_mid64 (pre ++ x :: done) y ys
    rw [hlen]
    simpa only [List.append_assoc, List.cons_append] using this
  unfold swapIfGreater
  rw [hi, hj]
  simp only
  split
  · rw [set_mid64, hlen2]
    have := set_mid64 (pre ++ y :: done) y x ys
    simpa only [List.append_assoc, List.cons_append] using this
  · rfl

theorem innerLoop_split64 (ys : List ScoredStation) :
    ∀ (pre done : List ScoredStation) (x : ScoredStation) (fuel : Nat), ys.length ≤ fuel →
      innerLoop pre.length fuel (pre.length + 1 + done.length) (pre ++ x :: (done ++ ys)) =
        pre ++ (bubble x ys).1 :: (done ++ (bubble x ys).2) := by
  induction ys with
  | nil =>
    intro pre done x fuel _
    cases fuel with
    | zero => simp [innerLoop, bubble]
    | succ fuel =>
      have : ¬ (pre.length + 1 + done.length < (pre ++ x :: (done ++ [])).length) := by
        simp; omega
      simp only [innerLoop, this, if_false, bubble]
  | cons y ys ih =>
    intro pre done x fuel hfuel
    cases fuel with
    | zero => simp at hfuel
    | succ fuel =>
      have hlt : pre.length + 1 + done.length < (pre ++ x :: (done ++ y :: ys)).length := by
        simp; omega
      have hfuel2 : ys.length ≤ fuel := by simpa using hfuel
      simp only [innerLoop, hlt, if_true, swapIfGreater_split64]
      have hidx : pre.length + 1 + done.length + 1 = pre.length + 1 + (done ++ [x]).length := by
        simp; omega
      have hidy : pre.length + 1 + done.length + 1 = pre.length + 1 + (done ++ [y]).length := by
        simp; omega
      by_cases h : F64.gt y.Score x.Score = true
      · have := ih pre (done ++ [x]) y fuel hfuel2
        simp only [h, if_true, bubble]
        rw [hidx]
        simpa only [List.append_assoc, List.singleton_append] using this
      · have := ih pre (done ++ [y]) x fuel hfuel2
        simp only [h, if_false, bubble]
        rw [hidy]
        simpa only [List.append_assoc, List.singleton_append] using this

theorem bubble_length64 (ys : List ScoredStation) : ∀ x, (bubble x ys).2.length = ys.length := by
  induction ys with
  | nil => intro x; rfl
  | cons y ys ih =>
    intro x
    by_cases h : F64.gt y.Score x.Score = true <;> simp [bubble, h, ih]

theorem outerLoop_split64 (fuel : Nat) :
    ∀ (pre rest : List ScoredStation), rest.length ≤ fuel →
      outerLoop fuel pre.length (pre ++ rest) = pre ++ exchangeSort fuel rest := by
  induction fuel with
  | zero =>
    intro pre rest h
    simp [outerLoop, exchangeSort]
  | succ fuel ih =>
    intro pre rest h
    cases rest with
    | nil =>
      have : ¬ ((pre.length : Int) < ((pre ++ []).length : Int) - 1) := by simp
      simp only [outerLoop, this, if_false, exchangeSort]
    | cons x xs =>
      have hx : xs.length ≤ fuel := by simpa using h
      cases xs with
      | nil =>
        have : ¬ ((pre.length : Int) < ((pre ++ [x]).length : Int) - 1) := by simp
        simp only [outerLoop, this, if_false, exchangeSort, bubble]
        cases fuel <;> simp [exchangeSort]
      | cons y ys =>
        have hc : (pre.length : Int) < ((pre ++ x :: y :: ys).length : Int) - 1 := by
          simp; omega
        have hf : (pre ++ x :: y :: ys).length - (pre.length + 1) = (y :: ys).length := by
          simp only [List.length_append, List.length_cons]; omega
        simp only [outerLoop, hc, if_true, hf]
        have hin := innerLoop_split64 (y :: ys) pre [] x (y :: ys).length (le_refl _)
        simp only [List.length_nil, Nat.add_zero, List.nil_append] at hin
        rw [hin]
        have := ih (pre ++ [(bubble x (y :: ys)).1]) (bubble x (y :: ys)).2
          (by rw [bubble_length64]; exact hx)
        simp only [List.length_append, List.length_singleton, List.append_assoc,
          List.singleton_append] at this
        rw [this, exchangeSort]

theorem outerLoop_eq64 (l : List ScoredStation) :
    outerLoop l.length 0 l = exchangeSort l.length l := by
  simpa using outerLoop_split64 l.length [] l (le_refl _)

theorem bubble_perm64 (ys : List ScoredStation) :
    ∀ x, List.Perm ((bubble x ys).1 :: (bubble x ys).2) (x :: ys) := by
  induction ys with
  | nil => intro x; exact List.Perm.refl _
  | cons y ys ih =>
    intro x
    by_cases h : F64.gt y.Score x.Score = true
    · simp only [bubble, h, if_true]
      exact (List.Perm.swap _ _ _).trans ((ih y).cons x)
    · simp only [bubble, h, if_false]
      exact ((List.Perm.swap _ _ _).trans ((ih x).cons y)).trans (List.Perm.swap _ _ _)

theorem exchangeSort_perm64 (n : Nat) :
    ∀ l : List ScoredStation, List.Perm (exchangeSort n l) l := by
  induction n with
  | zero => intro l; exact List.Perm.refl _
  | succ n ih =>
    intro l
    cases l with
    | nil => exact List.Perm.refl _
    | cons x xs =>
      simp only [exchangeSort]
      exact ((ih _).cons _).trans (bubble_perm64 xs x)

theorem f64_lt_false_le (a b : F64) (ha : a ≠ .nan) (hb : b ≠ .nan)
    (h : F64.lt a b = false) : F64.le b a = true := by
  cases a <;> cases b <;> simp_all [F64.lt, F64.le]

theorem f64_le_of_lt (a b : F64) (h : F64.lt a b = true) : F64.le a b = true := by
  cases a <;> cases b <;> simp_all [F64.lt, F64.le]
  exact le_of_lt h

theorem f64_lt_false_of_le (a b : F64) (h : F64.le b a = true) : F64.lt a b = false := by
  cases a <;> cases b <;> simp_all [F64.lt, F64.le]

theorem f64_le_trans (a b c : F64) (h1 : F64.le a b = true) (h2 : F64.le b c = true) :
    F64.le a c = true := by
  cases a <;> cases b <;> cases c <;> simp_all [F64.le]
  exact le_trans h1 h2

theorem f64_le_refl (a : F64) (ha : a ≠ .nan) : F64.le a a = true := by
  cases a <;> simp_all [F64.le]

theorem bubble_fst_ge64 (ys : List ScoredStation) :
    ∀ x, x.Score ≠ .nan → (∀ z ∈ ys, z.Score ≠ .nan) →
      (bubble x ys).1.Score ≠ .nan ∧
      F64.le x.Score (bubble x ys).1.Score = true ∧
      ∀ z ∈ ys, F64.le z.Score (bubble x ys).1.Score = true := by
  induction ys with
  | nil =>
    intro x hx _
    exact ⟨hx, f64_le_refl _ hx, fun z hz => absurd hz (List.not_mem_nil z)⟩
  | cons y ys ih =>
    intro x hx hys
    have hy : y.Score ≠ .nan := hys y (List.mem_cons_self _ _)
    have hrest : ∀ z ∈ ys, z.Score ≠ .nan := fun z hz => hys z (List.mem_cons_of_mem _ hz)
    by_cases h : F64.gt y.Score x.Score = true
    · simp only [bubble, h, if_true]
      obtain ⟨h1, h2, h3⟩ := ih y hy hrest
      refine ⟨h1, f64_le_trans _ _ _ (f64_le_of_lt _ _ h) h2, ?_⟩
      intro z hz
      rcases List.mem_cons.1 hz with rfl | hz
      · exact h2
      · exact h3 z hz
    · simp only [bubble, h, if_false]
      obtain ⟨h1, h2, h3⟩ := ih x hx hrest
      refine ⟨h1, h2, ?_⟩
      intro z hz
      rcases List.mem_cons.1 hz with rfl | hz
      · have hle : F64.le z.Score x.Score = true :=
          f64_lt_false_le _ _ hx hy (by simpa [F64.gt] using h)
        exact f64_le_trans _ _ _ hle h2
      · exact h3 z hz

theorem bubble_of_ge64 (ys : List ScoredStation) (x : ScoredStation)
    (h : ∀ z ∈ ys, F64.ge x.Score z.Score = true) : bubble x ys = (x, ys) := by
  induction ys with
  | nil => rfl
  | cons y ys ih =>
    have hy : ¬ (F64.gt y.Score x.Score = true) := by
      have := f64_lt_false_of_le x.Score y.Score (h y (List.mem_cons_self _ _))
      simp [F64.gt, this]
    have := ih (fun z hz => h z (List.mem_cons_of_mem _ hz))
    simp [bubble, hy, this]

theorem exchangeSort_sorted64 (n : Nat) :
    ∀ l : List ScoredStation, l.length ≤ n → (∀ z ∈ l, z.Score ≠ .nan) →
      List.Pairwise (fun a b => F64.ge a.Score b.Score = true) (exchangeSort n l) := by
  induction n with
  | zero =>
    intro l h _
    have : l = [] := List.length_eq_zero.1 (Nat.le_zero.1 h)
    subst this
    exact List.Pairwise.nil
  | succ n ih =>
    intro l h hnan
    cases l with
    | nil => exact List.Pairwise.nil
    | cons x xs =>
      have hx : x.Score ≠ .nan := hnan x (List.mem_cons_self _ _)
      have hxs : ∀ z ∈ xs, z.Score ≠ .nan := fun z hz => hnan z (List.mem_cons_of_mem _ hz)
      have hsub : ∀ z ∈ (bubble x xs).2, z ∈ x :: xs := fun z hz =>
        (bubble_perm64 xs x).subset (List.mem_cons_of_mem _ hz)
      simp only [exchangeSort]
      refine List.Pairwise.cons ?_ (ih _ ?_ (fun z hz => hnan z (hsub z hz)))
      · intro z hz
        have hz2 : z ∈ (bubble x xs).2 := (exchangeSort_perm64 n _).subset hz
        rcases List.mem_cons.1 (hsub z hz2) with rfl | hz4
        · exact (bubble_fst_ge64 xs z hx hxs).2.1
        · exact (bubble_fst_ge64 xs x hx hxs).2.2 z hz4
      · rw [bubble_length64]
        simpa using h

theorem exchangeSort_of_sorted64 (n : Nat) :
    ∀ l : List ScoredStation, List.Pairwise (fun a b => F64.ge a.Score b.Score = true) l →
      exchangeSort n l = l := by
  induction n with
  | zero => intro l _; rfl
  | succ n ih =>
    intro l h
    cases l with
    | nil => rfl
    | cons x xs =>
      have hx := List.pairwise_cons.1 h
      simp only [exchangeSort, bubble_of_ge64 xs x hx.1, ih xs hx.2]

theorem sortAndLimit_of_nonneg64 (l : List ScoredStation) (limit : Int) (h : 0 ≤ limit) :
    sortAndLimit l limit = Result.ok ((exchangeSort l.length l).take limit.toNat) := by
  have hlen : (exchangeSort l.length l).length = l.length := (exchangeSort_perm64 _ l).length_eq
  unfold sortAndLimit
  simp only [outerLoop_eq64, hlen]
  by_cases hc : limit > (l.length : Int)
  · have h1 : ¬ ((l.length : Int) < 0) := by omega
    simp only [hc, if_true, h1, if_false, Int.toNat_ofNat]
    congr 1
    rw [List.take_of_length_le (by omega), List.take_of_length_le (by omega)]
  · have h1 : ¬ (limit < 0) := by omega
    simp only [hc, if_false, h1]

theorem sortAndLimit_of_neg64 (l : List ScoredStation) (limit : Int) (h : limit < 0) :
    sortAndLimit l limit = Result.panic := by
  unfold sortAndLimit
  have hc : ¬ limit > ((outerLoop l.length 0 l).length : Int) := by omega
  simp only [hc, if_false, h, if_true]

theorem sortAndLimit_length64 (l : List ScoredStation) (limit : Int) (h : 0 ≤ limit) :
    ∃ out, sortAndLimit l limit = Result.ok out ∧
      (out.length : Int) = min limit (l.length : Int) := by
  refine ⟨_, sortAndLimit_of_nonneg64 l limit h, ?_⟩
  rw [List.length_take, (exchangeSort_perm64 _ l).length_eq]
  omega

/-- C2, as stated, fails: with a NaN score neither `>` holds, so the exchange sort leaves
the scores 1, NaN, 2 as 2, NaN, 1, which is not in non-increasing order. -/
theorem sortAndLimit_nan_unsorted :
    sortAndLimit [one1, nan4, two3] 3 = Result.ok [two3, nan4, one1] ∧
    ¬ List.Chain' (fun a b => F64.ge a.Score b.Score = true) [two3, nan4, one1] ∧
    ¬ (∀ (scored : List ScoredStation) (limit : Int), 0 ≤ limit →
        ∃ out, sortAndLimit scored limit = Result.ok out ∧
          List.Chain' (fun a b => F64.ge a.Score b.Score = true) out) := by
  have he : sortAndLimit [one1, nan4, two3] 3 = Result.ok [two3, nan4, one1] := by decide
  have hc : ¬ List.Chain' (fun a b => F64.ge a.Score b.Score = true) [two3, nan4, one1] := by
    intro hch
    exact absurd (List.Chain'.rel_head hch) (by decide)
  refine ⟨he, hc, ?_⟩
  intro h
  obtain ⟨out, ho, hs⟩ := h [one1, nan4, two3] 3 (by decide)
  rw [he] at ho
  cases ho
  exact hc hs

/-- C2, amended: for every list of scored stations none of whose `Score`s is NaN and every
limit >= 0, `sortAndLimit` returns a list in non-increasing order of `Score`: every
element's score is `>=` the score of each later element, in particular of the next one. -/
theorem sortAndLimit_sorted (scored : List ScoredStation) (limit : Int) (h : 0 ≤ limit)
    (hnan : ∀ s ∈ scored, s.Score ≠ F64.nan) :
    ∃ out, sortAndLimit scored limit = Result.ok out ∧
      List.Pairwise (fun a b => F64.ge a.Score b.Score = true) out ∧
      List.Chain' (fun a b => F64.ge a.Score b.Score = true) out := by
  have hp : List.Pairwise (fun a b => F64.ge a.Score b.Score = true)
      ((exchangeSort scored.length scored).take limit.toNat) :=
    (exchangeSort_sorted64 _ scored (le_refl _) hnan).sublist (List.take_sublist _ _)
  exact ⟨_, sortAndLimit_of_nonneg64 scored limit h, hp, List.Pairwise.chain' hp⟩

/-- Witness of the amended C2 on a three-station list with limit 2. -/
theorem sortAndLimit_sorted_witness :
    ∃ out, sortAndLimit [one1, one2, two3] 2 = Result.ok out ∧
      List.Pairwise (fun a b => F64.ge a.Score b.Score = true) out ∧
      List.Chain' (fun a b => F64.ge a.Score b.Score = true) out :=
  sortAndLimit_sorted [one1, one2, two3] 2 (by decide) (by decide)

/-- C3, as stated, fails: `sortAndLimit` is not stable. On two stations tied at score 1
followed by a station of score 2 the tied stations come out in reverse order. -/
theorem sortAndLimit_not_stable :
    sortAndLimit [one1, one2, two3] 3 = Result.ok [two3, one2, one1] ∧
    ¬ (∀ (scored : List ScoredStation) (limit : Int), limit ≥ (scored.length : Int) →
        ∃ out, sortAndLimit scored limit = Result.ok out ∧
          ∀ v, withScore v out = withScore v scored) := by
  have he : sortAndLimit [one1, one2, two3] 3 = Result.ok [two3, one2, one1] := by decide
  refine ⟨he, ?_⟩
  intro h
  obtain ⟨out, ho, hv⟩ := h [one1, one2, two3] 3 (by decide)
  rw [he] at ho
  cases ho
  exact absurd (hv (.fin 1)) (by decide)

/-- C3, amended: for every list and every limit >= its length, `sortAndLimit` returns a
permutation of the list, which is in non-increasing order of `Score` when no `Score` is
NaN; it is not stable, but a list that is already in non-increasing order is returned
unchanged, so its ties keep their order. -/
theorem sortAndLimit_sorts (scored : List ScoredStation) (limit : Int)
    (h : limit ≥ (scored.length : Int)) :
    ∃ out, sortAndLimit scored limit = Result.ok out ∧
      List.Perm out scored ∧
      ((∀ s ∈ scored, s.Score ≠ F64.nan) →
        List.Pairwise (fun a b => F64.ge a.Score b.Score = true) out) ∧
      (List.Pairwise (fun a b => F64.ge a.Score b.Score = true) scored → out = scored) := by
  have h0 : 0 ≤ limit := by omega
  have hlen : (exchangeSort scored.length scored).length = scored.length :=
    (exchangeSort_perm64 _ scored).length_eq
  have htake : (exchangeSort scored.length scored).take limit.toNat =
      exchangeSort scored.length scored := List.take_of_length_le (by omega)
  refine ⟨_, sortAndLimit_of_nonneg64 scored limit h0, ?_, ?_, ?_⟩
  · rw [htake]; exact exchangeSort_perm64 _ scored
  · intro hnan
    rw [htake]; exact exchangeSort_sorted64 _ scored (le_refl _) hnan
  · intro hs
    rw [htake]; exact exchangeSort_of_sorted64 _ scored hs

/-- Witness of the amended C3 on the list with a tie. -/
theorem sortAndLimit_sorts_witness :
    ∃ out, sortAndLimit [one1, one2, two3] 3 = Result.ok out ∧
      List.Perm out [one1, one2, two3] ∧
      ((∀ s ∈ [one1, one2, two3], s.Score ≠ F64.nan) →
        List.Pairwise (fun a b => F64.ge a.Score b.Score = true) out) ∧
      (List.Pairwise (fun a b => F64.ge a.Score b.Score = true) [one1, one2, two3] →
        out = [one1, one2, two3]) :=
  sortAndLimit_sorts [one1, one2, two3] 3 (by decide)

/-- C19, as stated, fails: on the scores NaN, 1, 2 with limit 1 `sortAndLimit` returns the
station with the NaN score and leaves out the stations of score 2 and 1, whose scores are
not `<=` NaN. -/
theorem sortAndLimit_nan_not_top :
    sortAndLimit [nan4, one1, two3] 1 = Result.ok [nan4] ∧
    ¬ (∀ (scored : List ScoredStation) (limit : Int), 0 ≤ limit →
        ∃ out rest, sortAndLimit scored limit = Result.ok out ∧
          List.Perm (out ++ rest) scored ∧
          (out.length : Int) = min limit (scored.length : Int) ∧
          ∀ a ∈ rest, ∀ b ∈ out, F64.le a.Score b.Score = true) := by
  have he : sortAndLimit [nan4, one1, two3] 1 = Result.ok [nan4] := by decide
  refine ⟨he, ?_⟩
  intro h
  obtain ⟨out, rest, ho, hperm, _, hle⟩ := h [nan4, one1, two3] 1 (by decide)
  rw [he] at ho
  cases ho
  have hmem : one1 ∈ [nan4] ++ rest := hperm.symm.subset (by decide)
  have hrest : one1 ∈ rest := by
    rcases List.mem_append.1 hmem with h1 | h1
    · exact absurd h1 (by decide)
    · exact h1
  exact absurd (hle one1 hrest nan4 (List.mem_singleton_self _)) (by decide)

/-- C19, amended: for every list and every limit >= 0, `sortAndLimit` returns
`min(limit, len)` stations that, together with the stations left out, are a permutation of
the input (no station invented, duplicated or altered); when no `Score` is NaN, every
station left out has a `Score` that is `<=` the `Score` of every returned station. -/
theorem sortAndLimit_top_k (scored : List ScoredStation) (limit : Int) (h : 0 ≤ limit) :
    ∃ out rest, sortAndLimit scored limit = Result.ok out ∧
      List.Perm (out ++ rest) scored ∧
      List.Subperm out scored ∧
      (out.length : Int) = min limit (scored.length : Int) ∧
      ((∀ s ∈ scored, s.Score ≠ F64.nan) →
        ∀ a ∈ rest, ∀ b ∈ out, F64.le a.Score b.Score = true) := by
  have hperm := exchangeSort_perm64 scored.length scored
  have hsplit : (exchangeSort scored.length scored).take limit.toNat ++
      (exchangeSort scored.length scored).drop limit.toNat =
      exchangeSort scored.length scored := List.take_append_drop _ _
  refine ⟨(exchangeSort scored.length scored).take limit.toNat,
    (exchangeSort scored.length scored).drop limit.toNat,
    sortAndLimit_of_nonneg64 scored limit h, ?_, ?_, ?_, ?_⟩
  · rw [hsplit]
    exact hperm
  · exact (List.take_sublist _ _).subperm.trans hperm.subperm
  · rw [List.length_take, hperm.length_eq]
    omega
  · intro hnan a ha b hb
    have hsorted := exchangeSort_sorted64 scored.length scored (le_refl _) hnan
    rw [← hsplit] at hsorted
    exact (List.pairwise_append.1 hsorted).2.2 b hb a ha

/-- Witness of the amended C19 on a three-station list with limit 2. -/
theorem sortAndLimit_top_k_witness :
    ∃ out rest, sortAndLimit [one1, one2, two3] 2 = Result.ok out ∧
      List.Perm (out ++ rest) [one1, one2, two3] ∧
      List.Subperm out [one1, one2, two3] ∧
      (out.length : Int) = min 2 (([one1, one2, two3] : List ScoredStation).length : Int) ∧
      ((∀ s ∈ [one1, one2, two3], s.Score ≠ F64.nan) →
        ∀ a ∈ rest, ∀ b ∈ out, F64.le a.Score b.Score = true) :=
  sortAndLimit_top_k [one1, one2, two3] 2 (by decide)

/-! ### `normalizeScore` -/

theorem f64_eq_comm (a b : F64) : F64.eq a b = F64.eq b a := by
  cases a <;> cases b <;> simp [F64.eq, eq_comm]

theorem f64_add_nan_left (x : F64) : F64.add .nan x = .nan := by cases x <;> rfl

theorem f64_add_nan_right (x : F64) : F64.add x .nan = .nan := by cases x <;> rfl

theorem f64_sub_nan_left (x : F64) : F64.sub .nan x = .nan := by cases x <;> rfl

theorem f64_sub_nan_right (x : F64) : F64.sub x .nan = .nan := by cases x <;> rfl

theorem f64_mul_nan_left (x : F64) : F64.mul .nan x = .nan := by cases x <;> rfl

theorem f64_mul_nan_right (x : F64) : F64.mul x .nan = .nan := by cases x <;> rfl

theorem f64_div_nan_left (x : F64) : F64.div .nan x = .nan := by cases x <;> rfl

theorem f64_div_nan_right (x : F64) : F64.div x .nan = .nan := by cases x <;> rfl

theorem clamp_nan : F64.Min (.fin 100) (F64.Max (.fin 0) .nan) = .nan := by decide

theorem clamp_range (r : F64) (hr : r ≠ .nan) :
    F64.le (.fin 0) (F64.Min (.fin 100) (F64.Max (.fin 0) r)) = true ∧
    F64.le (F64.Min (.fin 100) (F64.Max (.fin 0) r)) (.fin 100) = true := by
  cases r with
  | nan => exact absurd rfl hr
  | ninf => decide
  | pinf => decide
  | fin q =>
    by_cases h0 : q < 0
    · have h1 : F64.Max (.fin 0) (.fin q) = .fin 0 := by
        simp [F64.Max, F64.gt, F64.lt, h0]
      rw [h1]
      decide
    · have h1 : F64.Max (.fin 0) (.fin q) = .fin q := by
        simp [F64.Max, F64.gt, F64.lt, h0]
      rw [h1]
      by_cases h100 : 100 < q
      · have h2 : F64.Min (.fin 100) (.fin q) = .fin 100 := by
          simp [F64.Min, F64.lt, h100]
        rw [h2]
        decide
      · have h2 : F64.Min (.fin 100) (.fin q) = .fin q := by
          simp [F64.Min, F64.lt, h100]
        rw [h2]
        simp only [F64.le, decide_eq_true_eq]
        exact ⟨not_lt.1 h0, not_lt.1 h100⟩

/-- C13, as stated, fails: `normalizeScore(NaN, 0, 100)` is NaN, and so is
`normalizeScore(1e308, -1e308, 1e308)`, where both differences overflow to `+Inf`; NaN is
not in [0, 100]. -/
theorem normalizeScore_nan :
    normalizeScore .nan (.fin 0) (.fin 100) = .nan ∧
    normalizeScore (.fin (10 ^ 308)) (.fin (-10 ^ 308)) (.fin (10 ^ 308)) = .nan ∧
    F64.le (.fin 0) .nan = false ∧
    ¬ (∀ v min max : F64, F64.eq min max = false →
        F64.le (.fin 0) (normalizeScore v min max) = true ∧
        F64.le (normalizeScore v min max) (.fin 100) = true) := by
  have h1 : normalizeScore .nan (.fin 0) (.fin 100) = .nan := by decide!
  refine ⟨h1, by decide!, rfl, ?_⟩
  intro h
  have := (h .nan (.fin 0) (.fin 100) (by decide)).1
  rw [h1] at this
  exact absurd this (by decide)

/-- C13, amended: `normalizeScore(v, min, max)` is exactly 50 whenever `min == max`; when
`min != max` it is NaN if the intermediate `(v - min) / (max - min) * 100` is NaN (as it
is when `v`, `min` or `max` is NaN), and a value in the closed interval [0, 100]
otherwise. -/
theorem normalizeScore_range (v min max : F64) :
    (F64.eq min max = true → normalizeScore v min max = .fin 50) ∧
    (F64.eq min max = false →
      (F64.mul (F64.div (F64.sub v min) (F64.sub max min)) (.fin 100) = .nan →
        normalizeScore v min max = .nan) ∧
      (F64.mul (F64.div (F64.sub v min) (F64.sub max min)) (.fin 100) ≠ .nan →
        F64.le (.fin 0) (normalizeScore v min max) = true ∧
        F64.le (normalizeScore v min max) (.fin 100) = true) ∧
      (v = .nan ∨ min = .nan ∨ max = .nan →
        F64.mul (F64.div (F64.sub v min) (F64.sub max min)) (.fin 100) = .nan)) := by
  constructor
  · intro h
    rw [f64_eq_comm] at h
    simp [normalizeScore, h]
  · intro h
    rw [f64_eq_comm] at h
    refine ⟨?_, ?_, ?_⟩
    · intro hr
      simp only [normalizeScore, h, hr]
      exact clamp_nan
    · intro hr
      simp only [normalizeScore, h]
      exact clamp_range _ hr
    · intro hnan
      rcases hnan with rfl | rfl | rfl
      · rw [f64_sub_nan_left, f64_div_nan_left, f64_mul_nan_left]
      · rw [f64_sub_nan_right, f64_sub_nan_right, f64_div_nan_left, f64_mul_nan_left]
      · rw [f64_sub_nan_left, f64_div_nan_right, f64_mul_nan_left]

/-- Witness of the amended C13: a degenerate range gives 50, the value 45 in the range
0..100 gives 45, and a NaN value gives NaN. -/
theorem normalizeScore_range_witness :
    normalizeScore (.fin 7) (.fin 3) (.fin 3) = .fin 50 ∧
    (F64.le (.fin 0) (normalizeScore (.fin 45) (.fin 0) (.fin 100)) = true ∧
      F64.le (normalizeScore (.fin 45) (.fin 0) (.fin 100)) (.fin 100) = true) ∧
    normalizeScore .nan (.fin 0) (.fin 100) = .nan :=
  ⟨(normalizeScore_range (.fin 7) (.fin 3) (.fin 3)).1 (by decide),
   ((normalizeScore_range (.fin 45) (.fin 0) (.fin 100)).2 (by decide)).2.1 (by decide!),
   ((normalizeScore_range .nan (.fin 0) (.fin 100)).2 (by decide)).1 (by decide!)⟩

/-! ### Rounding is monotone -/

theorem roundHalfEven_bounds (x : ℚ) : ⌊x⌋ ≤ roundHalfEven x ∧ roundHalfEven x ≤ ⌊x⌋ + 1 := by
  unfold roundHalfEven
  split_ifs <;> constructor <;> omega

theorem roundHalfEven_mono (x y : ℚ) (h : x ≤ y) : roundHalfEven x ≤ roundHalfEven y := by
  have hfl : ⌊x⌋ ≤ ⌊y⌋ := Int.floor_mono h
  rcases lt_or_eq_of_le hfl with hlt | heq
  · have := (roundHalfEven_bounds x).2
    have := (roundHalfEven_bounds y).1
    omega
  · have hfr : x - ⌊x⌋ ≤ y - ⌊y⌋ := by
      rw [heq]
      linarith
    unfold roundHalfEven
    rw [heq] at hfr ⊢
    split_ifs <;> first | omega | (exfalso; linarith)

theorem roundHalfEven_int (n : ℤ) : roundHalfEven (n : ℚ) = n := by
  unfold roundHalfEven
  simp

theorem roundHalfEven_le_int (x : ℚ) (n : ℤ) (h : x ≤ n) : roundHalfEven x ≤ n := by
  have := roundHalfEven_mono x n h
  rwa [roundHalfEven_int] at this

theorem int_le_roundHalfEven (x : ℚ) (n : ℤ) (h : (n : ℚ) ≤ x) : n ≤ roundHalfEven x := by
  have := roundHalfEven_mono n x h
  rwa [roundHalfEven_int] at this

theorem two_zpow_pos (e : ℤ) : (0 : ℚ) < (2 : ℚ) ^ e := zpow_pos (by norm_num) e

theorem two_zpow_mono (m n : ℤ) (h : m ≤ n) : (2 : ℚ) ^ m ≤ (2 : ℚ) ^ n :=
  zpow_le_zpow_right₀ (by norm_num) h

theorem searchExp_spec (a : ℚ) (k : Nat) :
    ∀ lo : ℤ, (2 : ℚ) ^ lo ≤ a → a < (2 : ℚ) ^ (lo + 2 ^ k) →
      (2 : ℚ) ^ (searchExp a k lo) ≤ a ∧ a < (2 : ℚ) ^ (searchExp a k lo + 1) ∧
        lo ≤ searchExp a k lo := by
  induction k with
  | zero =>
    intro lo h1 h2
    simp only [searchExp]
    exact ⟨h1, by simpa using h2, le_refl _⟩
  | succ k ih =>
    intro lo h1 h2
    have hsplit : lo + 2 ^ (k + 1) = lo + 2 ^ k + 2 ^ k := by
      rw [pow_succ]
      ring
    by_cases hc : (2 : ℚ) ^ (lo + 2 ^ k) ≤ a
    · simp only [searchExp, hc, if_true]
      obtain ⟨r1, r2, r3⟩ := ih (lo + 2 ^ k) hc (by rw [← hsplit]; exact h2)
      have hk : (0 : ℤ) ≤ 2 ^ k := by positivity
      exact ⟨r1, r2, by omega⟩
    · simp only [searchExp, hc, if_false]
      exact ih lo h1 (not_le.1 hc)

theorem expOf_spec (a : ℚ) (ha : a < (2 : ℚ) ^ (1024 : ℤ)) :
    -1022 ≤ expOf a ∧ a < (2 : ℚ) ^ (expOf a + 1) ∧
      (a < (2 : ℚ) ^ (-1022 : ℤ) → expOf a = -1022) ∧
      ((2 : ℚ) ^ (-1022 : ℤ) ≤ a → (2 : ℚ) ^ (expOf a) ≤ a) := by
  unfold expOf
  by_cases h : a < (2 : ℚ) ^ (-1022 : ℤ)
  · rw [if_pos h]
    refine ⟨le_refl _, ?_, fun _ => rfl, fun h2 => absurd h (not_lt.2 h2)⟩
    exact lt_of_lt_of_le h (two_zpow_mono _ _ (by norm_num))
  · rw [if_neg h]
    have hup : a < (2 : ℚ) ^ ((-1022 : ℤ) + 2 ^ 11) :=
      lt_of_lt_of_le ha (two_zpow_mono _ _ (by norm_num))
    obtain ⟨r1, r2, r3⟩ := searchExp_spec a 11 (-1022) (not_lt.1 h) hup
    exact ⟨r3, r2, fun h2 => absurd h2 h, fun _ => r1⟩

theorem expOf_mono (a b : ℚ) (hab : a ≤ b) (hb : b < (2 : ℚ) ^ (1024 : ℤ)) :
    expOf a ≤ expOf b := by
  have ha : a < (2 : ℚ) ^ (1024 : ℤ) := lt_of_le_of_lt hab hb
  obtain ⟨a1, a2, a3, a4⟩ := expOf_spec a ha
  obtain ⟨b1, b2, b3, b4⟩ := expOf_spec b hb
  by_contra hcon
  have hlt : expOf b < expOf a := not_le.1 hcon
  have hane : ¬ a < (2 : ℚ) ^ (-1022 : ℤ) := by
    intro h
    have := a3 h
    omega
  have h1 : (2 : ℚ) ^ (expOf a) ≤ a := a4 (not_lt.1 hane)
  have h2 : (2 : ℚ) ^ (expOf b + 1) ≤ (2 : ℚ) ^ (expOf a) := two_zpow_mono _ _ (by omega)
  linarith

theorem ulp_pos (a : ℚ) : 0 < ulp a := two_zpow_pos _

theorem roundMag_nonneg (a : ℚ) (ha : 0 ≤ a) : 0 ≤ roundMag a := by
  unfold roundMag
  have h0 : (0 : ℤ) ≤ roundHalfEven (a / ulp a) :=
    int_le_roundHalfEven _ 0 (by simpa using div_nonneg ha (le_of_lt (ulp_pos a)))
  exact mul_nonneg (by exact_mod_cast h0) (le_of_lt (ulp_pos a))

theorem roundMag_le_pow (a : ℚ) (ha : a < (2 : ℚ) ^ (1024 : ℤ)) :
    roundMag a ≤ (2 : ℚ) ^ (expOf a + 1) := by
  obtain ⟨_, a2, _, _⟩ := expOf_spec a ha
  have hu := ulp_pos a
  have hq : a / ulp a ≤ ((2 ^ 53 : ℤ) : ℚ) := by
    rw [div_le_iff₀ hu]
    have : ((2 ^ 53 : ℤ) : ℚ) * ulp a = (2 : ℚ) ^ (expOf a + 1) := by
      unfold ulp
      have : ((2 ^ 53 : ℤ) : ℚ) = (2 : ℚ) ^ (53 : ℤ) := by norm_num
      rw [this, ← zpow_add₀ (by norm_num : (2 : ℚ) ≠ 0)]
      congr 1
      ring
    rw [this]
    exact le_of_lt a2
  have hr := roundHalfEven_le_int _ _ hq
  unfold roundMag
  have h53 : ((2 ^ 53 : ℤ) : ℚ) * ulp a = (2 : ℚ) ^ (expOf a + 1) := by
    unfold ulp
    have : ((2 ^ 53 : ℤ) : ℚ) = (2 : ℚ) ^ (53 : ℤ) := by norm_num
    rw [this, ← zpow_add₀ (by norm_num : (2 : ℚ) ≠ 0)]
    congr 1
    ring
  rw [← h53]
  exact mul_le_mul_of_nonneg_right (by exact_mod_cast hr) (le_of_lt hu)

theorem pow_le_roundMag (a : ℚ) (ha : a < (2 : ℚ) ^ (1024 : ℤ))
    (hn : (2 : ℚ) ^ (-1022 : ℤ) ≤ a) : (2 : ℚ) ^ (expOf a) ≤ roundMag a := by
  obtain ⟨_, _, _, a4⟩ := expOf_spec a ha
  have hu := ulp_pos a
  have h52 : ((2 ^ 52 : ℤ) : ℚ) * ulp a = (2 : ℚ) ^ (expOf a) := by
    unfold ulp
    have : ((2 ^ 52 : ℤ) : ℚ) = (2 : ℚ) ^ (52 : ℤ) := by norm_num
    rw [this, ← zpow_add₀ (by norm_num : (2 : ℚ) ≠ 0)]
    congr 1
    ring
  have hq : ((2 ^ 52 : ℤ) : ℚ) ≤ a / ulp a := by
    rw [le_div_iff₀ hu, h52]
    exact a4 hn
  have hr := int_le_roundHalfEven _ _ hq
  unfold roundMag
  rw [← h52]
  exact mul_le_mul_of_nonneg_right (by exact_mod_cast hr) (le_of_lt hu)

theorem roundMag_mono (a b : ℚ) (hab : a ≤ b) (hb : b < (2 : ℚ) ^ (1024 : ℤ)) :
    roundMag a ≤ roundMag b := by
  have ha : a < (2 : ℚ) ^ (1024 : ℤ) := lt_of_le_of_lt hab hb
  have he := expOf_mono a b hab hb
  rcases lt_or_eq_of_le he with hlt | heq
  · obtain ⟨_, _, b3, _⟩ := expOf_spec b hb
    obtain ⟨a1, _, _, _⟩ := expOf_spec a ha
    have hbn : (2 : ℚ) ^ (-1022 : ℤ) ≤ b := by
      by_contra hcon
      have := b3 (not_le.1 hcon)
      omega
    have h1 := roundMag_le_pow a ha
    have h2 := pow_le_roundMag b hb hbn
    have h3 : (2 : ℚ) ^ (expOf a + 1) ≤ (2 : ℚ) ^ (expOf b) := two_zpow_mono _ _ (by omega)
    linarith
  · have hu : ulp a = ulp b := by unfold ulp; rw [heq]
    unfold roundMag
    rw [hu]
    have hq : a / ulp b ≤ b / ulp b := div_le_div_of_nonneg_right hab (le_of_lt (ulp_pos b))
    have hr := roundHalfEven_mono _ _ hq
    exact mul_le_mul_of_nonneg_right (by exact_mod_cast hr) (le_of_lt (ulp_pos b))

theorem round64_ne_nan (q : ℚ) : round64 q ≠ .nan := by
  unfold round64
  split_ifs <;> simp

theorem round64_nonneg (q : ℚ) (hq : 0 ≤ q) : F64.le (.fin 0) (round64 q) = true := by
  have hn : ¬ q < 0 := not_lt.2 hq
  unfold round64
  simp only [hn, if_false, abs_of_nonneg hq]
  split_ifs
  · rfl
  · rfl
  · simp only [F64.le, decide_eq_true_eq]
    exact roundMag_nonneg q hq

theorem round64_nonpos (q : ℚ) (hq : q < 0) : F64.le (round64 q) (.fin 0) = true := by
  unfold round64
  simp only [hq, if_true, abs_of_neg hq]
  split_ifs
  · rfl
  · rfl
  · simp only [F64.le, decide_eq_true_eq]
    have := roundMag_nonneg (-q) (by linarith)
    linarith

theorem round64_mono_nonneg (a b : ℚ) (ha : 0 ≤ a) (hab : a ≤ b) :
    F64.le (round64 a) (round64 b) = true := by
  have hb : 0 ≤ b := le_trans ha hab
  have hna : ¬ a < 0 := not_lt.2 ha
  have hnb : ¬ b < 0 := not_lt.2 hb
  unfold round64
  simp only [hna, hnb, if_false, abs_of_nonneg ha, abs_of_nonneg hb]
  by_cases h1 : b ≥ (2 : ℚ) ^ (1024 : ℤ)
  · simp only [h1, if_true]
    split_ifs <;> rfl
  · have hb' : b < (2 : ℚ) ^ (1024 : ℤ) := not_le.1 h1
    have ha' : ¬ a ≥ (2 : ℚ) ^ (1024 : ℤ) := not_le.2 (lt_of_le_of_lt hab hb')
    have hm := roundMag_mono a b hab hb'
    simp only [h1, ha', if_false]
    by_cases h2 : roundMag b ≥ (2 : ℚ) ^ (1024 : ℤ)
    · simp only [h2, if_true]
      split_ifs <;> rfl
    · have h3 : ¬ roundMag a ≥ (2 : ℚ) ^ (1024 : ℤ) := fun h => h2 (le_trans h hm)
      simp only [h2, h3, if_false, F64.le, decide_eq_true_eq]
      exact hm

theorem round64_neg (q : ℚ) : round64 (-q) = F64.neg (round64 q) := by
  rcases lt_trichotomy q 0 with h | h | h
  · have h' : ¬ (-q < 0) := by linarith
    unfold round64
    simp only [h, h', abs_neg, if_true, if_false]
    split_ifs <;> simp [F64.neg]
  · subst h
    have h0 : round64 0 = .fin 0 := by decide!
    rw [neg_zero, h0]
    simp [F64.neg]
  · have h' : -q < 0 := by linarith
    have h'' : ¬ q < 0 := by linarith
    unfold round64
    simp only [h', h'', abs_neg, if_true, if_false]
    split_ifs <;> simp [F64.neg]

theorem f64_neg_le_neg (a b : F64) (h : F64.le a b = true) :
    F64.le (F64.neg b) (F64.neg a) = true := by
  cases a <;> cases b <;> simp_all [F64.le, F64.neg]

/-- Rounding to `float64` is monotonic. -/
theorem round64_mono (a b : ℚ) (hab : a ≤ b) : F64.le (round64 a) (round64 b) = true := by
  by_cases ha : 0 ≤ a
  · exact round64_mono_nonneg a b ha hab
  · have ha' : a < 0 := not_le.1 ha
    by_cases hb : 0 ≤ b
    · exact f64_le_trans _ _ _ (round64_nonpos a ha') (round64_nonneg b hb)
    · have hb' : b < 0 := not_le.1 hb
      have := round64_mono_nonneg (-b) (-a) (by linarith) (by linarith)
      rw [round64_neg, round64_neg] at this
      have h2 := f64_neg_le_neg _ _ this
      have hnn : ∀ x : F64, F64.neg (F64.neg x) = x := by
        intro x
        cases x <;> simp [F64.neg]
      rwa [hnn, hnn] at h2

/-! ### `normalizeScore` is monotonic where it is not NaN -/

theorem clamp_fin (q : ℚ) :
    F64.Min (.fin 100) (F64.Max (.fin 0) (.fin q)) = .fin (min 100 (max 0 q)) := by
  by_cases h0 : q < 0
  · have h1 : F64.Max (.fin 0) (.fin q) = .fin 0 := by simp [F64.Max, F64.gt, F64.lt, h0]
    rw [h1, max_eq_left (le_of_lt h0)]
    decide
  · have h1 : F64.Max (.fin 0) (.fin q) = .fin q := by simp [F64.Max, F64.gt, F64.lt, h0]
    rw [h1, max_eq_right (not_lt.1 h0)]
    by_cases h100 : 100 < q
    · have h2 : F64.Min (.fin 100) (.fin q) = .fin 100 := by simp [F64.Min, F64.lt, h100]
      rw [h2, min_eq_left (le_of_lt h100)]
    · have h2 : F64.Min (.fin 100) (.fin q) = .fin q := by simp [F64.Min, F64.lt, h100]
      rw [h2, min_eq_right (not_lt.1 h100)]

theorem clamp_mono (r1 r2 : F64) (h : F64.le r1 r2 = true) :
    F64.le (F64.Min (.fin 100) (F64.Max (.fin 0) r1))
      (F64.Min (.fin 100) (F64.Max (.fin 0) r2)) = true := by
  have hninf : F64.Min (.fin 100) (F64.Max (.fin 0) .ninf) = .fin 0 := by decide
  have hpinf : F64.Min (.fin 100) (F64.Max (.fin 0) .pinf) = .fin 100 := by decide
  cases r1 with
  | nan => simp [F64.le] at h
  | ninf =>
    cases r2 with
    | nan => simp [F64.le] at h
    | ninf => rw [hninf]; decide
    | pinf => rw [hninf, hpinf]; decide
    | fin q =>
      rw [hninf, clamp_fin]
      simp only [F64.le, decide_eq_true_eq]
      exact le_min (by norm_num) (le_max_left _ _)
  | pinf =>
    cases r2 with
    | nan => simp [F64.le] at h
    | ninf => simp [F64.le] at h
    | pinf => rw [hpinf]; decide
    | fin q => simp [F64.le] at h
  | fin p =>
    cases r2 with
    | nan => simp [F64.le] at h
    | ninf => simp [F64.le] at h
    | pinf =>
      rw [hpinf, clamp_fin]
      simp only [F64.le, decide_eq_true_eq]
      exact min_le_left _ _
    | fin q =>
      rw [clamp_fin, clamp_fin]
      simp only [F64.le, decide_eq_true_eq] at h ⊢
      exact min_le_min (le_refl _) (max_le_max (le_refl _) h)

theorem f64_le_ninf_left (x : F64) (h : x ≠ .nan) : F64.le .ninf x = true := by
  cases x <;> simp_all [F64.le]

theorem f64_le_pinf_right (x : F64) (h : x ≠ .nan) : F64.le x .pinf = true := by
  cases x <;> simp_all [F64.le]

theorem f64_sub_mono_left (a b m : F64) (h : F64.le a b = true)
    (ha : F64.sub a m ≠ .nan) (hb : F64.sub b m ≠ .nan) :
    F64.le (F64.sub a m) (F64.sub b m) = true := by
  rcases a with _ | _ | _ | x <;> rcases b with _ | _ | _ | y <;> rcases m with _ | _ | _ | z <;>
    first
    | exact absurd h (by decide)
    | exact absurd rfl ha
    | exact absurd rfl hb
    | rfl
    | exact f64_le_ninf_left _ hb
    | exact f64_le_pinf_right _ ha
    | exact round64_mono (x + -z) (y + -z) (by simp [F64.le] at h; linarith)
    | simp [F64.le] at h

theorem f64_range_nonneg (min max : F64) (h : F64.le min max = true)
    (hne : F64.eq max min = false) : F64.le (.fin 0) (F64.sub max min) = true := by
  rcases min with _ | _ | _ | a <;> rcases max with _ | _ | _ | b <;>
    first
    | exact absurd h (by decide)
    | exact absurd hne (by decide)
    | rfl
    | exact round64_nonneg (b + -a) (by simp [F64.le] at h; linarith)
    | simp [F64.le] at h

theorem f64_mul_hundred_mono (x y : F64) (h : F64.le x y = true)
    (hx : F64.mul x (.fin 100) ≠ .nan) (hy : F64.mul y (.fin 100) ≠ .nan) :
    F64.le (F64.mul x (.fin 100)) (F64.mul y (.fin 100)) = true := by
  have hn : F64.mul .ninf (.fin 100) = .ninf := by decide
  have hp : F64.mul .pinf (.fin 100) = .pinf := by decide
  rcases x with _ | _ | _ | a <;> rcases y with _ | _ | _ | b <;>
    first
    | exact absurd h (by decide)
    | (rw [hn]; exact f64_le_ninf_left _ hy)
    | (rw [hp]; exact f64_le_pinf_right _ hx)
    | exact round64_mono (a * 100) (b * 100) (by simp [F64.le] at h; linarith)
    | simp [F64.le] at h

theorem f64_div_mono_left (x y d : F64) (h : F64.le x y = true)
    (hd : F64.le (.fin 0) d = true)
    (hx : F64.div x d ≠ .nan) (hy : F64.div y d ≠ .nan) :
    F64.le (F64.div x d) (F64.div y d) = true := by
  cases d with
  | nan => simp [F64.le] at hd
  | ninf => simp [F64.le] at hd
  | pinf => cases x <;> cases y <;> simp_all [F64.div, F64.le]
  | fin r =>
    have hr : 0 ≤ r := by simpa [F64.le] using hd
    have hr0 : ¬ r < 0 := not_lt.2 hr
    cases x with
    | nan => simp [F64.div] at hx
    | ninf =>
      have : F64.div .ninf (.fin r) = .ninf := by simp [F64.div, F64.inf, hr]
      rw [this]
      cases hdy : F64.div y (.fin r) with
      | nan => exact absurd hdy hy
      | ninf => rfl
      | pinf => rfl
      | fin q => rfl
    | pinf =>
      cases y with
      | nan => simp [F64.le] at h
      | ninf => simp [F64.le] at h
      | pinf =>
        have : F64.div .pinf (.fin r) = .pinf := by simp [F64.div, F64.inf, hr0]
        rw [this]
        rfl
      | fin b => simp [F64.le] at h
    | fin a =>
      cases y with
      | nan => simp [F64.le] at h
      | ninf => simp [F64.le] at h
      | pinf =>
        have : F64.div .pinf (.fin r) = .pinf := by simp [F64.div, F64.inf, hr0]
        rw [this]
        cases hdx : F64.div (.fin a) (.fin r) with
        | nan => exact absurd hdx hx
        | ninf => rfl
        | pinf => rfl
        | fin q => rfl
      | fin b =>
        have hab : a ≤ b := by simpa [F64.le] using h
        by_cases hz : r = 0
        · subst hz
          have ha0 : a ≠ 0 := by
            intro h0
            apply hx
            simp [F64.div, h0]
          have hb0 : b ≠ 0 := by
            intro h0
            apply hy
            simp [F64.div, h0]
          by_cases han : a < 0
          · have : F64.div (.fin a) (.fin 0) = .ninf := by simp [F64.div, F64.inf, ha0, han]
            rw [this]
            by_cases hbn : b < 0
            · have : F64.div (.fin b) (.fin 0) = .ninf := by
                simp [F64.div, F64.inf, hb0, hbn]
              rw [this]
              rfl
            · have : F64.div (.fin b) (.fin 0) = .pinf := by
                simp [F64.div, F64.inf, hb0, hbn]
              rw [this]
              rfl
          · have hbn : ¬ b < 0 := by
              intro hb
              exact han (lt_of_le_of_lt hab hb)
            have h1 : F64.div (.fin a) (.fin 0) = .pinf := by
              simp [F64.div, F64.inf, ha0, han]
            have h2 : F64.div (.fin b) (.fin 0) = .pinf := by
              simp [F64.div, F64.inf, hb0, hbn]
            rw [h1, h2]
            rfl
        · have hpos : 0 < r := lt_of_le_of_ne hr (fun e => hz e.symm)
          simp only [F64.div, hz, if_false]
          exact round64_mono _ _ (div_le_div_of_nonneg_right hab (le_of_lt hpos))

/-- C14, as stated, fails: with an inverted range (`min = 10`, `max = 0`) the rescaling is
decreasing, `normalizeScore(0, 10, 0) = 100` and `normalizeScore(10, 10, 0) = 0`; and with
`min = -1e308`, `max = 1e308` the value at 0 is 0 while the value at 1e308 is NaN. -/
theorem normalizeScore_not_monotone :
    normalizeScore (.fin 0) (.fin 10) (.fin 0) = .fin 100 ∧
    normalizeScore (.fin 10) (.fin 10) (.fin 0) = .fin 0 ∧
    normalizeScore (.fin 0) (.fin (-10 ^ 308)) (.fin (10 ^ 308)) = .fin 0 ∧
    normalizeScore (.fin (10 ^ 308)) (.fin (-10 ^ 308)) (.fin (10 ^ 308)) = .nan ∧
    ¬ (∀ min max v1 v2 : F64, F64.le v1 v2 = true →
        F64.le (normalizeScore v1 min max) (normalizeScore v2 min max) = true) := by
  have h1 : normalizeScore (.fin 0) (.fin 10) (.fin 0) = .fin 100 := by decide!
  have h2 : normalizeScore (.fin 10) (.fin 10) (.fin 0) = .fin 0 := by decide!
  refine ⟨h1, h2, by decide!, by decide!, ?_⟩
  intro h
  have := h (.fin 10) (.fin 0) (.fin 0) (.fin 10) (by decide)
  rw [h1, h2] at this
  exact absurd this (by decide)

/-- C14, amended: for every `min <= max`, `normalizeScore` is monotonic non-decreasing in
its value argument wherever it is not NaN: for every `v1 <= v2` with
`normalizeScore(v1, min, max)` and `normalizeScore(v2, min, max)` both not NaN,
`normalizeScore(v1, min, max) <= normalizeScore(v2, min, max)`. -/
theorem normalizeScore_monotone (min max v1 v2 : F64) (hrange : F64.le min max = true)
    (hv : F64.le v1 v2 = true)
    (h1 : normalizeScore v1 min max ≠ .nan) (h2 : normalizeScore v2 min max ≠ .nan) :
    F64.le (normalizeScore v1 min max) (normalizeScore v2 min max) = true := by
  by_cases he : F64.eq max min = true
  · simp [normalizeScore, he, F64.le]
  · have he' : F64.eq max min = false := by simpa using he
    simp only [normalizeScore, he'] at h1 h2 ⊢
    have hr1 : F64.mul (F64.div (F64.sub v1 min) (F64.sub max min)) (.fin 100) ≠ .nan := by
      intro hc
      rw [hc] at h1
      exact h1 clamp_nan
    have hr2 : F64.mul (F64.div (F64.sub v2 min) (F64.sub max min)) (.fin 100) ≠ .nan := by
      intro hc
      rw [hc] at h2
      exact h2 clamp_nan
    have hq1 : F64.div (F64.sub v1 min) (F64.sub max min) ≠ .nan := by
      intro hc
      rw [hc, f64_mul_nan_left] at hr1
      exact hr1 rfl
    have hq2 : F64.div (F64.sub v2 min) (F64.sub max min) ≠ .nan := by
      intro hc
      rw [hc, f64_mul_nan_left] at hr2
      exact hr2 rfl
    have hs1 : F64.sub v1 min ≠ .nan := by
      intro hc
      rw [hc, f64_div_nan_left] at hq1
      exact hq1 rfl
    have hs2 : F64.sub v2 min ≠ .nan := by
      intro hc
      rw [hc, f64_div_nan_left] at hq2
      exact hq2 rfl
    apply clamp_mono
    refine f64_mul_hundred_mono _ _ ?_ hr1 hr2
    exact f64_div_mono_left _ _ _ (f64_sub_mono_left v1 v2 min hv hs1 hs2)
      (f64_range_nonneg min max hrange he') hq1 hq2

/-- Witness of the amended C14 on the range 0..20. -/
theorem normalizeScore_monotone_witness :
    F64.le (normalizeScore (.fin 3) (.fin 0) (.fin 20))
      (normalizeScore (.fin 5) (.fin 0) (.fin 20)) = true :=
  normalizeScore_monotone (.fin 0) (.fin 20) (.fin 3) (.fin 5) (by decide) (by decide)
    (by decide!) (by decide!)

/-! ### Representable values -/

theorem round64_fin_lt (x y : ℚ) (h : round64 x = .fin y) : |x| < (2 : ℚ) ^ (1024 : ℤ) := by
  by_contra hc
  have hc' : |x| ≥ (2 : ℚ) ^ (1024 : ℤ) := not_lt.1 hc
  unfold round64 at h
  rw [if_pos hc'] at h
  split_ifs at h

theorem round64_of_nonneg (x : ℚ) (hx : 0 ≤ x) (h1 : x < (2 : ℚ) ^ (1024 : ℤ))
    (h2 : roundMag x < (2 : ℚ) ^ (1024 : ℤ)) : round64 x = .fin (roundMag x) := by
  unfold round64
  rw [abs_of_nonneg hx, if_neg (not_le.2 h1), if_neg (not_le.2 h2), if_neg (not_lt.2 hx)]

theorem round64_fin_nonneg (x y : ℚ) (hx : 0 ≤ x) (h : round64 x = .fin y) :
    y = roundMag x ∧ roundMag x < (2 : ℚ) ^ (1024 : ℤ) := by
  unfold round64 at h
  rw [abs_of_nonneg hx, if_neg (not_lt.2 hx), if_neg (not_lt.2 hx)] at h
  by_cases h1 : x ≥ (2 : ℚ) ^ (1024 : ℤ)
  · rw [if_pos h1] at h
    exact absurd h (by simp)
  · rw [if_neg h1] at h
    by_cases h2 : roundMag x ≥ (2 : ℚ) ^ (1024 : ℤ)
    · rw [if_pos h2] at h
      exact absurd h (by simp)
    · rw [if_neg h2] at h
      simp only [F64.fin.injEq] at h
      exact ⟨h.symm, not_le.1 h2⟩

theorem roundMag_of_int (a : ℚ) (n : ℤ) (h : a / ulp a = (n : ℚ)) : roundMag a = a := by
  unfold roundMag
  rw [h, roundHalfEven_int, ← h]
  exact div_mul_cancel₀ a (ne_of_gt (ulp_pos a))

theorem two_zpow_nat_cast (m : ℤ) (hm : 0 ≤ m) :
    (2 : ℚ) ^ m = (((2 : ℤ) ^ m.toNat : ℤ) : ℚ) := by
  obtain ⟨n, rfl⟩ := Int.eq_ofNat_of_zero_le hm
  simp

theorem two_zpow_lt_iff (m n : ℤ) : (2 : ℚ) ^ m < (2 : ℚ) ^ n ↔ m < n :=
  zpow_lt_zpow_iff_right₀ (by norm_num)

theorem two_zpow_le_iff (m n : ℤ) : (2 : ℚ) ^ m ≤ (2 : ℚ) ^ n ↔ m ≤ n :=
  zpow_le_zpow_iff_right₀ (by norm_num)

theorem roundMag_pow2 (k : ℤ) (h1 : -1074 ≤ k) (h2 : k ≤ 1023) :
    roundMag ((2 : ℚ) ^ k) = (2 : ℚ) ^ k := by
  have hlt : (2 : ℚ) ^ k < (2 : ℚ) ^ (1024 : ℤ) := (two_zpow_lt_iff _ _).2 (by omega)
  obtain ⟨e1, e2, e3, e4⟩ := expOf_spec ((2 : ℚ) ^ k) hlt
  have he : expOf ((2 : ℚ) ^ k) ≤ k + 52 := by
    by_cases hs : (2 : ℚ) ^ k < (2 : ℚ) ^ (-1022 : ℤ)
    · rw [e3 hs]
      omega
    · have := (two_zpow_le_iff _ _).1 (e4 (not_lt.1 hs))
      omega
  apply roundMag_of_int _ ((2 : ℤ) ^ (k - expOf ((2 : ℚ) ^ k) + 52).toNat)
  unfold ulp
  rw [← zpow_sub₀ (by norm_num : (2 : ℚ) ≠ 0), ← two_zpow_nat_cast _ (by omega)]
  congr 1
  ring

theorem round64_pow2 (k : ℤ) (h1 : -1074 ≤ k) (h2 : k ≤ 1023) :
    round64 ((2 : ℚ) ^ k) = .fin ((2 : ℚ) ^ k) := by
  have hlt : (2 : ℚ) ^ k < (2 : ℚ) ^ (1024 : ℤ) := (two_zpow_lt_iff _ _).2 (by omega)
  have hm := roundMag_pow2 k h1 h2
  rw [round64_of_nonneg _ (le_of_lt (two_zpow_pos k)) hlt (by rw [hm]; exact hlt), hm]

theorem round64_tiny (y : ℚ) (h0 : 0 ≤ y) (h1 : y < (2 : ℚ) ^ (-1075 : ℤ)) :
    round64 y = .fin 0 := by
  have hlt : y < (2 : ℚ) ^ (1024 : ℤ) :=
    lt_trans h1 ((two_zpow_lt_iff _ _).2 (by norm_num))
  have hs : y < (2 : ℚ) ^ (-1022 : ℤ) := lt_trans h1 ((two_zpow_lt_iff _ _).2 (by norm_num))
  obtain ⟨_, _, e3, _⟩ := expOf_spec y hlt
  have hu : ulp y = (2 : ℚ) ^ (-1074 : ℤ) := by
    unfold ulp
    rw [e3 hs]
    norm_num
  have hq : y / ulp y < 1 / 2 := by
    rw [hu, div_lt_iff₀ (two_zpow_pos _)]
    have : (1 / 2 : ℚ) * (2 : ℚ) ^ (-1074 : ℤ) = (2 : ℚ) ^ (-1075 : ℤ) := by
      have : (1 / 2 : ℚ) = (2 : ℚ) ^ (-1 : ℤ) := by norm_num
      rw [this, ← zpow_add₀ (by norm_num : (2 : ℚ) ≠ 0)]
      norm_num
    rw [this]
    exact h1
  have hq0 : 0 ≤ y / ulp y := div_nonneg h0 (le_of_lt (ulp_pos y))
  have hfl : ⌊y / ulp y⌋ = 0 := by
    rw [Int.floor_eq_iff]
    constructor
    · simpa using hq0
    · simp only [Int.cast_zero, zero_add]
      linarith
  have hr : roundHalfEven (y / ulp y) = 0 := by
    unfold roundHalfEven
    rw [hfl]
    simp only [Int.cast_zero, sub_zero]
    rw [if_pos hq]
  have hm : roundMag y = 0 := by
    unfold roundMag
    rw [hr]
    simp
  rw [round64_of_nonneg y h0 hlt (by rw [hm]; exact two_zpow_pos _), hm]

/-- Rounding a non-negative value twice is rounding it once. -/
theorem round64_idem (x y : ℚ) (hx : 0 ≤ x) (h : round64 x = .fin y) :
    round64 y = .fin y := by
  obtain ⟨hy, hylt⟩ := round64_fin_nonneg x y hx h
  have hxlt : x < (2 : ℚ) ^ (1024 : ℤ) := by
    have := round64_fin_lt x y h
    rwa [abs_of_nonneg hx] at this
  have hy0 : 0 ≤ y := by
    rw [hy]
    exact roundMag_nonneg x hx
  rw [← hy] at hylt
  obtain ⟨x1, x2, x3, x4⟩ := expOf_spec x hxlt
  obtain ⟨y1, y2, y3, y4⟩ := expOf_spec y hylt
  have hmag : roundMag y = y := by
    by_cases hee : expOf y ≤ expOf x
    · apply roundMag_of_int y
        (roundHalfEven (x / ulp x) * (2 : ℤ) ^ (expOf x - expOf y).toNat)
      rw [Int.cast_mul, ← two_zpow_nat_cast _ (by omega)]
      have : y = roundHalfEven (x / ulp x) * ulp x := hy
      rw [div_eq_iff (ne_of_gt (ulp_pos y))]
      nth_rewrite 1 [this]
      unfold ulp
      rw [mul_assoc, ← zpow_add₀ (by norm_num : (2 : ℚ) ≠ 0)]
      congr 2
      ring
    · have hgt : expOf x < expOf y := not_le.1 hee
      have hyn : ¬ y < (2 : ℚ) ^ (-1022 : ℤ) := by
        intro hs
        have := y3 hs
        omega
      have hlow : (2 : ℚ) ^ (expOf y) ≤ y := y4 (not_lt.1 hyn)
      have hup : y ≤ (2 : ℚ) ^ (expOf x + 1) := by
        rw [hy]
        exact roundMag_le_pow x hxlt
      have hle : (2 : ℚ) ^ (expOf x + 1) ≤ (2 : ℚ) ^ (expOf y) :=
        two_zpow_mono _ _ (by omega)
      have hyeq : y = (2 : ℚ) ^ (expOf y) := le_antisymm (le_trans hup hle) hlow
      have hk : expOf y ≤ 1023 := by
        have : (2 : ℚ) ^ (expOf y) < (2 : ℚ) ^ (1024 : ℤ) := by
          rw [← hyeq]
          exact hylt
        have := (two_zpow_lt_iff _ _).1 this
        omega
      rw [hyeq]
      exact roundMag_pow2 _ (by omega) hk
  rw [round64_of_nonneg y hy0 hylt (by rw [hmag]; exact hylt), hmag]

/-- Rounding keeps a non-negative value below a representable bound. -/
theorem round64_between (x r : ℚ) (hx : 0 ≤ x) (hxr : x ≤ r) (hr : round64 r = .fin r) :
    ∃ y, round64 x = .fin y ∧ 0 ≤ y ∧ y ≤ r ∧ round64 y = .fin y := by
  have h1 := round64_nonneg x hx
  have h2 := round64_mono x r hxr
  rw [hr] at h2
  cases hv : round64 x with
  | nan => rw [hv] at h1; simp [F64.le] at h1
  | ninf => rw [hv] at h1; simp [F64.le] at h1
  | pinf => rw [hv] at h2; simp [F64.le] at h2
  | fin y =>
    rw [hv] at h1 h2
    simp only [F64.le, decide_eq_true_eq] at h1 h2
    exact ⟨y, rfl, h1, h2, round64_idem x y hx hv⟩

/-- Rounding `a * d` for `a <= 1/2` and `d` the rounded value of `x` stays below `x`. -/
theorem round64_scaled_le (a x d p r : ℚ) (ha0 : 0 ≤ a) (ha : a < 1 / 2) (hx : 0 ≤ x)
    (hxr : x ≤ r) (hr : round64 r = .fin r)
    (hd : round64 x = .fin d) (hp : round64 (a * d) = .fin p) : p ≤ x := by
  have hrlt : r < (2 : ℚ) ^ (1024 : ℤ) := by
    have := round64_fin_lt r r hr
    exact lt_of_le_of_lt (le_abs_self r) this
  have hd0 : 0 ≤ d := by
    have := round64_nonneg x hx
    rw [hd] at this
    simpa [F64.le] using this
  have hdr : d ≤ r := by
    have := round64_mono x r hxr
    rw [hd, hr] at this
    simpa [F64.le] using this
  by_cases hsmall : x < (2 : ℚ) ^ (-1074 : ℤ)
  · have hd1 : d ≤ (2 : ℚ) ^ (-1074 : ℤ) := by
      have := round64_mono x ((2 : ℚ) ^ (-1074 : ℤ)) (le_of_lt hsmall)
      rw [hd, round64_pow2 _ (by norm_num) (by norm_num)] at this
      simpa [F64.le] using this
    have hpow : (1 / 2 : ℚ) * (2 : ℚ) ^ (-1074 : ℤ) = (2 : ℚ) ^ (-1075 : ℤ) := by
      have : (1 / 2 : ℚ) = (2 : ℚ) ^ (-1 : ℤ) := by norm_num
      rw [this, ← zpow_add₀ (by norm_num : (2 : ℚ) ≠ 0)]
      norm_num
    have hlt : a * d < (2 : ℚ) ^ (-1075 : ℤ) := by
      rw [← hpow]
      calc a * d ≤ a * (2 : ℚ) ^ (-1074 : ℤ) := mul_le_mul_of_nonneg_left hd1 ha0
        _ < 1 / 2 * (2 : ℚ) ^ (-1074 : ℤ) := mul_lt_mul_of_pos_right ha (two_zpow_pos _)
    have := round64_tiny (a * d) (mul_nonneg ha0 hd0) hlt
    rw [hp] at this
    simp only [F64.fin.injEq] at this
    rw [this]
    exact hx
  · have hbig : (2 : ℚ) ^ (-1074 : ℤ) ≤ x := not_lt.1 hsmall
    have hxpos : 0 < x := lt_of_lt_of_le (two_zpow_pos _) hbig
    obtain ⟨k, hk1, hk2⟩ := exists_mem_Ico_zpow hxpos (by norm_num : (1 : ℚ) < 2)
    have hklow : -1074 ≤ k := by
      have := (two_zpow_lt_iff _ _).1 (lt_of_le_of_lt hbig hk2)
      omega
    have hkup : k ≤ 1023 := by
      have := (two_zpow_lt_iff _ _).1 (lt_of_le_of_lt hk1 (lt_of_le_of_lt hxr hrlt))
      omega
    have hd2 : d ≤ (2 : ℚ) ^ (k + 1) := by
      by_cases hk : k + 1 ≤ 1023
      · have := round64_mono x ((2 : ℚ) ^ (k + 1)) (le_of_lt hk2)
        rw [hd, round64_pow2 _ (by omega) hk] at this
        simpa [F64.le] using this
      · have hk' : k + 1 = 1024 := by omega
        rw [hk']
        exact le_of_lt (lt_of_le_of_lt hdr hrlt)
    have hpow : (1 / 2 : ℚ) * (2 : ℚ) ^ (k + 1) = (2 : ℚ) ^ k := by
      rw [zpow_add_one₀ (by norm_num : (2 : ℚ) ≠ 0)]
      ring
    have hle : a * d ≤ (2 : ℚ) ^ k := by
      rw [← hpow]
      exact mul_le_mul (le_of_lt ha) hd2 hd0 (by norm_num)
    have := round64_mono (a * d) ((2 : ℚ) ^ k) hle
    rw [hp, round64_pow2 k hklow hkup] at this
    simp only [F64.le, decide_eq_true_eq] at this
    exact le_trans this hk1

/-! ### The update law in `float64` arithmetic -/

theorem alpha_value : round64 (1 / 10) = .fin (3602879701896397 / 36028797018963968) := by
  decide!

theorem gamma_times_zero : F64.mul (round64 (9 / 10)) (.fin 0) = .fin 0 := by
  decide!

/-- One update from a representable value `q` with `0 <= q <= r` gives a representable
value between `q` and `r`. -/
theorem update_step (q r : ℚ) (hq0 : 0 ≤ q) (hqr : q ≤ r) (hq : round64 q = .fin q)
    (hr : round64 r = .fin r) :
    ∃ q', F64.add (.fin q) (F64.mul (round64 (1 / 10))
        (F64.sub (F64.add (.fin r) (F64.mul (round64 (9 / 10)) (.fin 0))) (.fin q))) = .fin q' ∧
      q ≤ q' ∧ q' ≤ r ∧ round64 q' = .fin q' := by
  rw [gamma_times_zero, alpha_value]
  have e1 : F64.add (.fin r) (.fin 0) = .fin r := by
    show round64 (r + 0) = .fin r
    rw [add_zero, hr]
  rw [e1]
  have hx : 0 ≤ r + -q := by linarith
  obtain ⟨d, hd, hd0, hdr, _⟩ := round64_between (r + -q) r hx (by linarith) hr
  have e2 : F64.sub (.fin r) (.fin q) = .fin d := hd
  rw [e2]
  have had0 : (0 : ℚ) ≤ 3602879701896397 / 36028797018963968 * d :=
    mul_nonneg (by norm_num) hd0
  have hadr : (3602879701896397 / 36028797018963968 : ℚ) * d ≤ r := by
    have : (3602879701896397 / 36028797018963968 : ℚ) * d ≤ 1 * d :=
      mul_le_mul_of_nonneg_right (by norm_num) hd0
    linarith
  obtain ⟨p, hp, hp0, _, _⟩ := round64_between _ r had0 hadr hr
  have e3 : F64.mul (.fin (3602879701896397 / 36028797018963968)) (.fin d) = .fin p := hp
  rw [e3]
  have hpx : p ≤ r + -q :=
    round64_scaled_le _ (r + -q) d p r (by norm_num) (by norm_num) hx (by linarith) hr hd hp
  obtain ⟨q', hq', _, hq'r, hrep⟩ := round64_between (q + p) r (by linarith) (by linarith) hr
  refine ⟨q', hq', ?_, hq'r, hrep⟩
  have := round64_mono q (q + p) (by linarith)
  rw [hq, (hq' : round64 (q + p) = .fin q')] at this
  simpa [F64.le] using this

theorem getQValue_eq_entry64 (s : RLScorer) (u st h d : Int) :
    s.getQValue u st h d = (s.entry? u st h).elim (.fin 0) QEntry.qValue := by
  unfold RLScorer.getQValue RLScorer.entry?
  cases s.qTable.get? u with
  | none => rfl
  | some userQ =>
    simp only
    cases userQ.get? st with
    | none => rfl
    | some hourQ =>
      simp only
      cases hourQ.get? h <;> rfl

theorem getQValue_update_self64 (s : RLScorer) (u st h d d' : Int) (r : F64) (t : Nat) :
    (s.UpdateQValue u st h d r t).getQValue u st h d' =
      F64.add (s.getQValue u st h d) (F64.mul s.alpha
        (F64.sub (F64.add r (F64.mul s.gamma (.fin 0))) (s.getQValue u st h d))) := by
  unfold RLScorer.UpdateQValue RLScorer.getQValue
  simp only [GoMap.get?_set_self]
  cases s.qTable.get? u with
  | none => simp [GoMap.empty, GoMap.get?]
  | some userQ =>
    simp only
    cases userQ.get? st with
    | none => simp [GoMap.empty, GoMap.get?]
    | some hourQ =>
      simp only
      cases hourQ.get? h <;> simp

theorem alpha_update64 (s : RLScorer) (u st h d : Int) (r : F64) (t : Nat) :
    (s.UpdateQValue u st h d r t).alpha = s.alpha ∧
      (s.UpdateQValue u st h d r t).gamma = s.gamma := ⟨rfl, rfl⟩

theorem afterUpdates_append64 (u st h : Int) (r : F64) (calls : List (Int × Nat))
    (c : Int × Nat) :
    ∀ s : RLScorer, RLScorer.afterUpdates u st h r (calls ++ [c]) s =
      (RLScorer.afterUpdates u st h r calls s).UpdateQValue u st h c.1 r c.2 := by
  induction calls with
  | nil => intro s; rfl
  | cons c' calls ih =>
    intro s
    simp only [List.cons_append, RLScorer.afterUpdates]
    exact ih _

theorem afterUpdates_params64 (u st h : Int) (r : F64) (calls : List (Int × Nat)) :
    ∀ s : RLScorer, (RLScorer.afterUpdates u st h r calls s).alpha = s.alpha ∧
      (RLScorer.afterUpdates u st h r calls s).gamma = s.gamma := by
  induction calls with
  | nil => intro s; exact ⟨rfl, rfl⟩
  | cons c calls ih =>
    intro s
    simp only [RLScorer.afterUpdates]
    rw [(ih _).1, (ih _).2]
    exact alpha_update64 s u st h c.1 r c.2

/-- After any number of updates with the reward `r` the value of the key is a
representable number between 0 and `r`. -/
theorem getQValue_afterUpdates64 (u st h : Int) (r : ℚ)
    (hr : round64 r = .fin r) (calls : List (Int × Nat)) :
    ∀ (s : RLScorer) (d : Int), s.alpha = round64 (1 / 10) → s.gamma = round64 (9 / 10) →
      (∃ q, s.getQValue u st h d = .fin q ∧ 0 ≤ q ∧ q ≤ r ∧ round64 q = .fin q) →
      ∃ q, (RLScorer.afterUpdates u st h (.fin r) calls s).getQValue u st h d = .fin q ∧
        0 ≤ q ∧ q ≤ r ∧ round64 q = .fin q := by
  induction calls with
  | nil => intro s d _ _ hq; exact hq
  | cons c calls ih =>
    intro s d ha hg hq
    obtain ⟨q, e, q0, qr, qrep⟩ := hq
    simp only [RLScorer.afterUpdates]
    apply ih _ d (by rw [(alpha_update64 s u st h c.1 (.fin r) c.2).1]; exact ha)
      (by rw [(alpha_update64 s u st h c.1 (.fin r) c.2).2]; exact hg)
    rw [getQValue_update_self64 s u st h c.1 d (.fin r) c.2, ha, hg]
    have e' : s.getQValue u st h c.1 = .fin q := e
    rw [e']
    obtain ⟨q', s1, s2, s3, s4⟩ := update_step q r q0 qr qrep hr
    exact ⟨q', s1, le_trans q0 s2, s3, s4⟩

/-- A finite `float64` that is not negative is a multiple of `2^-1074`. -/
theorem round64_grid (x y : ℚ) (hx : 0 ≤ x) (h : round64 x = .fin y) :
    ∃ m : ℕ, y = (m : ℚ) * (2 : ℚ) ^ (-1074 : ℤ) := by
  obtain ⟨hy, _⟩ := round64_fin_nonneg x y hx h
  have hxlt : x < (2 : ℚ) ^ (1024 : ℤ) := by
    have := round64_fin_lt x y h
    rwa [abs_of_nonneg hx] at this
  obtain ⟨e1, _, _, _⟩ := expOf_spec x hxlt
  have hn : (0 : ℤ) ≤ roundHalfEven (x / ulp x) :=
    int_le_roundHalfEven _ 0 (by simpa using div_nonneg hx (le_of_lt (ulp_pos x)))
  refine ⟨(roundHalfEven (x / ulp x)).toNat * 2 ^ (expOf x + 1022).toNat, ?_⟩
  have hcast : (((roundHalfEven (x / ulp x)).toNat : ℕ) : ℚ) = (roundHalfEven (x / ulp x) : ℚ) := by
    have := Int.toNat_of_nonneg hn
    exact_mod_cast this
  have hpow : (((2 : ℕ) ^ (expOf x + 1022).toNat : ℕ) : ℚ) = (2 : ℚ) ^ (expOf x + 1022) := by
    rw [two_zpow_nat_cast _ (by omega)]
    push_cast
    rfl
  rw [hy, Nat.cast_mul, hcast, hpow, mul_assoc, ← zpow_add₀ (by norm_num : (2 : ℚ) ≠ 0)]
  unfold roundMag ulp
  congr 2
  ring

/-- With a positive finite reward the value cannot rise strictly at every call: the
values are multiples of `2^-1074` between 0 and the reward. -/
theorem q_value_not_strict (s : RLScorer) (u st h : Int) (r : ℚ) (c : Int × Nat) (d : Int)
    (hr : 0 < r) (hfinite : round64 r = .fin r)
    (halpha : s.alpha = round64 (1 / 10)) (hgamma : s.gamma = round64 (9 / 10))
    (habsent : s.entry? u st h = none) :
    ¬ ∀ N : ℕ,
      F64.lt ((RLScorer.afterUpdates u st h (.fin r) (List.replicate N c) s).getQValue u st h d)
        ((RLScorer.afterUpdates u st h (.fin r) (List.replicate (N + 1) c) s).getQValue
          u st h d) = true := by
  intro hall
  have h0 : s.getQValue u st h d = .fin 0 := by
    rw [getQValue_eq_entry64, habsent]
    rfl
  have hz : round64 0 = .fin 0 := by decide!
  have hinv : ∀ N : ℕ, ∃ q : ℚ,
      (RLScorer.afterUpdates u st h (.fin r) (List.replicate N c) s).getQValue u st h d
        = .fin q ∧ 0 ≤ q ∧ q ≤ r ∧ round64 q = .fin q := fun N =>
    getQValue_afterUpdates64 u st h r hfinite (List.replicate N c) s d halpha hgamma
      ⟨0, h0, le_refl _, le_of_lt hr, hz⟩
  have hpos : (0 : ℚ) < (2 : ℚ) ^ (-1074 : ℤ) := two_zpow_pos _
  have hgrow : ∀ N : ℕ, ∃ (q : ℚ) (m : ℕ),
      (RLScorer.afterUpdates u st h (.fin r) (List.replicate N c) s).getQValue u st h d
        = .fin q ∧ q = (m : ℚ) * (2 : ℚ) ^ (-1074 : ℤ) ∧ N ≤ m ∧ q ≤ r := by
    intro N
    induction N with
    | zero =>
      obtain ⟨q, e, q0, qr, qrep⟩ := hinv 0
      obtain ⟨m, hm⟩ := round64_grid q q q0 qrep
      exact ⟨q, m, e, hm, Nat.zero_le _, qr⟩
    | succ N ih =>
      obtain ⟨q, m, e, hm, hNm, _⟩ := ih
      obtain ⟨q', e', q0', qr', qrep'⟩ := hinv (N + 1)
      obtain ⟨m', hm'⟩ := round64_grid q' q' q0' qrep'
      refine ⟨q', m', e', hm', ?_, qr'⟩
      have hlt := hall N
      rw [e, e'] at hlt
      have hqq : q < q' := by simpa [F64.lt] using hlt
      rw [hm, hm'] at hqq
      have hmm : (m : ℚ) < (m' : ℚ) := lt_of_mul_lt_mul_right hqq (le_of_lt hpos)
      have : m < m' := by exact_mod_cast hmm
      omega
  obtain ⟨M, hM⟩ := exists_nat_gt (r / (2 : ℚ) ^ (-1074 : ℤ))
  obtain ⟨q, m, _, hm, hMm, hqr⟩ := hgrow M
  have h1 : (m : ℚ) ≤ r / (2 : ℚ) ^ (-1074 : ℤ) := by
    rw [le_div_iff₀ hpos, ← hm]
    exact hqr
  have h2 : (M : ℚ) ≤ (m : ℚ) := by exact_mod_cast hMm
  linarith

/-- The number `2^-1074` (about 5e-324) is a `float64`, the smallest positive one. -/
theorem tiny_is_float : round64 (1 / 2 ^ 1074) = .fin (1 / 2 ^ 1074) := by
  decide!

/-- C7, as stated, fails in `float64` arithmetic. With the reward 60 and a new scorer the
value does not rise strictly at every call (the values are `float64`s between 0 and 60,
so the rise must stop); a call with the reward 60 leaves the value
2111062325329919/35184372088832, which is below 60, unchanged; and the value after 2
calls is 6417629469002957/562949953421312, not `60 * (1 - 0.9^2)`. With the smallest
positive reward, `2^-1074`, the value after one call and after two calls is 0: neither
`0 < Q_1` nor `Q_1 < Q_2` holds. -/
theorem q_value_stalls :
    (¬ ∀ N : ℕ,
      F64.lt
        ((RLScorer.afterUpdates 7 1 2 (.fin 60) (List.replicate N (3, 100))
          (NewRLScorer sampleQueries)).getQValue 7 1 2 3)
        ((RLScorer.afterUpdates 7 1 2 (.fin 60) (List.replicate (N + 1) (3, 100))
          (NewRLScorer sampleQueries)).getQValue 7 1 2 3) = true) ∧
    stalledScorer.getQValue 7 1 2 3 = .fin (2111062325329919 / 35184372088832) ∧
    (stalledScorer.UpdateQValue 7 1 2 3 (.fin 60) 100).getQValue 7 1 2 3
      = .fin (2111062325329919 / 35184372088832) ∧
    (2111062325329919 / 35184372088832 : ℚ) < 60 ∧
    (RLScorer.afterUpdates 7 1 2 (.fin 60) [(3, 100), (3, 100)]
        (NewRLScorer sampleQueries)).getQValue 7 1 2 3
      = .fin (6417629469002957 / 562949953421312) ∧
    (6417629469002957 / 562949953421312 : ℚ) ≠ 60 * (1 - (9 / 10) ^ 2) ∧
    (0 : ℚ) < 1 / 2 ^ 1074 ∧
    round64 (1 / 2 ^ 1074) = .fin (1 / 2 ^ 1074) ∧
    (RLScorer.afterUpdates 7 1 2 (.fin (1 / 2 ^ 1074)) [(3, 100)]
        (NewRLScorer sampleQueries)).getQValue 7 1 2 3 = .fin 0 ∧
    (RLScorer.afterUpdates 7 1 2 (.fin (1 / 2 ^ 1074)) [(3, 100), (3, 100)]
        (NewRLScorer sampleQueries)).getQValue 7 1 2 3 = .fin 0 := by
  refine ⟨?_, by decide!, by decide!, by norm_num, by decide!, by norm_num, by positivity,
    tiny_is_float, by decide!, by decide!⟩
  exact q_value_not_strict (NewRLScorer sampleQueries) 7 1 2 60 (3, 100) 3 (by norm_num)
    (by decide!) rfl rfl rfl

/-- C7, amended: for a positive finite `float64` reward `r` and a key that is not yet in
the table, the values `Q_N` and `Q_{N+1}` read after `N` and `N + 1` calls of
`UpdateQValue` with that reward are finite and satisfy `0 <= Q_N <= Q_{N+1} <= r`, for
every `N` and whatever `dayOfWeek` and clock each call sees. -/
theorem q_value_rises (s : RLScorer) (u st h : Int) (r : ℚ) (calls : List (Int × Nat))
    (c : Int × Nat) (d : Int)
    (hr : 0 < r) (hfinite : round64 r = .fin r)
    (halpha : s.alpha = round64 (1 / 10)) (hgamma : s.gamma = round64 (9 / 10))
    (habsent : s.entry? u st h = none) :
    ∃ qN qN1 : ℚ,
      (RLScorer.afterUpdates u st h (.fin r) calls s).getQValue u st h d = .fin qN ∧
      (RLScorer.afterUpdates u st h (.fin r) (calls ++ [c]) s).getQValue u st h d
        = .fin qN1 ∧
      0 ≤ qN ∧ qN ≤ qN1 ∧ qN1 ≤ r := by
  have h0 : s.getQValue u st h d = .fin 0 := by
    rw [getQValue_eq_entry64, habsent]
    rfl
  have hz : round64 0 = .fin 0 := by decide!
  obtain ⟨q, e, q0, qr, qrep⟩ := getQValue_afterUpdates64 u st h r hfinite
    calls s d halpha hgamma ⟨0, h0, le_refl _, le_of_lt hr, hz⟩
  obtain ⟨q', s1, s2, s3, _⟩ := update_step q r q0 qr qrep hfinite
  refine ⟨q, q', e, ?_, q0, s2, s3⟩
  rw [afterUpdates_append64, getQValue_update_self64,
    (afterUpdates_params64 u st h (.fin r) calls s).1,
    (afterUpdates_params64 u st h (.fin r) calls s).2, halpha, hgamma]
  have e' : (RLScorer.afterUpdates u st h (.fin r) calls s).getQValue u st h c.1 = .fin q := e
  rw [e']
  exact s1

/-- Witness of the amended C7: reward 60, a new scorer, two calls and then a third. -/
theorem q_value_rises_witness :
    ∃ qN qN1 : ℚ,
      (RLScorer.afterUpdates 7 1 2 (.fin 60) [(3, 100), (4, 200)]
        (NewRLScorer sampleQueries)).getQValue 7 1 2 3 = .fin qN ∧
      (RLScorer.afterUpdates 7 1 2 (.fin 60) ([(3, 100), (4, 200)] ++ [(5, 300)])
        (NewRLScorer sampleQueries)).getQValue 7 1 2 3 = .fin qN1 ∧
      0 ≤ qN ∧ qN ≤ qN1 ∧ qN1 ≤ 60 :=
  q_value_rises (NewRLScorer sampleQueries) 7 1 2 60 [(3, 100), (4, 200)] (5, 300) 3
    (by norm_num) (by decide!) rfl rfl rfl

/-! ### The distance component beyond 20 km -/

theorem f64_max_zero_of_le (v : F64) (h : F64.le v (.fin 0) = true) :
    F64.Max (.fin 0) v = .fin 0 := by
  cases v with
  | nan => simp [F64.le] at h
  | ninf => decide
  | pinf => simp [F64.le] at h
  | fin y =>
    have hy : y ≤ 0 := by simpa [F64.le] using h
    by_cases h0 : y = 0
    · subst h0
      decide
    · have hlt : y < 0 := lt_of_le_of_ne hy h0
      simp [F64.Max, F64.gt, F64.lt, hlt]

/-- In `float64` arithmetic a distance `>= 20` (plus infinity included) gives the distance
component exactly 0. -/
theorem distanceScore_far (dist : F64) (h : F64.ge dist (.fin 20) = true) :
    distanceScore dist = .fin 0 := by
  have hsub : F64.le (F64.sub (.fin 20) dist) (.fin 0) = true := by
    cases dist with
    | nan => simp [F64.ge, F64.le] at h
    | ninf => simp [F64.ge, F64.le] at h
    | pinf => decide
    | fin d =>
      have hd : 20 ≤ d := by simpa [F64.ge, F64.le] using h
      have h0 : round64 0 = .fin 0 := by decide!
      have := round64_mono (20 + -d) 0 (by linarith)
      rw [h0] at this
      exact this
  unfold distanceScore
  rw [f64_max_zero_of_le _ hsub]
  decide!

/-- A NaN distance gives a NaN distance component. -/
theorem distanceScore_nan : distanceScore .nan = .nan := by
  decide!

end IEEE

/-! ## The distance component beyond the cutoff -/

/-- C16, as stated, fails in the heuristic scorer when two fetched stations carry the
same identifier: the station `dupFar` is 33.3 km from the user, yet every station the
heuristic scorer returns, the one for `dupFar` included, has the `distance` component
250, because the distance is read back from a map keyed by station ID. Besides, in
`float64` arithmetic a NaN distance gives a NaN component, not 0. -/
theorem far_station_distance_of_last_id :
    dupFar ∈ dupStations ∧
    sampleDist sampleRequest5.UserLat sampleRequest5.UserLng dupFar.Lat dupFar.Lng ≥ 20 ∧
    (NewLinearRegressionScorer dupQueries).Score sampleDist sampleRequest5
      = Result.ok dupLinearOut ∧
    (∀ b ∈ dupLinearOut, b.StationID = dupFar.ID ∧
      GoMap.get? (κ := String) b.Components "distance" = some 250) ∧
    IEEE.distanceScore .nan = .nan ∧
    ¬ (∀ b ∈ dupLinearOut, b.StationID = dupFar.ID →
      GoMap.get? (κ := String) b.Components "distance" = some 0) := by
  refine ⟨List.mem_cons_self _ _, by decide!, by decide!, by decide!,
    IEEE.distanceScore_nan, ?_⟩
  intro h
  have := h dupLinearFar (by decide!) rfl
  exact absurd this (by decide!)

/-- C16, amended: when the fetched stations have pairwise distinct identifiers, a returned
station for which `calculateDistance` returns a distance `>= 20` has the `distance`
component 0, in the heuristic and in the personalized scorer; and in `float64` arithmetic
the expression `normalizeScore(math.Max(0, 20-dist), 0, 20) * 2.5` of both scorers is
exactly 0 for every `dist >= 20`, plus infinity included (a NaN distance is not `>= 20`). -/
theorem far_station_distance_zero (ls : LinearRegressionScorer) (rs : RLScorer)
    (calcDist : ℚ → ℚ → ℚ → ℚ → ℚ) (rng : Rand) (req : ScoreRequest)
    (stations : List Station) (outL outR : List ScoredStation)
    (hfetchL : ls.queries.ListStations = Except.ok stations)
    (hfetchR : rs.queries.ListStations = Except.ok stations)
    (hid : (stations.map Station.ID).Nodup)
    (hL : ls.Score calcDist req = Result.ok outL)
    (hR : (rs.Score calcDist rng req).1 = Result.ok outR)
    (st : Station) (hst : st ∈ stations)
    (hfar : calcDist req.UserLat req.UserLng st.Lat st.Lng ≥ 20) :
    (∀ b ∈ outL, b.StationID = st.ID →
      GoMap.get? (κ := String) b.Components "distance" = some 0) ∧
    (∀ a ∈ outR, a.StationID = st.ID →
      GoMap.get? (κ := String) a.Components "distance" = some 0) ∧
    (∀ dist : IEEE.F64, IEEE.F64.ge dist (.fin 20) = true →
      IEEE.distanceScore dist = .fin 0) := by
  refine ⟨?_, ?_, IEEE.distanceScore_far⟩
  · intro b hb hsame
    obtain ⟨st', hst', dists, rfl, hd⟩ := linear_out_station ls calcDist req stations outL
      hfetchL hid hL b hb
    have hst_eq : st' = st := station_of_id stations hid st' st hst' hst hsame
    subst hst_eq
    simp only [linearScoreStation, hd, normalizeScore_far _ hfar]
    simp [GoMap.get?]
  · intro a ha hsame
    obtain ⟨st', hst', rng', rfl⟩ := rl_out_station rs calcDist rng req stations outR
      hfetchR hR a ha
    have hst_eq : st' = st := station_of_id stations hid st' st hst' hst hsame
    subst hst_eq
    simp only [rlScoreStation, normalizeScore_far _ hfar]
    simp [GoMap.get?]

/-- Witness of the amended C16 on the sample collaborator: station 3 is 33.3 km from the
user; and a `float64` distance of 25. -/
theorem far_station_distance_zero_witness :
    GoMap.get? (κ := String) sampleLinearThird.Components "distance" = some 0 ∧
    GoMap.get? (κ := String) sampleFreshThird.Components "distance" = some 0 ∧
    IEEE.distanceScore (.fin 25) = .fin 0 := by
  have h := far_station_distance_zero (NewLinearRegressionScorer sampleQueries)
    (NewRLScorer sampleQueries) sampleDist sampleRand sampleRequest5 sampleStations
    sampleLinearOut sampleFreshOut rfl rfl (by decide) (by decide!) (by decide!)
    sampleStation3 (by decide!) (by decide!)
  exact ⟨h.1 sampleLinearThird (by decide!) rfl, h.2.1 sampleFreshThird (by decide!) rfl,
    h.2.2 (.fin 25) (by decide!)⟩

end Recommend
